import Mathlib

/-!
# ParU front initialisation: `paru_init_rowFronts`

A shallow embedding of `ParU/Source/paru_init_rowFronts.cpp`.

Modelling conventions.

* `int64_t` values are `Int` (no arithmetic of the function can overflow on
  an input that fits in memory); `double` values are `ℚ`, i.e. exact
  arithmetic, with `fabs` as `|·|` and `std::max` as `max`.
* A C array is a total map from its index to its content.  Memory obtained
  from `malloc` and not yet written is `none`; memory from `calloc` is zero.
  A pointer that may be `NULL` is an `Option` of such a map.
* A `for (x = lo; x < hi; x++)` loop is a left fold over `loopRange lo hi`;
  the two OpenMP loops (diagonal map, rows) are run in index order.
* The outcome of every allocation is an input (`AllocOutcomes`).
* A call either returns a status or dereferences a null pointer
  (`Outcome.undefined`).
-/

namespace ParU

/-! ## Data model -/

/-- Status codes used by `paru_init_rowFronts`. -/
inductive ParU_Info where
  | PARU_SUCCESS
  | PARU_OUT_OF_MEMORY
  | PARU_SINGULAR
  deriving DecidableEq, Repr

/-- The input matrix in compressed-column form (`A->p`, `A->i`, `A->x`). -/
structure cholmod_sparse where
  p : Int → Int
  i : Int → Int
  x : Int → ℚ

/-- The fields of the symbolic analysis read by `paru_init_rowFronts`.
`ustons_nnz`, `ustons_Sup`, `lstons_nnz`, `lstons_Slp` stand for
`ustons.nnz`, `ustons.Sup`, `lstons.nnz`, `lstons.Slp`; `symmetric` is
`strategy == PARU_STRATEGY_SYMMETRIC`. -/
structure ParU_Symbolic where
  m : Int
  n : Int
  n1 : Int
  cs1 : Int
  rs1 : Int
  nf : Int
  snz : Int
  ntasks : Int
  symmetric : Bool
  Sp : Int → Int
  Sj : Int → Int
  ustons_nnz : Int
  ustons_Sup : Int → Int
  lstons_nnz : Int
  lstons_Slp : Int → Int
  Qfill : Int → Int
  Pinv : Int → Int
  row2atree : Int → Int
  Diag_map : Int → Int

/-- The fields of the control object read by `paru_init_rowFronts`. -/
structure ParU_Control where
  prescale : Int
  paru_max_threads : Int

/-- The index range of `for (x = lo; x < hi; x++)`. -/
def loopRange (lo hi : Int) : List Int :=
  (List.range (hi - lo).toNat).map (fun (k : Nat) => lo + (k : Int))

/-! ## The region splitter (lines 290-378) -/

/-- One visit of the doubly nested loop over the permuted columns: the
permuted column `newcol` and the position `p` in `A->i`, `A->x`. -/
structure Visit where
  newcol : Int
  p : Int
  deriving DecidableEq, Repr

/-- The iterations of
`for (newcol = 0; newcol < Sym->n; newcol++)
   for (p = Ap[Qinit[newcol]]; p < Ap[Qinit[newcol] + 1]; p++)`
in execution order. -/
def visits (A : cholmod_sparse) (Sym : ParU_Symbolic) : List Visit :=
  (loopRange 0 Sym.n).flatMap (fun newcol =>
    (loopRange (A.p (Sym.Qfill newcol)) (A.p (Sym.Qfill newcol + 1))).map
      (fun p => Visit.mk newcol p))

/-- Body of the first pass (line 298):
`Rs[oldrow] = std::max(Rs[oldrow], fabs(Ax[p]))` with `oldrow = Ai[p]`. -/
def scaleStep (A : cholmod_sparse) (Rs : Int → ℚ) (p : Int) : Int → ℚ :=
  Function.update Rs (A.i p) (max (Rs (A.i p)) |A.x p|)

/-- First pass (lines 292-300), run when `Rs` is not null, starting from the
zero array returned by `PARU_CALLOC`. -/
def scalePass (A : cholmod_sparse) (Sym : ParU_Symbolic) (Rs : Int → ℚ) : Int → ℚ :=
  (loopRange 0 Sym.n).foldl (fun Rs newcol =>
    (loopRange (A.p (Sym.Qfill newcol)) (A.p (Sym.Qfill newcol + 1))).foldl
      (scaleStep A) Rs) Rs

/-- The test of lines 307-316: some `k` with `0 <= k < m` has `Rs[k] <= 0`. -/
def singularRow (m : Int) (Rs : Int → ℚ) : Bool :=
  (loopRange 0 m).any (fun k => decide (Rs k ≤ 0))

/-- The value stored for position `p`:
`(Rs == NULL) ? Ax[p] : Ax[p] / Rs[oldrow]`. -/
def scaledValue (A : cholmod_sparse) (Rs : Option (Int → ℚ)) (p : Int) : ℚ :=
  match Rs with
  | none => A.x p
  | some R => A.x p / R (A.i p)

/-- State of the second pass: the three cursor copies and the three value
arrays. -/
structure SplitState where
  cSp : Int → Int
  cSup : Int → Int
  cSlp : Int → Int
  Sx : Int → Option ℚ
  Sux : Int → Option ℚ
  Slx : Int → Option ℚ

/-- Body of the second pass (lines 325-376). -/
def splitStep (A : cholmod_sparse) (Sym : ParU_Symbolic) (Rs : Option (Int → ℚ))
    (st : SplitState) (v : Visit) : SplitState :=
  let newcol := v.newcol
  let oldrow := A.i v.p
  let newrow := Sym.Pinv oldrow
  let srow := newrow - Sym.n1
  let scol := newcol - Sym.n1
  let val := scaledValue A Rs v.p
  if srow ≥ 0 ∧ scol ≥ 0 then
    -- Sx[cSp[srow]++] = val
    { st with Sx := Function.update st.Sx (st.cSp srow) (some val),
              cSp := Function.update st.cSp srow (st.cSp srow + 1) }
  else if srow < 0 ∧ scol ≥ 0 then
    -- Sux[++cSup[newrow]] = val
    { st with cSup := Function.update st.cSup newrow (st.cSup newrow + 1),
              Sux := Function.update st.Sux (st.cSup newrow + 1) (some val) }
  else if newrow < Sym.cs1 then
    if newcol = newrow then
      -- Sux[Sup[newrow]] = val
      { st with Sux := Function.update st.Sux (Sym.ustons_Sup newrow) (some val) }
    else
      -- Sux[++cSup[newrow]] = val
      { st with cSup := Function.update st.cSup newrow (st.cSup newrow + 1),
                Sux := Function.update st.Sux (st.cSup newrow + 1) (some val) }
  else
    if newcol = newrow then
      -- Slx[Slp[newcol - cs1]] = val
      { st with Slx := Function.update st.Slx (Sym.lstons_Slp (newcol - Sym.cs1)) (some val) }
    else
      -- Slx[++cSlp[newcol - cs1]] = val
      { st with cSlp := Function.update st.cSlp (newcol - Sym.cs1)
                          (st.cSlp (newcol - Sym.cs1) + 1),
                Slx := Function.update st.Slx (st.cSlp (newcol - Sym.cs1) + 1) (some val) }

/-- State at line 320: the cursors are the copies of `Sp`, `Sup`, `Slp` made
by `paru_memcpy` (lines 238-246) and no slot of the freshly allocated value
arrays has been written.  With `cs1 <= 0` (`rs1 <= 0`) the source has null
pointers for `Sup`, `cSup`, `Sux` (`Slp`, `cSlp`, `Slx`): the components given
here for such a region stand for nothing, `splitPassNull` tells whether a
step of the pass uses them, and `initNumerics` is then `Outcome.undefined`. -/
def splitInit (Sym : ParU_Symbolic) : SplitState :=
  { cSp := Sym.Sp, cSup := Sym.ustons_Sup, cSlp := Sym.lstons_Slp,
    Sx := fun _ => none, Sux := fun _ => none, Slx := fun _ => none }

/-- Second pass (lines 320-378) as the nested loops of the source. -/
def splitPass (A : cholmod_sparse) (Sym : ParU_Symbolic) (Rs : Option (Int → ℚ))
    (st : SplitState) : SplitState :=
  (loopRange 0 Sym.n).foldl (fun st newcol =>
    (loopRange (A.p (Sym.Qfill newcol)) (A.p (Sym.Qfill newcol + 1))).foldl
      (fun st p => splitStep A Sym Rs st (Visit.mk newcol p)) st) st

/-- Whether the step for the visit `v` (lines 325-376) goes through a null
pointer.  `Sx` and `cSp` have been tested or used before the pass; `Sux`,
`cSup` and `Sup` are null unless `cs1 > 0` (lines 172-183 and 237), and
`Slx`, `cSlp` and `Slp` are null unless `rs1 > 0` (lines 185-196 and 236). -/
def splitStepNull (A : cholmod_sparse) (Sym : ParU_Symbolic) (v : Visit) : Bool :=
  let newcol := v.newcol
  let oldrow := A.i v.p
  let newrow := Sym.Pinv oldrow
  let srow := newrow - Sym.n1
  let scol := newcol - Sym.n1
  if srow ≥ 0 ∧ scol ≥ 0 then
    -- Sx[cSp[srow]++]
    false
  else if srow < 0 ∧ scol ≥ 0 then
    -- Sux[++cSup[newrow]]
    decide (¬ Sym.cs1 > 0)
  else if newrow < Sym.cs1 then
    -- Sux[Sup[newrow]] or Sux[++cSup[newrow]]
    decide (¬ Sym.cs1 > 0)
  else
    -- Slx[Slp[newcol - cs1]] or Slx[++cSlp[newcol - cs1]]
    decide (¬ Sym.rs1 > 0)

/-- Some step of the second pass (lines 320-378) goes through a null
pointer. -/
def splitPassNull (A : cholmod_sparse) (Sym : ParU_Symbolic) : Bool :=
  (visits A Sym).any (splitStepNull A Sym)

/-! ## Elements, tuple lists and allocation -/

/-- Modelled from the spec: the record `paru_element` is declared in
`paru_internal.hpp`, which is not part of the sources at hand.  The spec
describes it as a row count, a column count, an index array holding the
column indices followed by the row index, and a numeric array.
`colrowIndex` is the array returned by `colIndex_pointer` and `colrowNum`
the one returned by `numeric_pointer`; entries not yet written are `none`. -/
structure paru_element where
  nrows : Int
  ncols : Int
  colrowIndex : Int → Option Int
  colrowNum : Int → Option ℚ

/-- A tuple `(e, f)`: element id and local slot. -/
structure paru_tuple where
  e : Int
  f : Int
  deriving DecidableEq, Repr

/-- A tuple list: `numTuple` entries used out of `len`, stored in `list`
(`none` is the null pointer). -/
structure paru_tupleList where
  numTuple : Int
  len : Int
  list : Option (Int → Option paru_tuple)

/-- A zero-initialised `ParU_Factors` record, as left by `PARU_CALLOC`. -/
structure ParU_Factors where
  m : Int
  n : Int
  p : Option (Int → ℚ)

/-- The outcome of every allocation attempted by `paru_init_rowFronts`:
`true` means the allocator returned memory.  The per-row fields are indexed
by the row whose unit makes the attempt; `heapNew` is `new std::vector`,
`heapPush` the allocation inside `push_back`, and `addTupleGrow` the
allocation made by `paru_add_rowTuple` when the list is full (`none` when it
fails, otherwise the capacity of the new list). -/
structure AllocOutcomes where
  Num : Bool
  rowMark : Bool
  elRow : Bool
  elCol : Bool
  rowSize : Bool
  row_degree_bound : Bool
  RowList : Bool
  lacList : Bool
  frowCount : Bool
  fcolCount : Bool
  frowList : Bool
  fcolList : Bool
  partial_Us : Bool
  partial_LUs : Bool
  time_stamp : Bool
  task_num_child : Bool
  heapList : Bool
  elementList : Bool
  Diag_map : Bool
  inv_Diag_map : Bool
  Sx : Bool
  cSp : Bool
  Sux : Bool
  cSup : Bool
  Slx : Bool
  cSlp : Bool
  Rs : Bool
  element : Int → Bool
  heapNew : Int → Bool
  heapPush : Int → Bool
  rowList : Int → Bool
  addTupleGrow : Int → Option Int

/-- Modelled from the spec: `PARU_MALLOC` belongs to the allocator, which is
not part of the sources at hand.  It returns the null pointer on failure and
otherwise an array none of whose slots has been written. -/
def PARU_MALLOC {α : Type} (ok : Bool) : Option (Int → Option α) :=
  if ok then some (fun _ => none) else none

/-- Modelled from the spec: `PARU_CALLOC` belongs to the allocator, which is
not part of the sources at hand.  It returns the null pointer on failure and
otherwise an array filled with the zero value `z`. -/
def PARU_CALLOC {α : Type} (ok : Bool) (z : α) : Option (Int → α) :=
  if ok then some (fun _ => z) else none

/-- Modelled from the spec: `paru_memset` is defined outside the sources at
hand.  The call `paru_memset(a, -1, cnt * sizeof(int64_t), Control)` sets
the `cnt` leading entries of `a` to the sentinel `-1`. -/
def paru_memset (a : Int → Option Int) (cnt : Int) : Int → Option Int :=
  fun k => if 0 ≤ k ∧ k < cnt then some (-1) else a k

/-- Modelled from the spec: `paru_create_element` is defined outside the
sources at hand.  The spec has it allocate an element with the given numbers
of rows and columns, or return null when the allocation fails; the index and
numeric arrays of a new element have not been written. -/
def paru_create_element (ok : Bool) (nrows ncols : Int) : Option paru_element :=
  if ok then
    some { nrows := nrows, ncols := ncols,
           colrowIndex := fun _ => none, colrowNum := fun _ => none }
  else none

/-- Modelled from the spec: `paru_add_rowTuple` is defined outside the
sources at hand.  The spec describes a tuple list as a growable ordered
sequence holding `numTuple` tuples in a list of capacity `len`; inserting
stores the tuple at position `numTuple`.  When the list is full a larger one
is allocated: `grow` is the outcome of that allocation, `none` for failure
(reported as `PARU_OUT_OF_MEMORY`) and otherwise the new capacity. -/
def paru_add_rowTuple (grow : Option Int) (RowList : Int → paru_tupleList) (row : Int)
    (T : paru_tuple) : ParU_Info × (Int → paru_tupleList) :=
  let cur := RowList row
  if cur.len > cur.numTuple then
    (ParU_Info.PARU_SUCCESS,
      Function.update RowList row
        ({ cur with list := (cur.list.map fun l => Function.update l cur.numTuple (some T)),
                    numTuple := cur.numTuple + 1 }))
  else
    match grow with
    | none => (ParU_Info.PARU_OUT_OF_MEMORY, RowList)
    | some newLen =>
      (ParU_Info.PARU_SUCCESS,
        Function.update RowList row
          ({ list := some (Function.update (cur.list.getD fun _ => none) cur.numTuple (some T)),
             numTuple := cur.numTuple + 1, len := newLen }))

/-! ## The per-row stage (lines 462-549) -/

/-- The arrays touched by the per-row stage together with the failure
counter `out_of_memory`. -/
structure RowStage where
  row_degree_bound : Int → Option Int
  elementList : Int → Option paru_element
  rowMark : Int → Option Int
  heapList : Int → Option (List Int)
  RowList : Int → paru_tupleList
  lacList : Int → Option Int
  out_of_memory : Int

/-- The copy loop of lines 529-536 for one element: column indices and
values of the row's segment of `Sj`, `Sx`, then the row index. -/
def fillElement (Sp Sj : Int → Int) (Sx : Int → Option ℚ) (row : Int)
    (curEl : paru_element) : paru_element :=
  let filled := (loopRange (Sp row) (Sp (row + 1))).foldl
    (fun (acc : paru_element × Int) p =>
      ({ acc.1 with colrowIndex := Function.update acc.1.colrowIndex acc.2 (some (Sj p)),
                    colrowNum := Function.update acc.1.colrowNum acc.2 (Sx p) },
       acc.2 + 1))
    (curEl, 0)
  { filled.1 with colrowIndex := Function.update filled.1.colrowIndex filled.2 (some row) }

/-- The body of the loop over rows (lines 468-548).  `lac_el` is defined
outside the sources at hand and is a parameter.  `ncols` is the difference of
the two offsets in the integers, which is the value of the `int64_t`
subtraction of line 470 whenever that subtraction does not overflow. -/
def rowUnit (alloc : AllocOutcomes)
    (lac_el : (Int → Option paru_element) → Int → Int)
    (Sym : ParU_Symbolic) (Sx : Int → Option ℚ) (W : RowStage) (row : Int) : RowStage :=
  let e := Sym.row2atree row
  let nrows : Int := 1
  let ncols := Sym.Sp (row + 1) - Sym.Sp row
  let W := { W with row_degree_bound := Function.update W.row_degree_bound row (some ncols) }
  match paru_create_element (alloc.element row) nrows ncols with
  | none =>
    { W with elementList := Function.update W.elementList e none,
             out_of_memory := W.out_of_memory + 1 }
  | some curEl =>
    let W := { W with elementList := Function.update W.elementList e (some curEl) }
    let W := { W with rowMark := Function.update W.rowMark e (some 0) }
    if ¬ alloc.heapNew row then
      -- `new` throws std::bad_alloc
      { W with out_of_memory := W.out_of_memory + 1 }
    else
      let W := { W with heapList := Function.update W.heapList e (some []) }
      if ¬ alloc.heapPush row then
        -- `push_back` throws std::bad_alloc
        { W with out_of_memory := W.out_of_memory + 1 }
      else
        let W := { W with heapList := Function.update W.heapList e (some [e]) }
        let slackRow : Int := 2
        if ¬ alloc.rowList row then
          -- RowList[row].list = NULL
          let cur := W.RowList row
          { W with RowList := Function.update W.RowList row ({ cur with list := none }),
                   out_of_memory := W.out_of_memory + 1 }
        else
          let fresh : paru_tupleList :=
            { list := some (fun _ => none), numTuple := 0, len := slackRow }
          let W := { W with RowList := Function.update W.RowList row fresh }
          let rowTuple : paru_tuple := { e := e, f := 0 }
          match paru_add_rowTuple (alloc.addTupleGrow row) W.RowList row rowTuple with
          | (ParU_Info.PARU_OUT_OF_MEMORY, RL) =>
            { W with RowList := RL, out_of_memory := W.out_of_memory + 1 }
          | (_, RL) =>
            let W := { W with RowList := RL }
            let filled := fillElement Sym.Sp Sym.Sj Sx row curEl
            let W := { W with elementList := Function.update W.elementList e (some filled) }
            { W with lacList := Function.update W.lacList e (some (lac_el W.elementList e)) }

/-- The loop over rows (lines 466-549), the units taken in index order. -/
def rowStage (alloc : AllocOutcomes)
    (lac_el : (Int → Option paru_element) → Int → Int)
    (Sym : ParU_Symbolic) (Sx : Int → Option ℚ) (m : Int) (W : RowStage) : RowStage :=
  (loopRange 0 m).foldl (rowUnit alloc lac_el Sym Sx) W

/-- Lines 555-563: the returned status as a function of the counter. -/
def finalInfo (out_of_memory : Int) : ParU_Info :=
  if out_of_memory > 0 then ParU_Info.PARU_OUT_OF_MEMORY else ParU_Info.PARU_SUCCESS

/-! ## The whole function -/

/-- The fields of the numeric object set by `paru_init_rowFronts`. -/
structure ParU_Numeric where
  sym_m : Int
  m : Int
  nf : Int
  res : ParU_Info
  snz : Int
  sunz : Int
  slnz : Int
  frowCount : Option (Int → Option Int)
  fcolCount : Option (Int → Option Int)
  frowList : Option (Int → Option (Int → Option Int))
  fcolList : Option (Int → Option (Int → Option Int))
  partial_Us : Option (Int → ParU_Factors)
  partial_LUs : Option (Int → ParU_Factors)
  Sx : Option (Int → Option ℚ)
  Sux : Option (Int → Option ℚ)
  Slx : Option (Int → Option ℚ)
  Rs : Option (Int → ℚ)
  Ps : Option (Int → ℚ)
  Pfin : Option (Int → Int)

/-- The fields of the work object set by `paru_init_rowFronts`. -/
structure paru_work where
  rowMark : Option (Int → Option Int)
  elRow : Option (Int → Option Int)
  elCol : Option (Int → Option Int)
  rowSize : Option (Int → Option Int)
  time_stamp : Option (Int → Option Int)
  RowList : Option (Int → paru_tupleList)
  Diag_map : Option (Int → Option Int)
  inv_Diag_map : Option (Int → Option Int)
  elementList : Option (Int → Option paru_element)
  lacList : Option (Int → Option Int)
  task_num_child : Option (Int → Option Int)
  heapList : Option (Int → Option (List Int))
  row_degree_bound : Option (Int → Option Int)

/-- What a call of `paru_init_rowFronts` does: it returns a status, leaving
`*Num_handle` and `*Work` as given, or it dereferences a null pointer. -/
inductive Outcome where
  | returned (info : ParU_Info) (Num_handle : Option ParU_Numeric) (Work : paru_work)
  | undefined

/-- Lines 49-62: every pointer of the work object is set to null. -/
def workNull : paru_work :=
  { rowMark := none, elRow := none, elCol := none, rowSize := none, time_stamp := none,
    RowList := none, Diag_map := none, inv_Diag_map := none, elementList := none,
    lacList := none, task_num_child := none, heapList := none, row_degree_bound := none }

/-- Lines 78-95: the numeric object after `PARU_CALLOC` and the first
assignments. -/
def numInit (Sym : ParU_Symbolic) : ParU_Numeric :=
  { sym_m := Sym.m, m := Sym.m - Sym.n1, nf := Sym.nf, res := ParU_Info.PARU_SUCCESS,
    snz := 0, sunz := 0, slnz := 0,
    frowCount := none, fcolCount := none, frowList := none, fcolList := none,
    partial_Us := none, partial_LUs := none, Sx := none, Sux := none, Slx := none,
    Rs := none, Ps := none, Pfin := none }

/-- Lines 100-124: the allocations of the work object made when `nf != 0`. -/
def workAlloc (alloc : AllocOutcomes) : paru_work :=
  { workNull with
    rowMark := PARU_MALLOC alloc.rowMark,
    elRow := PARU_MALLOC alloc.elRow,
    elCol := PARU_MALLOC alloc.elCol,
    rowSize := PARU_MALLOC alloc.rowSize,
    row_degree_bound := PARU_MALLOC alloc.row_degree_bound,
    RowList := PARU_CALLOC alloc.RowList { numTuple := 0, len := 0, list := none },
    lacList := PARU_MALLOC alloc.lacList,
    time_stamp := PARU_MALLOC alloc.time_stamp,
    task_num_child := PARU_MALLOC alloc.task_num_child,
    heapList := PARU_CALLOC alloc.heapList none,
    elementList := PARU_CALLOC alloc.elementList none }

/-- Lines 109-116: the allocations of the numeric object made when
`nf != 0`. -/
def numAlloc (alloc : AllocOutcomes) (Num : ParU_Numeric) : ParU_Numeric :=
  { Num with
    frowCount := PARU_MALLOC alloc.frowCount,
    fcolCount := PARU_MALLOC alloc.fcolCount,
    frowList := PARU_CALLOC alloc.frowList none,
    fcolList := PARU_CALLOC alloc.fcolList none,
    partial_Us := PARU_CALLOC alloc.partial_Us { m := 0, n := 0, p := none },
    partial_LUs := PARU_CALLOC alloc.partial_LUs { m := 0, n := 0, p := none } }

/-- The test of lines 126-134. -/
def workspaceNull (Work : paru_work) (Num : ParU_Numeric) : Bool :=
  Work.rowMark.isNone || Work.elRow.isNone || Work.elCol.isNone ||
  Work.rowSize.isNone || Work.row_degree_bound.isNone || Work.RowList.isNone ||
  Work.lacList.isNone ||
  Num.frowCount.isNone || Num.fcolCount.isNone ||
  Num.frowList.isNone || Num.fcolList.isNone ||
  Num.partial_Us.isNone || Num.partial_LUs.isNone ||
  Work.time_stamp.isNone || Work.task_num_child.isNone ||
  Work.heapList.isNone ||
  Work.elementList.isNone

/-- Lines 212-229: the sentinel initialisation made when `nf != 0`. -/
def workMemset (m nf : Int) (Work : paru_work) : paru_work :=
  { Work with
    rowSize := Work.rowSize.map (fun a => paru_memset a m),
    elRow := Work.elRow.map (fun a => paru_memset a (m + nf)),
    elCol := Work.elCol.map (fun a => paru_memset a (m + nf)) }

/-- Lines 423-424, the body of the loop on the diagonal map:
`Diag_map[i] = Sym->Diag_map[i]; inv_Diag_map[Diag_map[i]] = i`.  The state is
the pair `(Diag_map, inv_Diag_map)`. -/
def diagMapStep (Sym : ParU_Symbolic) (D : (Int → Option Int) × (Int → Option Int))
    (i : Int) : (Int → Option Int) × (Int → Option Int) :=
  (Function.update D.1 i (some (Sym.Diag_map i)),
   Function.update D.2 (Sym.Diag_map i) (some i))

/-- Lines 421-425: the loop copying the diagonal map and filling its
inverse. -/
def diagMapLoop (Sym : ParU_Symbolic) (D : (Int → Option Int) × (Int → Option Int)) :
    (Int → Option Int) × (Int → Option Int) :=
  (loopRange 0 Sym.n).foldl (diagMapStep Sym) D

/-- Lines 417-425: `if (Diag_map) { ... }`. -/
def workDiagMap (Sym : ParU_Symbolic) (Work : paru_work) : paru_work :=
  match Work.Diag_map, Work.inv_Diag_map with
  | some D, some I =>
    { Work with Diag_map := some (diagMapLoop Sym (D, I)).1,
                inv_Diag_map := some (diagMapLoop Sym (D, I)).2 }
  | _, _ => Work

/-- The arrays of the work object as the per-row stage sees them, with
`out_of_memory = 0` (line 462). -/
def rowStageInit (Work : paru_work) : RowStage :=
  { row_degree_bound := Work.row_degree_bound.getD (fun _ => none),
    elementList := Work.elementList.getD (fun _ => none),
    rowMark := Work.rowMark.getD (fun _ => none),
    heapList := Work.heapList.getD (fun _ => none),
    RowList := Work.RowList.getD (fun _ => { numTuple := 0, len := 0, list := none }),
    lacList := Work.lacList.getD (fun _ => none),
    out_of_memory := 0 }

/-- The work object after the per-row stage has written through its
pointers. -/
def workAfterRows (Work : paru_work) (W : RowStage) : paru_work :=
  { Work with
    row_degree_bound := some W.row_degree_bound,
    elementList := some W.elementList,
    rowMark := some W.rowMark,
    heapList := some W.heapList,
    RowList := some W.RowList,
    lacList := some W.lacList }

/-- The work object at the end of the per-row stage: with `nf = 0` its
arrays are null and the stage has no row to process. -/
def workAfterRowStage (Sym : ParU_Symbolic) (Work : paru_work) (W : RowStage) : paru_work :=
  if Sym.nf = 0 then Work else workAfterRows Work W

/-- Lines 97-124: the work object after the allocations made when
`nf != 0`. -/
def workAfterAlloc (alloc : AllocOutcomes) (Sym : ParU_Symbolic) : paru_work :=
  if Sym.nf ≠ 0 then workAlloc alloc else workNull

/-- Lines 97-124: the numeric object after the allocations made when
`nf != 0`. -/
def numAfterAlloc (alloc : AllocOutcomes) (Sym : ParU_Symbolic) : ParU_Numeric :=
  if Sym.nf ≠ 0 then numAlloc alloc (numInit Sym) else numInit Sym

/-- Lines 141-145: the work object after the allocation of the diagonal
maps, made when `nf != 0` and the strategy is symmetric. -/
def workAfterDiagAlloc (alloc : AllocOutcomes) (Sym : ParU_Symbolic) : paru_work :=
  if Sym.nf ≠ 0 ∧ Sym.symmetric then
    { workAfterAlloc alloc Sym with
      Diag_map := PARU_MALLOC alloc.Diag_map,
      inv_Diag_map := PARU_MALLOC alloc.inv_Diag_map }
  else workAfterAlloc alloc Sym

/-- Lines 160-162: `Num->snz` and the allocation of `Sx`. -/
def numAfterSx (alloc : AllocOutcomes) (Sym : ParU_Symbolic) : ParU_Numeric :=
  { numAfterAlloc alloc Sym with snz := Sym.snz, Sx := PARU_MALLOC alloc.Sx }

/-- Lines 172-175: `Num->sunz` and the allocation of `Sux`, when
`cs1 > 0`. -/
def numAfterSux (alloc : AllocOutcomes) (Sym : ParU_Symbolic) : ParU_Numeric :=
  if Sym.cs1 > 0 then
    { numAfterSx alloc Sym with sunz := Sym.ustons_nnz, Sux := PARU_MALLOC alloc.Sux }
  else numAfterSx alloc Sym

/-- Lines 185-188: `Num->slnz` and the allocation of `Slx`, when
`rs1 > 0`. -/
def numAfterSlx (alloc : AllocOutcomes) (Sym : ParU_Symbolic) : ParU_Numeric :=
  if Sym.rs1 > 0 then
    { numAfterSux alloc Sym with slnz := Sym.lstons_nnz, Slx := PARU_MALLOC alloc.Slx }
  else numAfterSux alloc Sym

/-- Lines 198-202: the allocation of `Rs`, when `prescale == 1`. -/
def numAfterRs (alloc : AllocOutcomes) (Sym : ParU_Symbolic) (Control : ParU_Control) :
    ParU_Numeric :=
  if Control.prescale = 1 then
    { numAfterSlx alloc Sym with Rs := PARU_CALLOC alloc.Rs 0 }
  else numAfterSlx alloc Sym

/-- Lines 212-229: the work object after the sentinel initialisation. -/
def workAfterMemset (alloc : AllocOutcomes) (Sym : ParU_Symbolic) : paru_work :=
  if Sym.nf ≠ 0 then workMemset (Sym.m - Sym.n1) Sym.nf (workAfterDiagAlloc alloc Sym)
  else workAfterDiagAlloc alloc Sym

/-- Lines 290-301: the numeric object after the first pass, run when `Rs` is
not null. -/
def numScaled (A : cholmod_sparse) (Sym : ParU_Symbolic) (Num : ParU_Numeric) :
    ParU_Numeric :=
  { Num with Rs := Num.Rs.map (scalePass A Sym) }

/-- Lines 320-378: the numeric object after the second pass has written
through `Sx`, `Sux` and `Slx`. -/
def numSplit (A : cholmod_sparse) (Sym : ParU_Symbolic) (Num : ParU_Numeric) :
    ParU_Numeric :=
  { Num with
    Sx := Num.Sx.map (fun _ => (splitPass A Sym Num.Rs (splitInit Sym)).Sx),
    Sux := Num.Sux.map (fun _ => (splitPass A Sym Num.Rs (splitInit Sym)).Sux),
    Slx := Num.Slx.map (fun _ => (splitPass A Sym Num.Rs (splitInit Sym)).Slx) }

/-- Lines 462-549: the state of the per-row stage at its end, run on the
work object `Work` with the interior values `Sx`. -/
def rowStageResult (alloc : AllocOutcomes)
    (lac_el : (Int → Option paru_element) → Int → Int)
    (Sym : ParU_Symbolic) (Sx : Int → Option ℚ) (Work : paru_work) : RowStage :=
  rowStage alloc lac_el Sym Sx (Sym.m - Sym.n1) (rowStageInit Work)

/-- Lines 231-571, entered once every allocation of lines 64-208 has been
made and checked: cursor copies, scaling pass and singularity test, second
pass, diagonal map, per-row stage and final status.  `Num` and `Work` are the
objects as built so far. -/
def initNumerics (alloc : AllocOutcomes)
    (lac_el : (Int → Option paru_element) → Int → Int)
    (A : cholmod_sparse) (Sym : ParU_Symbolic)
    (Num : ParU_Numeric) (Work : paru_work) : Outcome :=
  -- line 238: paru_memcpy(cSp, Sp, ...) writes through cSp, which was not tested
  if alloc.cSp = false then Outcome.undefined
  -- lines 304-317
  else if ((numScaled A Sym Num).Rs.map (singularRow (Sym.m - Sym.n1))).getD false then
    Outcome.returned ParU_Info.PARU_SINGULAR
      (some { numScaled A Sym Num with res := ParU_Info.PARU_SINGULAR }) Work
  -- lines 320-378: a step writes through Sux, cSup, Sup (null unless cs1 > 0) or through
  -- Slx, cSlp, Slp (null unless rs1 > 0)
  else if splitPassNull A Sym then Outcome.undefined
  -- lines 462-549: with nf = 0 the arrays written by the loop are null
  else if Sym.nf = 0 ∧ 0 < Sym.m - Sym.n1 then Outcome.undefined
  else
    -- lines 555-571
    Outcome.returned
      (finalInfo (rowStageResult alloc lac_el Sym
        (splitPass A Sym (numScaled A Sym Num).Rs (splitInit Sym)).Sx
        (workDiagMap Sym Work)).out_of_memory)
      (some (numSplit A Sym (numScaled A Sym Num)))
      (workAfterRowStage Sym (workDiagMap Sym Work)
        (rowStageResult alloc lac_el Sym
          (splitPass A Sym (numScaled A Sym Num).Rs (splitInit Sym)).Sx
          (workDiagMap Sym Work)))

/-- The function `paru_init_rowFronts` (release build: the blocks under
`#ifndef NDEBUG` and the `PRLEVEL` traces are compiled out).  `alloc` gives
the outcome of each allocation and `lac_el` is the external helper of that
name.  Each test is the one of the source; the objects it returns are the
numeric and the work object as built up to that line. -/
def paru_init_rowFronts (alloc : AllocOutcomes)
    (lac_el : (Int → Option paru_element) → Int → Int)
    (A : cholmod_sparse) (Sym : ParU_Symbolic) (Control : ParU_Control) : Outcome :=
  -- lines 65-75
  if alloc.Num = false then
    Outcome.returned ParU_Info.PARU_OUT_OF_MEMORY none workNull
  -- lines 97-139
  else if Sym.nf ≠ 0 ∧ workspaceNull (workAfterAlloc alloc Sym) (numAfterAlloc alloc Sym) then
    Outcome.returned ParU_Info.PARU_OUT_OF_MEMORY
      (some (numAfterAlloc alloc Sym)) (workAfterAlloc alloc Sym)
  -- lines 141-151
  else if Sym.nf ≠ 0 ∧ Sym.symmetric ∧
      ((workAfterDiagAlloc alloc Sym).Diag_map.isNone ∨
       (workAfterDiagAlloc alloc Sym).inv_Diag_map.isNone) then
    Outcome.returned ParU_Info.PARU_OUT_OF_MEMORY
      (some (numAfterAlloc alloc Sym)) (workAfterDiagAlloc alloc Sym)
  -- lines 160-168; the result of the allocation of cSp is not tested
  else if (numAfterSx alloc Sym).Sx.isNone then
    Outcome.returned ParU_Info.PARU_OUT_OF_MEMORY
      (some (numAfterSx alloc Sym)) (workAfterDiagAlloc alloc Sym)
  -- lines 170-182
  else if Sym.cs1 > 0 ∧ (alloc.cSup = false ∨ (numAfterSux alloc Sym).Sux.isNone) then
    Outcome.returned ParU_Info.PARU_OUT_OF_MEMORY
      (some (numAfterSux alloc Sym)) (workAfterDiagAlloc alloc Sym)
  -- lines 185-195
  else if Sym.rs1 > 0 ∧ (alloc.cSlp = false ∨ (numAfterSlx alloc Sym).Slx.isNone) then
    Outcome.returned ParU_Info.PARU_OUT_OF_MEMORY
      (some (numAfterSlx alloc Sym)) (workAfterDiagAlloc alloc Sym)
  -- lines 198-208
  else if Control.prescale = 1 ∧ (numAfterRs alloc Sym Control).Rs.isNone then
    Outcome.returned ParU_Info.PARU_OUT_OF_MEMORY
      (some (numAfterRs alloc Sym Control)) (workAfterDiagAlloc alloc Sym)
  -- lines 212-571
  else
    initNumerics alloc lac_el A Sym (numAfterRs alloc Sym Control) (workAfterMemset alloc Sym)

/-! ## Vocabulary of the statements -/

/-- The three value arrays written by the second pass. -/
inductive Region where
  | Sx
  | Sux
  | Slx
  deriving DecidableEq, Repr

/-- Where the second pass sends a visit: the array, the row or column of
that array (the index used in `cSp`, `cSup`/`Sup`, `cSlp`/`Slp`), and whether
the value goes to the fixed first slot (`diag`) or to the cursor. -/
structure Target where
  region : Region
  key : Int
  diag : Bool
  deriving DecidableEq, Repr

/-- The branch of lines 329-375 taken by a visit. -/
def target (A : cholmod_sparse) (Sym : ParU_Symbolic) (v : Visit) : Target :=
  let newcol := v.newcol
  let newrow := Sym.Pinv (A.i v.p)
  let srow := newrow - Sym.n1
  let scol := newcol - Sym.n1
  if srow ≥ 0 ∧ scol ≥ 0 then ⟨Region.Sx, srow, false⟩
  else if srow < 0 ∧ scol ≥ 0 then ⟨Region.Sux, newrow, false⟩
  else if newrow < Sym.cs1 then
    if newcol = newrow then ⟨Region.Sux, newrow, true⟩ else ⟨Region.Sux, newrow, false⟩
  else
    if newcol = newrow then ⟨Region.Slx, newcol - Sym.cs1, true⟩
    else ⟨Region.Slx, newcol - Sym.cs1, false⟩

/-- The start offsets of a region: `Sp`, `Sup` or `Slp`. -/
def base (Sym : ParU_Symbolic) : Region → Int → Int
  | Region.Sx => Sym.Sp
  | Region.Sux => Sym.ustons_Sup
  | Region.Slx => Sym.lstons_Slp

/-- The number of rows or columns of a region: `m`, `cs1` or `rs1`. -/
def extent (Sym : ParU_Symbolic) : Region → Int
  | Region.Sx => Sym.m - Sym.n1
  | Region.Sux => Sym.cs1
  | Region.Slx => Sym.rs1

/-- The cursor array of a region in a state of the second pass. -/
def cursor (st : SplitState) : Region → Int → Int
  | Region.Sx => st.cSp
  | Region.Sux => st.cSup
  | Region.Slx => st.cSlp

/-- The value array of a region in a state of the second pass. -/
def content (st : SplitState) : Region → Int → Option ℚ
  | Region.Sx => st.Sx
  | Region.Sux => st.Sux
  | Region.Slx => st.Slx

/-- The cursor of `Sx` is used and then incremented (`cSp[srow]++`, shift 0);
those of `Sux` and `Slx` are incremented and then used (`++cSup[newrow]`,
shift 1). -/
def shift : Region → Int
  | Region.Sx => 0
  | _ => 1

/-- The index written by a step with target `t` in state `st`. -/
def writeIndex (Sym : ParU_Symbolic) (st : SplitState) (t : Target) : Int :=
  if t.diag then base Sym t.region t.key else cursor st t.region t.key + shift t.region

/-- The slot (array and index) written by the step for visit `v` in state
`st`. -/
def writeSlot (A : cholmod_sparse) (Sym : ParU_Symbolic) (st : SplitState) (v : Visit) :
    Region × Int :=
  ((target A Sym v).region, writeIndex Sym st (target A Sym v))

/-- The slots written by the steps for the visits `L`, run from state `st`,
in execution order. -/
def writeLogFrom (A : cholmod_sparse) (Sym : ParU_Symbolic) (Rs : Option (Int → ℚ))
    (st : SplitState) : List Visit → List (Region × Int)
  | [] => []
  | v :: L => writeSlot A Sym st v :: writeLogFrom A Sym Rs (splitStep A Sym Rs st v) L

/-- The slots written by the second pass, one per visit, in execution
order. -/
def writeLog (A : cholmod_sparse) (Sym : ParU_Symbolic) (Rs : Option (Int → ℚ)) :
    List (Region × Int) :=
  writeLogFrom A Sym Rs (splitInit Sym) (visits A Sym)

/-- The number of stored entries of `A`, summed over its `n` columns. -/
def nnz (A : cholmod_sparse) (n : Int) : Nat :=
  ((loopRange 0 n).map (fun c => (A.p (c + 1) - A.p c).toNat)).sum

/-- The number of visits sent to row or column `k` of region `reg`. -/
def segmentCount (A : cholmod_sparse) (Sym : ParU_Symbolic) (reg : Region) (k : Int) : Nat :=
  (visits A Sym).countP (fun v => (target A Sym v).region = reg ∧ (target A Sym v).key = k)

/-- `f` maps `0..n-1` into itself and is one-to-one there. -/
def IsPerm (f : Int → Int) (n : Int) : Prop :=
  (∀ k, 0 ≤ k → k < n → 0 ≤ f k ∧ f k < n) ∧
  (∀ j, 0 ≤ j → j < n → ∀ k, 0 ≤ k → k < n → f j = f k → j = k)

/-- The preconditions on the matrix and the symbolic analysis under which the
second pass is specified: `Qfill` and `Pinv` are permutations, row indices
are in range, no column of `A` stores a row twice, `n1 = cs1 + rs1`, entries
right of the singleton block lie in column-singleton rows, entries below
the column singletons lie in row-singleton columns or in the interior, every
singleton has its diagonal entry, and the segment lengths of `Sp`, `Sup`,
`Slp` are the numbers of entries sent to each row or column. -/
structure ValidInput (A : cholmod_sparse) (Sym : ParU_Symbolic) : Prop where
  qfill_perm : IsPerm Sym.Qfill Sym.n
  pinv_perm : IsPerm Sym.Pinv Sym.m
  row_range : ∀ v ∈ visits A Sym, 0 ≤ A.i v.p ∧ A.i v.p < Sym.m
  no_dup : ∀ v ∈ visits A Sym, ∀ w ∈ visits A Sym,
    v.newcol = w.newcol → A.i v.p = A.i w.p → v.p = w.p
  cs1_nonneg : 0 ≤ Sym.cs1
  rs1_nonneg : 0 ≤ Sym.rs1
  n1_eq : Sym.n1 = Sym.cs1 + Sym.rs1
  u_rows : ∀ v ∈ visits A Sym,
    Sym.Pinv (A.i v.p) < Sym.n1 → Sym.n1 ≤ v.newcol → Sym.Pinv (A.i v.p) < Sym.cs1
  l_cols : ∀ v ∈ visits A Sym,
    v.newcol < Sym.n1 → Sym.cs1 ≤ Sym.Pinv (A.i v.p) → Sym.cs1 ≤ v.newcol
  diag : ∀ k, 0 ≤ k → k < Sym.n1 →
    ∃ v ∈ visits A Sym, v.newcol = k ∧ Sym.Pinv (A.i v.p) = k
  seg_len : ∀ reg k, 0 ≤ k → k < extent Sym reg →
    base Sym reg (k + 1) - base Sym reg k = segmentCount A Sym reg k

/-- A visit whose value is stored through the cursor of row or column `k` of
region `reg`. -/
def appendsTo (A : cholmod_sparse) (Sym : ParU_Symbolic) (reg : Region) (k : Int)
    (v : Visit) : Bool :=
  decide ((target A Sym v).diag = false ∧ (target A Sym v).region = reg ∧
    (target A Sym v).key = k)

/-- A visit stored in the fixed first slot of row or column `k` of region
`reg`. -/
def diagOf (A : cholmod_sparse) (Sym : ParU_Symbolic) (reg : Region) (k : Int)
    (v : Visit) : Bool :=
  decide ((target A Sym v).diag = true ∧ (target A Sym v).region = reg ∧
    (target A Sym v).key = k)

/-- The index written for visit `v` when the visits `pre` have been processed
from the initial state: the start offset of its row or column, moved by the
number of earlier visits stored through the same cursor. -/
def closedIndex (A : cholmod_sparse) (Sym : ParU_Symbolic) (pre : List Visit) (v : Visit) : Int :=
  if (target A Sym v).diag then base Sym (target A Sym v).region (target A Sym v).key
  else base Sym (target A Sym v).region (target A Sym v).key + shift (target A Sym v).region
    + (pre.countP (appendsTo A Sym (target A Sym v).region (target A Sym v).key) : Nat)

/-- The preconditions that concern one region: every visit sent to the
region has its row or column inside the region, a row or column of a
singleton region has exactly one diagonal visit, and the segment lengths of
the start offsets are the numbers of visits sent to each row or column. -/
structure RegionValid (A : cholmod_sparse) (Sym : ParU_Symbolic) (reg : Region) : Prop where
  key_range : ∀ v ∈ visits A Sym, (target A Sym v).region = reg →
    0 ≤ (target A Sym v).key ∧ (target A Sym v).key < extent Sym reg
  diag_unique : ∀ v ∈ visits A Sym, ∀ w ∈ visits A Sym, (target A Sym v).region = reg →
    (target A Sym v).diag = true → target A Sym v = target A Sym w → v = w
  diag_exists : shift reg = 1 → ∀ k, 0 ≤ k → k < extent Sym reg →
    ∃ v ∈ visits A Sym, target A Sym v = ⟨reg, k, true⟩
  seg_len : ∀ k, 0 ≤ k → k < extent Sym reg →
    base Sym reg (k + 1) - base Sym reg k = segmentCount A Sym reg k

/-- The visits mapped to interior row `r` (`Pinv[oldrow] - n1 = r` and
permuted column `>= n1`), in execution order. -/
def interiorVisits (A : cholmod_sparse) (Sym : ParU_Symbolic) (r : Int) : List Visit :=
  (visits A Sym).filter
    (fun v => decide (Sym.Pinv (A.i v.p) - Sym.n1 = r ∧ Sym.n1 ≤ v.newcol))

/-- The visits of permuted row `k` other than its diagonal entry, in
execution order. -/
def uOffDiagVisits (A : cholmod_sparse) (Sym : ParU_Symbolic) (k : Int) : List Visit :=
  (visits A Sym).filter (fun v => decide (Sym.Pinv (A.i v.p) = k ∧ v.newcol ≠ k))

/-- The visits of permuted column `c` with permuted row `>= cs1` other than
its diagonal entry, in execution order. -/
def lOffDiagVisits (A : cholmod_sparse) (Sym : ParU_Symbolic) (c : Int) : List Visit :=
  (visits A Sym).filter
    (fun v => decide (v.newcol = c ∧ Sym.cs1 ≤ Sym.Pinv (A.i v.p) ∧ Sym.Pinv (A.i v.p) ≠ c))

/-- Position `p` of column `c` is a stored entry of the matrix `A` with `n`
columns. -/
def stored (A : cholmod_sparse) (n : Int) (c p : Int) : Prop :=
  0 ≤ c ∧ c < n ∧ A.p c ≤ p ∧ p < A.p (c + 1)

/-- Some allocation of the unit of row `r` fails: the element, or (the
element being there) the heap, or (the heap being there) the tuple list. -/
def rowFails (alloc : AllocOutcomes) (r : Int) : Bool :=
  !(alloc.element r && alloc.heapNew r && alloc.heapPush r && alloc.rowList r)

/-- The tuple list left by the unit of a row with element `e` when every
allocation of the unit succeeds: capacity 2, one tuple `(e, 0)`. -/
def initialTupleList (e : Int) : paru_tupleList :=
  { numTuple := 1, len := 2,
    list := some (Function.update (fun _ => none) 0 (some { e := e, f := 0 })) }

/-- Every allocation attempted before the per-row stage succeeds: the
numeric object, the workspace arrays (attempted when `nf != 0`, the diagonal
maps only for the symmetric strategy), `Sx` and `cSp`, `Sux` and `cSup`
(attempted when `cs1 > 0`), `Slx` and `cSlp` (when `rs1 > 0`) and `Rs` (when
`prescale == 1`). -/
def preStageAllocated (alloc : AllocOutcomes) (Sym : ParU_Symbolic) (Control : ParU_Control) :
    Prop :=
  alloc.Num = true ∧
  (Sym.nf ≠ 0 →
    (alloc.rowMark = true ∧ alloc.elRow = true ∧ alloc.elCol = true ∧ alloc.rowSize = true ∧
     alloc.row_degree_bound = true ∧ alloc.RowList = true ∧ alloc.lacList = true ∧
     alloc.frowCount = true ∧ alloc.fcolCount = true ∧ alloc.frowList = true ∧
     alloc.fcolList = true ∧ alloc.partial_Us = true ∧ alloc.partial_LUs = true ∧
     alloc.time_stamp = true ∧ alloc.task_num_child = true ∧ alloc.heapList = true ∧
     alloc.elementList = true) ∧
    (Sym.symmetric = true → alloc.Diag_map = true ∧ alloc.inv_Diag_map = true)) ∧
  alloc.Sx = true ∧ alloc.cSp = true ∧
  (Sym.cs1 > 0 → alloc.cSup = true ∧ alloc.Sux = true) ∧
  (Sym.rs1 > 0 → alloc.cSlp = true ∧ alloc.Slx = true) ∧
  (Control.prescale = 1 → alloc.Rs = true)

/-- The matrix is found singular by the test of lines 304-317: scaling is
enabled and some `Rs[k]` with `0 <= k < m` is not positive after the first
pass. -/
def foundSingular (A : cholmod_sparse) (Sym : ParU_Symbolic) (Control : ParU_Control) : Prop :=
  Control.prescale = 1 ∧
  singularRow (Sym.m - Sym.n1) (scalePass A Sym (fun _ => 0)) = true

/-! ## Concrete inputs -/

/-- An array given by the list of its leading entries, `d` elsewhere. -/
def arr {α : Type} (l : List α) (d : α) : Int → α :=
  fun k => if k < 0 then d else l.getD k.toNat d

/-- A 3-by-3 matrix with one column singleton, one row singleton and a
1-by-1 interior block:
`[2 3 1; 0 4 0; 0 5 6]`, the second column stored bottom-up. -/
def exA : cholmod_sparse :=
  { p := arr [0, 1, 4, 6] 0, i := arr [0, 2, 1, 0, 0, 2] 0, x := arr [2, 5, 4, 3, 1, 6] 0 }

/-- The symbolic analysis of `exA` with identity permutations. -/
def exSym : ParU_Symbolic :=
  { m := 3, n := 3, n1 := 2, cs1 := 1, rs1 := 1, nf := 1, snz := 1, ntasks := 1,
    symmetric := false,
    Sp := arr [0, 1] 0, Sj := arr [0] 0,
    ustons_nnz := 3, ustons_Sup := arr [0, 3] 0,
    lstons_nnz := 2, lstons_Slp := arr [0, 2] 0,
    Qfill := arr [0, 1, 2] 0, Pinv := arr [0, 1, 2] 0,
    row2atree := arr [0] 0, Diag_map := arr [0, 1, 2] 0 }

/-- A 2-by-2 diagonal matrix `diag(1, 2)`. -/
def c2A : cholmod_sparse :=
  { p := arr [0, 1, 2] 0, i := arr [0, 1] 0, x := arr [1, 2] 0 }

/-- A symbolic object for `c2A` without singletons whose offsets `Sp` are all
zero, so that the blocks of the two interior rows overlap. -/
def c2Sym : ParU_Symbolic :=
  { m := 2, n := 2, n1 := 0, cs1 := 0, rs1 := 0, nf := 1, snz := 2, ntasks := 1,
    symmetric := false,
    Sp := arr [0, 0, 0] 0, Sj := arr [0, 1] 0,
    ustons_nnz := 0, ustons_Sup := arr [] 0,
    lstons_nnz := 0, lstons_Slp := arr [] 0,
    Qfill := arr [0, 1] 0, Pinv := arr [0, 1] 0,
    row2atree := arr [0, 1] 0, Diag_map := arr [0, 1] 0 }

/-- A 3-by-3 matrix with entries `(1,1) = 7`, `(0,2) = 9`, `(2,2) = 5`:
row 0 has no diagonal entry. -/
def c3A : cholmod_sparse :=
  { p := arr [0, 0, 1, 3] 0, i := arr [1, 0, 2] 0, x := arr [7, 9, 5] 0 }

/-- A symbolic object for `c3A` with two column singletons; the segment
lengths of `Sup` and `Sp` are the numbers of entries of the rows. -/
def c3Sym : ParU_Symbolic :=
  { m := 3, n := 3, n1 := 2, cs1 := 2, rs1 := 0, nf := 1, snz := 1, ntasks := 1,
    symmetric := false,
    Sp := arr [0, 1] 0, Sj := arr [0] 0,
    ustons_nnz := 2, ustons_Sup := arr [0, 1, 2] 0,
    lstons_nnz := 0, lstons_Slp := arr [] 0,
    Qfill := arr [0, 1, 2] 0, Pinv := arr [0, 1, 2] 0,
    row2atree := arr [0] 0, Diag_map := arr [0, 1, 2] 0 }

/-- A 2-by-2 diagonal matrix `diag(3, 4)`. -/
def c4A : cholmod_sparse :=
  { p := arr [0, 1, 2] 0, i := arr [0, 1] 0, x := arr [3, 4] 0 }

/-- A symbolic object for `c4A` with two row singletons whose offsets `Slp`
are all zero, so that the segments of the two columns overlap. -/
def c4Sym : ParU_Symbolic :=
  { m := 2, n := 2, n1 := 2, cs1 := 0, rs1 := 2, nf := 0, snz := 0, ntasks := 0,
    symmetric := false,
    Sp := arr [0] 0, Sj := arr [] 0,
    ustons_nnz := 0, ustons_Sup := arr [] 0,
    lstons_nnz := 2, lstons_Slp := arr [0, 0, 0] 0,
    Qfill := arr [0, 1] 0, Pinv := arr [0, 1] 0,
    row2atree := arr [] 0, Diag_map := arr [0, 1] 0 }

/-- Every allocation succeeds. -/
def allocAll : AllocOutcomes :=
  { Num := true, rowMark := true, elRow := true, elCol := true, rowSize := true,
    row_degree_bound := true, RowList := true, lacList := true, frowCount := true,
    fcolCount := true, frowList := true, fcolList := true, partial_Us := true,
    partial_LUs := true, time_stamp := true, task_num_child := true, heapList := true,
    elementList := true, Diag_map := true, inv_Diag_map := true, Sx := true, cSp := true,
    Sux := true, cSup := true, Slx := true, cSlp := true, Rs := true,
    element := fun _ => true, heapNew := fun _ => true, heapPush := fun _ => true,
    rowList := fun _ => true, addTupleGrow := fun _ => none }

/-- The 2-by-2 matrix `[3 1; 0 0]`: its row 1 has no stored entry. -/
def c5A : cholmod_sparse :=
  { p := arr [0, 1, 2] 0, i := arr [0, 0] 0, x := arr [3, 1] 0 }

/-- The symbolic analysis of `c5A` with identity permutations: column 0 is a
column singleton and the interior block is the empty 1-by-1 block of row 1
and column 1. -/
def c5Sym : ParU_Symbolic :=
  { m := 2, n := 2, n1 := 1, cs1 := 1, rs1 := 0, nf := 1, snz := 0, ntasks := 1,
    symmetric := false,
    Sp := arr [0, 0] 0, Sj := arr [] 0,
    ustons_nnz := 2, ustons_Sup := arr [0, 2] 0,
    lstons_nnz := 0, lstons_Slp := arr [] 0,
    Qfill := arr [0, 1] 0, Pinv := arr [0, 1] 0,
    row2atree := arr [0] 0, Diag_map := arr [0, 1] 0 }

/-- The 2-by-2 matrix `[3 1; 0 0]` in which the entry `(1,1)` is stored
with the value 0. -/
def c5zA : cholmod_sparse :=
  { p := arr [0, 1, 3] 0, i := arr [0, 0, 1] 0, x := arr [3, 1, 0] 0 }

/-- The symbolic analysis of `c5zA` with identity permutations: both columns
are column singletons, so the interior block is empty and there is no
front. -/
def c5zSym : ParU_Symbolic :=
  { m := 2, n := 2, n1 := 2, cs1 := 2, rs1 := 0, nf := 0, snz := 0, ntasks := 0,
    symmetric := false,
    Sp := arr [0] 0, Sj := arr [] 0,
    ustons_nnz := 3, ustons_Sup := arr [0, 2, 3] 0,
    lstons_nnz := 0, lstons_Slp := arr [] 0,
    Qfill := arr [0, 1] 0, Pinv := arr [0, 1] 0,
    row2atree := arr [] 0, Diag_map := arr [0, 1] 0 }

/-- Control object with scaling disabled. -/
def ctlPlain : ParU_Control := { prescale := 0, paru_max_threads := 1 }

/-- Control object with scaling enabled. -/
def ctlScaled : ParU_Control := { prescale := 1, paru_max_threads := 1 }

/-- A stand-in for the external helper `lac_el` on concrete inputs. -/
def lacZero : (Int → Option paru_element) → Int → Int := fun _ _ => 0

/-- A symbolic object for `c2A` without singletons, with the offsets of the
two interior rows, whose map `row2atree` sends both rows to element 0. -/
def c8Sym : ParU_Symbolic :=
  { m := 2, n := 2, n1 := 0, cs1 := 0, rs1 := 0, nf := 1, snz := 2, ntasks := 1,
    symmetric := false,
    Sp := arr [0, 1, 2] 0, Sj := arr [0, 1] 0,
    ustons_nnz := 0, ustons_Sup := arr [] 0,
    lstons_nnz := 0, lstons_Slp := arr [] 0,
    Qfill := arr [0, 1] 0, Pinv := arr [0, 1] 0,
    row2atree := arr [0, 0] 0, Diag_map := arr [0, 1] 0 }

/-- A symbolic object for `c2A` without singletons whose offsets `Sp`
decrease from row 0 to row 1. -/
def c8SymDecr : ParU_Symbolic :=
  { m := 2, n := 2, n1 := 0, cs1 := 0, rs1 := 0, nf := 1, snz := 2, ntasks := 1,
    symmetric := false,
    Sp := arr [1, 0, 2] 0, Sj := arr [0, 1] 0,
    ustons_nnz := 0, ustons_Sup := arr [] 0,
    lstons_nnz := 0, lstons_Slp := arr [] 0,
    Qfill := arr [0, 1] 0, Pinv := arr [0, 1] 0,
    row2atree := arr [0, 1] 0, Diag_map := arr [0, 1] 0 }


/-! ## Vocabulary of the statements on failures, rows and the diagonal map -/

/-- No slot of the value array `a` has been written (a null pointer has no
slot). -/
def unwritten {α : Type} (a : Option (Int → Option α)) : Prop :=
  ∀ f, a = some f → ∀ k, f k = none

/-- The row scales held by the numeric object once `Rs` has been allocated
and the first pass has run: null when scaling is off. -/
def scaleOf (A : cholmod_sparse) (Sym : ParU_Symbolic) (Control : ParU_Control) :
    Option (Int → ℚ) :=
  if Control.prescale = 1 then some (scalePass A Sym (fun _ => 0)) else none

/-- The array `Sx` left by the second pass, as read by the per-row stage. -/
def interiorValues (A : cholmod_sparse) (Sym : ParU_Symbolic) (Control : ParU_Control) :
    Int → Option ℚ :=
  (splitPass A Sym (scaleOf A Sym Control) (splitInit Sym)).Sx

/-- Modelled from the spec: `lac_el` is defined outside the sources at
hand.  The spec has it make a single element lookup: its result for the
element id `e` depends on `elementList[e]` only. -/
def lacLocal (lac_el : (Int → Option paru_element) → Int → Int) : Prop :=
  ∀ (EL EL' : Int → Option paru_element) (e : Int), EL e = EL' e → lac_el EL e = lac_el EL' e

/-- The entries of the arrays of the per-row stage that belong to one row:
those at the row index (degree bound, tuple list) and those at the element
id of the row (element, mark, heap, least active column). -/
structure RowSlots where
  row_degree_bound : Option Int
  RowList : paru_tupleList
  element : Option paru_element
  rowMark : Option Int
  heap : Option (List Int)
  lac : Option Int

/-- The entries of the state `W` that belong to row `r`. -/
def rowSlots (Sym : ParU_Symbolic) (W : RowStage) (r : Int) : RowSlots :=
  { row_degree_bound := W.row_degree_bound r,
    RowList := W.RowList r,
    element := W.elementList (Sym.row2atree r),
    rowMark := W.rowMark (Sym.row2atree r),
    heap := W.heapList (Sym.row2atree r),
    lac := W.lacList (Sym.row2atree r) }

/-- The element of row `r` once lines 474-536 have run: created with one row
and `Sp[r+1] - Sp[r]` columns, then filled from `Sj` and `Sx`. -/
def initialElement (Sym : ParU_Symbolic) (Sx : Int → Option ℚ) (r : Int) : paru_element :=
  fillElement Sym.Sp Sym.Sj Sx r
    { nrows := 1, ncols := Sym.Sp (r + 1) - Sym.Sp r,
      colrowIndex := fun _ => none, colrowNum := fun _ => none }

/-- The entries left for row `r` by a unit all of whose allocations
succeed. -/
def doneSlots (lac_el : (Int → Option paru_element) → Int → Int)
    (Sym : ParU_Symbolic) (Sx : Int → Option ℚ) (r : Int) : RowSlots :=
  { row_degree_bound := some (Sym.Sp (r + 1) - Sym.Sp r),
    RowList := initialTupleList (Sym.row2atree r),
    element := some (initialElement Sym Sx r),
    rowMark := some 0,
    heap := some [Sym.row2atree r],
    lac := some (lac_el (fun _ => some (initialElement Sym Sx r)) (Sym.row2atree r)) }

/-- The index of `inv_Diag_map` used by iteration `i` of the loop of lines
421-425 run in state `D`: line 424 reads it from `Diag_map[i]`, which line 423
has just written. -/
def invDiagSlot (Sym : ParU_Symbolic) (D : (Int → Option Int) × (Int → Option Int))
    (i : Int) : Int :=
  ((diagMapStep Sym D i).1 i).getD 0

/-- The indices of `inv_Diag_map` written by the iterations `L` of the loop
run from state `D`, one per iteration, in execution order. -/
def invDiagLogFrom (Sym : ParU_Symbolic) :
    (Int → Option Int) × (Int → Option Int) → List Int → List Int
  | _, [] => []
  | D, i :: L => invDiagSlot Sym D i :: invDiagLogFrom Sym (diagMapStep Sym D i) L

/-- The indices of `inv_Diag_map` written by the loop of lines 421-425 run
from state `D`. -/
def invDiagLog (Sym : ParU_Symbolic) (D : (Int → Option Int) × (Int → Option Int)) :
    List Int :=
  invDiagLogFrom Sym D (loopRange 0 Sym.n)

/-! ## Further concrete inputs -/

/-- Every allocation succeeds except the one of the cursor copy `cSp`. -/
def allocNoCSp : AllocOutcomes := { allocAll with cSp := false }

/-- Every allocation succeeds except the one of the element of row 1. -/
def allocNoElement1 : AllocOutcomes :=
  { allocAll with element := fun r => decide (r ≠ 1) }

/-- The symbolic analysis of the matrix `c5A = [3 1; 0 0]` without
singletons: two interior rows, the second of which has no entry. -/
def c13Sym : ParU_Symbolic :=
  { m := 2, n := 2, n1 := 0, cs1 := 0, rs1 := 0, nf := 1, snz := 2, ntasks := 1,
    symmetric := false,
    Sp := arr [0, 2, 2] 0, Sj := arr [0, 1] 0,
    ustons_nnz := 0, ustons_Sup := arr [] 0,
    lstons_nnz := 0, lstons_Slp := arr [] 0,
    Qfill := arr [0, 1] 0, Pinv := arr [0, 1] 0,
    row2atree := arr [0, 1] 0, Diag_map := arr [0, 1] 0 }

/-- The symbolic analysis of `exA` under the symmetric strategy, with a
diagonal map that exchanges columns 0 and 1. -/
def c14Sym : ParU_Symbolic :=
  { exSym with symmetric := true, Diag_map := arr [1, 0, 2] 0 }

/-- The 3-by-3 matrix with entries `(0,0) = 4`, `(0,1) = 1`, `(1,1) = 3`,
`(2,2) = 5` in compressed-column form. -/
def c20A : cholmod_sparse :=
  { p := arr [0, 1, 3, 4] 0, i := arr [0, 0, 1, 2] 0, x := arr [4, 1, 3, 5] 0 }

/-- The symbolic analysis of `c20A` without singletons and with identity
permutations, for a number of fronts `nf` and a row-to-element map
`row2atree`. -/
def c20Sym (nf : Int) (row2atree : Int → Int) : ParU_Symbolic :=
  { m := 3, n := 3, n1 := 0, cs1 := 0, rs1 := 0, nf := nf, snz := 4, ntasks := 1,
    symmetric := false,
    Sp := arr [0, 2, 3, 4] 0, Sj := arr [0, 1, 1, 2] 0,
    ustons_nnz := 0, ustons_Sup := arr [] 0,
    lstons_nnz := 0, lstons_Slp := arr [] 0,
    Qfill := arr [0, 1, 2] 0, Pinv := arr [0, 1, 2] 0,
    row2atree := row2atree, Diag_map := arr [0, 1, 2] 0 }

/-! ## Vocabulary of the statements on cursors, failed rows and statuses -/

/-- The preconditions on the matrix and the symbolic analysis of
`ValidInput` other than the absence of duplicate entries: a column of `A`
may store a row twice. -/
structure DupInput (A : cholmod_sparse) (Sym : ParU_Symbolic) : Prop where
  qfill_perm : IsPerm Sym.Qfill Sym.n
  pinv_perm : IsPerm Sym.Pinv Sym.m
  row_range : ∀ v ∈ visits A Sym, 0 ≤ A.i v.p ∧ A.i v.p < Sym.m
  cs1_nonneg : 0 ≤ Sym.cs1
  rs1_nonneg : 0 ≤ Sym.rs1
  n1_eq : Sym.n1 = Sym.cs1 + Sym.rs1
  u_rows : ∀ v ∈ visits A Sym,
    Sym.Pinv (A.i v.p) < Sym.n1 → Sym.n1 ≤ v.newcol → Sym.Pinv (A.i v.p) < Sym.cs1
  l_cols : ∀ v ∈ visits A Sym,
    v.newcol < Sym.n1 → Sym.cs1 ≤ Sym.Pinv (A.i v.p) → Sym.cs1 ≤ v.newcol
  diag : ∀ k, 0 ≤ k → k < Sym.n1 →
    ∃ v ∈ visits A Sym, v.newcol = k ∧ Sym.Pinv (A.i v.p) = k
  seg_len : ∀ reg k, 0 ≤ k → k < extent Sym reg →
    base Sym reg (k + 1) - base Sym reg k = segmentCount A Sym reg k

/-- Every workspace allocation of lines 100-124 succeeds. -/
def workspaceOk (alloc : AllocOutcomes) : Prop :=
  alloc.rowMark = true ∧ alloc.elRow = true ∧ alloc.elCol = true ∧ alloc.rowSize = true ∧
  alloc.row_degree_bound = true ∧ alloc.RowList = true ∧ alloc.lacList = true ∧
  alloc.frowCount = true ∧ alloc.fcolCount = true ∧ alloc.frowList = true ∧
  alloc.fcolList = true ∧ alloc.partial_Us = true ∧ alloc.partial_LUs = true ∧
  alloc.time_stamp = true ∧ alloc.task_num_child = true ∧ alloc.heapList = true ∧
  alloc.elementList = true

/-- The allocations of lines 66-145 succeed: the numeric object and, when
`nf != 0`, the workspace arrays and (for the symmetric strategy) the two
diagonal maps. -/
def workAllocated (alloc : AllocOutcomes) (Sym : ParU_Symbolic) : Prop :=
  alloc.Num = true ∧
  (Sym.nf ≠ 0 → workspaceOk alloc ∧
    (Sym.symmetric = true → alloc.Diag_map = true ∧ alloc.inv_Diag_map = true))

/-- Modelled from the spec: `lac_el` is defined outside the sources at
hand.  The spec has the least active column of an element be a column within
the index set of the element: for an element with at least one column whose
column indices have been written, the result is one of these indices. -/
def lacInColumns (lac_el : (Int → Option paru_element) → Int → Int) : Prop :=
  ∀ (EL : Int → Option paru_element) (e : Int) (el : paru_element),
    EL e = some el → 0 < el.ncols →
    (∀ j, 0 ≤ j → j < el.ncols → (el.colrowIndex j).isSome) →
    ∃ j, 0 ≤ j ∧ j < el.ncols ∧ el.colrowIndex j = some (lac_el EL e)

/-- A stand-in for `lac_el` on concrete inputs: the first entry of the index
array of the element. -/
def lacFirst : (Int → Option paru_element) → Int → Int :=
  fun EL e =>
    match EL e with
    | some el => (el.colrowIndex 0).getD 0
    | none => 0

/-- The zero tuple list left by `PARU_CALLOC`. -/
def zeroTupleList : paru_tupleList := { numTuple := 0, len := 0, list := none }

/-- The entries left for row `r` by the stage started on arrays in which
nothing has been written, when the allocation of the element of the row
fails. -/
def failedElementSlots (Sym : ParU_Symbolic) (r : Int) : RowSlots :=
  { row_degree_bound := some (Sym.Sp (r + 1) - Sym.Sp r),
    RowList := zeroTupleList,
    element := none,
    rowMark := none,
    heap := none,
    lac := none }

/-- The entries left for row `r` by the stage started on arrays in which
nothing has been written, when the element and the heap of the row are
created and the allocation of `RowList[r].list` fails. -/
def failedRowListSlots (Sym : ParU_Symbolic) (r : Int) : RowSlots :=
  { row_degree_bound := some (Sym.Sp (r + 1) - Sym.Sp r),
    RowList := zeroTupleList,
    element := some { nrows := 1, ncols := Sym.Sp (r + 1) - Sym.Sp r,
                      colrowIndex := fun _ => none, colrowNum := fun _ => none },
    rowMark := some 0,
    heap := some [Sym.row2atree r],
    lac := none }

/-- A 1-by-1 matrix whose single column stores row 0 twice, with the values
1 and 2. -/
def c21A : cholmod_sparse :=
  { p := arr [0, 2] 0, i := arr [0, 0] 0, x := arr [1, 2] 0 }

/-- A symbolic object for `c21A`: one column singleton, the segment of its
row in `Sup` having length 2. -/
def c21Sym : ParU_Symbolic :=
  { m := 1, n := 1, n1 := 1, cs1 := 1, rs1 := 0, nf := 0, snz := 0, ntasks := 0,
    symmetric := false,
    Sp := arr [0] 0, Sj := arr [] 0,
    ustons_nnz := 2, ustons_Sup := arr [0, 2] 0,
    lstons_nnz := 0, lstons_Slp := arr [] 0,
    Qfill := arr [0] 0, Pinv := arr [0] 0,
    row2atree := arr [] 0, Diag_map := arr [0] 0 }

/-- Every allocation succeeds except the one of the element of row 0. -/
def allocNoElement0 : AllocOutcomes :=
  { allocAll with element := fun r => decide (r ≠ 0) }

/-- Every allocation succeeds except the one of `RowList[0].list`. -/
def allocNoRowList0 : AllocOutcomes :=
  { allocAll with rowList := fun r => decide (r ≠ 0) }

/-! ## Basic facts on loops and visits -/

theorem mem_loopRange {lo hi k : Int} : k ∈ loopRange lo hi ↔ lo ≤ k ∧ k < hi := by
  unfold loopRange
  simp only [List.mem_map, List.mem_range]
  constructor
  · rintro ⟨a, ha, rfl⟩
    omega
  · rintro ⟨h1, h2⟩
    exact ⟨(k - lo).toNat, by omega, by omega⟩

theorem loopRange_nodup (lo hi : Int) : (loopRange lo hi).Nodup := by
  unfold loopRange
  refine List.Nodup.map ?_ (List.nodup_range _)
  intro a b h
  simpa using h

theorem length_loopRange (lo hi : Int) : (loopRange lo hi).length = (hi - lo).toNat := by
  simp [loopRange]

theorem mem_visits {A : cholmod_sparse} {Sym : ParU_Symbolic} {v : Visit} :
    v ∈ visits A Sym ↔
      (0 ≤ v.newcol ∧ v.newcol < Sym.n) ∧
      A.p (Sym.Qfill v.newcol) ≤ v.p ∧ v.p < A.p (Sym.Qfill v.newcol + 1) := by
  unfold visits
  simp only [List.mem_flatMap, List.mem_map, mem_loopRange]
  constructor
  · rintro ⟨c, hc, p, hp, rfl⟩
    exact ⟨hc, hp⟩
  · rintro ⟨hc, hp⟩
    exact ⟨v.newcol, hc, v.p, hp, rfl⟩

theorem visits_nodup (A : cholmod_sparse) (Sym : ParU_Symbolic) : (visits A Sym).Nodup := by
  unfold visits
  rw [List.nodup_flatMap]
  refine ⟨?_, ?_⟩
  · intro c _
    refine List.Nodup.map ?_ (loopRange_nodup _ _)
    intro a b h
    simpa using h
  · refine List.Pairwise.imp_of_mem ?_ (loopRange_nodup 0 Sym.n)
    intro a b _ _ hab
    simp only [Function.onFun, List.disjoint_left, List.mem_map]
    rintro v ⟨p, _, rfl⟩ ⟨q, _, h⟩
    apply hab
    simpa using (congrArg Visit.newcol h).symm

/-- The nested loops of the second pass visit `visits A Sym` in order. -/
theorem splitPass_eq_foldl (A : cholmod_sparse) (Sym : ParU_Symbolic) (Rs : Option (Int → ℚ))
    (st : SplitState) :
    splitPass A Sym Rs st = (visits A Sym).foldl (splitStep A Sym Rs) st := by
  unfold splitPass visits
  generalize loopRange 0 Sym.n = cols
  induction cols generalizing st with
  | nil => rfl
  | cons c cs ih =>
    simp only [List.foldl_cons, List.flatMap_cons, List.foldl_append, List.foldl_map]
    exact ih _

/-- The nested loops of the first pass visit `visits A Sym` in order. -/
theorem scalePass_eq_foldl (A : cholmod_sparse) (Sym : ParU_Symbolic) (Rs : Int → ℚ) :
    scalePass A Sym Rs = (visits A Sym).foldl (fun R v => scaleStep A R v.p) Rs := by
  unfold scalePass visits
  generalize loopRange 0 Sym.n = cols
  induction cols generalizing Rs with
  | nil => rfl
  | cons c cs ih =>
    simp only [List.foldl_cons, List.flatMap_cons, List.foldl_append, List.foldl_map]
    exact ih _

/-! ## The second pass: one write per visit -/

theorem content_splitStep (A : cholmod_sparse) (Sym : ParU_Symbolic) (Rs : Option (Int → ℚ))
    (st : SplitState) (v : Visit) (reg : Region) (i : Int) :
    content (splitStep A Sym Rs st v) reg i =
      if (reg, i) = writeSlot A Sym st v then some (scaledValue A Rs v.p)
      else content st reg i := by
  unfold splitStep writeSlot writeIndex target
  simp only []
  split_ifs <;> cases reg <;>
    simp_all [content, cursor, base, shift, Function.update]

theorem cursor_splitStep (A : cholmod_sparse) (Sym : ParU_Symbolic) (Rs : Option (Int → ℚ))
    (st : SplitState) (v : Visit) (reg : Region) (k : Int) :
    cursor (splitStep A Sym Rs st v) reg k =
      cursor st reg k + if appendsTo A Sym reg k v then 1 else 0 := by
  unfold splitStep appendsTo target
  simp only []
  split_ifs <;> cases reg <;>
    simp_all [cursor, Function.update] <;> omega

theorem cursor_foldl (A : cholmod_sparse) (Sym : ParU_Symbolic) (Rs : Option (Int → ℚ))
    (L : List Visit) (st : SplitState) (reg : Region) (k : Int) :
    cursor (L.foldl (splitStep A Sym Rs) st) reg k =
      cursor st reg k + (L.countP (appendsTo A Sym reg k) : Nat) := by
  induction L generalizing st with
  | nil => simp
  | cons v L ih =>
    rw [List.foldl_cons, ih, cursor_splitStep, List.countP_cons]
    split_ifs
    · push_cast; ring
    · simp

theorem cursor_splitInit (Sym : ParU_Symbolic) (reg : Region) (k : Int) :
    cursor (splitInit Sym) reg k = base Sym reg k := by
  cases reg <;> rfl

theorem content_splitInit (Sym : ParU_Symbolic) (reg : Region) (i : Int) :
    content (splitInit Sym) reg i = none := by
  cases reg <;> rfl

theorem writeSlot_foldl (A : cholmod_sparse) (Sym : ParU_Symbolic) (Rs : Option (Int → ℚ))
    (pre : List Visit) (v : Visit) :
    writeSlot A Sym (pre.foldl (splitStep A Sym Rs) (splitInit Sym)) v =
      ((target A Sym v).region, closedIndex A Sym pre v) := by
  unfold writeSlot writeIndex closedIndex
  rw [cursor_foldl, cursor_splitInit]
  split_ifs
  · rfl
  · rw [Prod.mk.injEq]
    exact ⟨rfl, by ring⟩

/-- A slot that no step of a run writes keeps its content. -/
theorem content_foldl_of_not_written (A : cholmod_sparse) (Sym : ParU_Symbolic)
    (Rs : Option (Int → ℚ)) (L : List Visit) (st : SplitState) (reg : Region) (i : Int)
    (h : ∀ s1 w s2, L = s1 ++ w :: s2 →
      writeSlot A Sym (s1.foldl (splitStep A Sym Rs) st) w ≠ (reg, i)) :
    content (L.foldl (splitStep A Sym Rs) st) reg i = content st reg i := by
  induction L using List.reverseRecOn with
  | nil => rfl
  | append_singleton L w ih =>
    rw [List.foldl_append, List.foldl_cons, List.foldl_nil, content_splitStep]
    have hw := h L w [] rfl
    rw [if_neg (fun e => hw e.symm)]
    apply ih
    intro s1 w' s2 e
    exact h s1 w' (s2 ++ [w]) (by simp [e])

theorem content_isSome_foldl (A : cholmod_sparse) (Sym : ParU_Symbolic)
    (Rs : Option (Int → ℚ)) (L : List Visit) (st : SplitState) (reg : Region) (i : Int)
    (h : (content st reg i).isSome) :
    (content (L.foldl (splitStep A Sym Rs) st) reg i).isSome := by
  induction L generalizing st with
  | nil => exact h
  | cons v L ih =>
    apply ih
    rw [content_splitStep]
    split_ifs <;> simp [h]

theorem mem_writeLogFrom (A : cholmod_sparse) (Sym : ParU_Symbolic) (Rs : Option (Int → ℚ))
    (L : List Visit) (st : SplitState) (s : Region × Int) :
    s ∈ writeLogFrom A Sym Rs st L ↔
      ∃ s1 w s2, L = s1 ++ w :: s2 ∧
        writeSlot A Sym (s1.foldl (splitStep A Sym Rs) st) w = s := by
  induction L generalizing st with
  | nil => simp [writeLogFrom]
  | cons v L ih =>
    simp only [writeLogFrom, List.mem_cons, ih]
    constructor
    · rintro (h | ⟨s1, w, s2, e, h⟩)
      · exact ⟨[], v, L, rfl, h.symm⟩
      · exact ⟨v :: s1, w, s2, by simp [e], by simpa using h⟩
    · rintro ⟨s1, w, s2, e, h⟩
      cases s1 with
      | nil =>
        simp only [List.nil_append, List.cons.injEq] at e
        obtain ⟨rfl, rfl⟩ := e
        exact Or.inl h.symm
      | cons a s1 =>
        simp only [List.cons_append, List.cons.injEq] at e
        obtain ⟨rfl, rfl⟩ := e
        exact Or.inr ⟨s1, w, s2, rfl, by simpa using h⟩

theorem length_writeLogFrom (A : cholmod_sparse) (Sym : ParU_Symbolic) (Rs : Option (Int → ℚ))
    (L : List Visit) (st : SplitState) :
    (writeLogFrom A Sym Rs st L).length = L.length := by
  induction L generalizing st with
  | nil => rfl
  | cons v L ih => simp [writeLogFrom, ih]

/-- The slot written for a visit holds its value at the end of a run in
which no later visit writes the same slot. -/
theorem content_of_last_write (A : cholmod_sparse) (Sym : ParU_Symbolic)
    (Rs : Option (Int → ℚ)) (pre suf : List Visit) (v : Visit) (st : SplitState)
    (h : ∀ s1 w s2, suf = s1 ++ w :: s2 →
      writeSlot A Sym ((pre ++ v :: s1).foldl (splitStep A Sym Rs) st) w ≠
        writeSlot A Sym (pre.foldl (splitStep A Sym Rs) st) v) :
    content ((pre ++ v :: suf).foldl (splitStep A Sym Rs) st)
        (writeSlot A Sym (pre.foldl (splitStep A Sym Rs) st) v).1
        (writeSlot A Sym (pre.foldl (splitStep A Sym Rs) st) v).2 =
      some (scaledValue A Rs v.p) := by
  rw [List.foldl_append, List.foldl_cons, content_foldl_of_not_written, content_splitStep]
  · simp
  · intro s1 w s2 e
    have := h s1 w s2 e
    simpa [List.foldl_append] using this

/-! ## The second pass under the preconditions -/

theorem target_diag_region {A : cholmod_sparse} {Sym : ParU_Symbolic} {v : Visit}
    (h : (target A Sym v).diag = true) : shift (target A Sym v).region = 1 := by
  unfold target at h ⊢
  simp only [] at h ⊢
  split_ifs at h ⊢ <;> simp_all [shift]

theorem base_mono {A : cholmod_sparse} {Sym : ParU_Symbolic} {reg : Region}
    (hr : RegionValid A Sym reg) {a b : Int} (h0 : 0 ≤ a) (hab : a ≤ b)
    (hb : b ≤ extent Sym reg) : base Sym reg a ≤ base Sym reg b := by
  revert hb
  refine Int.le_induction (P := fun b => b ≤ extent Sym reg → base Sym reg a ≤ base Sym reg b)
    (fun _ => le_refl _) ?_ b hab
  intro c hac ih hc
  have := hr.seg_len c (by omega) (by omega)
  have := ih (by omega)
  omega

theorem segmentCount_split (A : cholmod_sparse) (Sym : ParU_Symbolic) (reg : Region) (k : Int)
    (L : List Visit) :
    L.countP (fun v => decide ((target A Sym v).region = reg ∧ (target A Sym v).key = k)) =
      L.countP (diagOf A Sym reg k) + L.countP (appendsTo A Sym reg k) := by
  induction L with
  | nil => rfl
  | cons v L ih =>
    simp only [List.countP_cons, ih, diagOf, appendsTo]
    simp only [decide_eq_true_eq]
    split_ifs <;> simp_all <;> omega

/-- Under the preconditions of its region a write stays inside the segment
of its row or column. -/
theorem closedIndex_bounds {A : cholmod_sparse} {Sym : ParU_Symbolic}
    {pre suf : List Visit} {v : Visit} (hr : RegionValid A Sym (target A Sym v).region)
    (hV : visits A Sym = pre ++ v :: suf) :
    base Sym (target A Sym v).region (target A Sym v).key ≤ closedIndex A Sym pre v ∧
    closedIndex A Sym pre v <
      base Sym (target A Sym v).region ((target A Sym v).key + 1) := by
  have hm : v ∈ visits A Sym := by rw [hV]; simp
  obtain ⟨k0, k1⟩ := hr.key_range v hm rfl
  have hlen := hr.seg_len _ k0 k1
  unfold segmentCount at hlen
  rw [segmentCount_split, hV] at hlen
  simp only [List.countP_append, List.countP_cons] at hlen
  unfold closedIndex
  cases hd : (target A Sym v).diag with
  | true =>
    have : diagOf A Sym (target A Sym v).region (target A Sym v).key v = true := by
      simp [diagOf, hd]
    simp only [this, if_true] at hlen
    simp
    omega
  | false =>
    have ha : appendsTo A Sym (target A Sym v).region (target A Sym v).key v = true := by
      simp [appendsTo, hd]
    have hnd : diagOf A Sym (target A Sym v).region (target A Sym v).key v = false := by
      simp [diagOf, hd]
    simp only [ha, hnd, if_true] at hlen
    simp only [Bool.false_eq_true, if_false]
    have hs : shift (target A Sym v).region = 0 ∨ shift (target A Sym v).region = 1 := by
      cases (target A Sym v).region <;> simp [shift]
    rcases hs with hs | hs
    · rw [hs]; omega
    · obtain ⟨d, hdm, hdt⟩ := hr.diag_exists hs _ k0 k1
      have hpos : 0 < (visits A Sym).countP
          (diagOf A Sym (target A Sym v).region (target A Sym v).key) := by
        rw [List.countP_pos_iff]
        exact ⟨d, hdm, by simp [diagOf, hdt]⟩
      rw [hV] at hpos
      simp only [List.countP_append, List.countP_cons, hnd] at hpos
      rw [hs]
      omega

/-- Under the preconditions of its region a visit never writes the slot of
an earlier visit. -/
theorem closedIndex_injective {A : cholmod_sparse} {Sym : ParU_Symbolic}
    {pre mid suf : List Visit} {v w : Visit} (hr : RegionValid A Sym (target A Sym v).region)
    (hV : visits A Sym = pre ++ v :: (mid ++ w :: suf)) :
    ((target A Sym w).region, closedIndex A Sym (pre ++ v :: mid) w) ≠
      ((target A Sym v).region, closedIndex A Sym pre v) := by
  intro he
  simp only [Prod.mk.injEq] at he
  obtain ⟨hreg, hidx⟩ := he
  have hV2 : visits A Sym = (pre ++ v :: mid) ++ w :: suf := by simp [hV]
  have hmv : v ∈ visits A Sym := by rw [hV]; simp
  have hmw : w ∈ visits A Sym := by rw [hV]; simp
  have bv := closedIndex_bounds hr hV
  have bw := closedIndex_bounds (hreg ▸ hr) hV2
  obtain ⟨kv0, kv1⟩ := hr.key_range v hmv rfl
  obtain ⟨kw0, kw1⟩ := hr.key_range w hmw hreg
  rw [hreg] at bw
  rcases lt_trichotomy (target A Sym v).key (target A Sym w).key with hlt | heq | hgt
  · have := base_mono hr (a := (target A Sym v).key + 1)
      (b := (target A Sym w).key) (by omega) (by omega) (by omega)
    omega
  · have hnd := visits_nodup A Sym
    rw [hV] at hnd
    have hne : v ≠ w := by
      intro e
      subst e
      simp [List.nodup_append, List.nodup_cons] at hnd
    unfold closedIndex at hidx
    rw [hreg, ← heq] at hidx
    cases hdv : (target A Sym v).diag <;> cases hdw : (target A Sym w).diag
    · simp only [hdv, hdw, Bool.false_eq_true, if_false, List.countP_append,
        List.countP_cons] at hidx
      have : appendsTo A Sym (target A Sym v).region (target A Sym v).key v = true := by
        simp [appendsTo, hdv]
      simp only [this, if_true] at hidx
      omega
    · have hs := target_diag_region hdw
      rw [hreg] at hs
      simp only [hdv, hdw, Bool.false_eq_true, if_false, if_true, hs] at hidx
      omega
    · have hs := target_diag_region hdv
      simp only [hdv, hdw, Bool.false_eq_true, if_false, if_true, hs] at hidx
      omega
    · apply hne
      apply hr.diag_unique v hmv w hmw rfl hdv
      cases hv' : target A Sym v
      cases hw' : target A Sym w
      simp_all
  · have := base_mono hr (a := (target A Sym w).key + 1)
      (b := (target A Sym v).key) (by omega) (by omega) (by omega)
    omega

/-- Under the preconditions of its region the slot written for a visit holds
the value of that visit after the second pass. -/
theorem content_splitPass_of_visit {A : cholmod_sparse} {Sym : ParU_Symbolic}
    (Rs : Option (Int → ℚ)) {pre suf : List Visit} {v : Visit}
    (hr : RegionValid A Sym (target A Sym v).region)
    (hV : visits A Sym = pre ++ v :: suf) :
    content (splitPass A Sym Rs (splitInit Sym)) (target A Sym v).region
      (closedIndex A Sym pre v) = some (scaledValue A Rs v.p) := by
  have h := content_of_last_write A Sym Rs pre suf v (splitInit Sym) (by
    intro s1 w s2 e
    rw [writeSlot_foldl, writeSlot_foldl]
    exact closedIndex_injective hr (by rw [hV, e]))
  rw [writeSlot_foldl] at h
  rw [splitPass_eq_foldl, hV]
  exact h

theorem getElem?_filter_split {α : Type} (p : α → Bool) (V : List α) (t : Nat) (v : α)
    (h : (V.filter p)[t]? = some v) :
    ∃ pre suf, V = pre ++ v :: suf ∧ pre.countP p = t ∧ p v = true := by
  induction V generalizing t with
  | nil => simp at h
  | cons a V ih =>
    by_cases ha : p a = true
    · rw [List.filter_cons_of_pos ha] at h
      cases t with
      | zero =>
        simp only [List.getElem?_cons_zero, Option.some.injEq] at h
        subst h
        exact ⟨[], V, rfl, rfl, ha⟩
      | succ t =>
        rw [List.getElem?_cons_succ] at h
        obtain ⟨pre, suf, e, hc, hp⟩ := ih t h
        exact ⟨a :: pre, suf, by simp [e], by simp [List.countP_cons, ha, hc], hp⟩
    · rw [List.filter_cons_of_neg ha] at h
      obtain ⟨pre, suf, e, hc, hp⟩ := ih t h
      exact ⟨a :: pre, suf, by simp [e], by simp [List.countP_cons, ha, hc], hp⟩

/-- The visits stored through the cursor of one row or column fill the slots
after the start offset in the order of the visits. -/
theorem content_splitPass_append {A : cholmod_sparse} {Sym : ParU_Symbolic}
    (Rs : Option (Int → ℚ)) {reg : Region} (hr : RegionValid A Sym reg) (k : Int)
    (t : Nat) (v : Visit)
    (h : ((visits A Sym).filter (appendsTo A Sym reg k))[t]? = some v) :
    content (splitPass A Sym Rs (splitInit Sym)) reg (base Sym reg k + shift reg + t) =
      some (scaledValue A Rs v.p) := by
  obtain ⟨pre, suf, hV, hc, hp⟩ := getElem?_filter_split _ _ _ _ h
  simp only [appendsTo, decide_eq_true_eq] at hp
  obtain ⟨hd, hreg, hk⟩ := hp
  have := content_splitPass_of_visit Rs (hreg ▸ hr) hV
  rw [hreg] at this
  rw [← this]
  congr 1
  unfold closedIndex
  rw [hd, hreg, hk, hc]
  simp

/-- The diagonal visit of a row or column is stored at the start offset. -/
theorem content_splitPass_diag {A : cholmod_sparse} {Sym : ParU_Symbolic}
    (Rs : Option (Int → ℚ)) {reg : Region} (hr : RegionValid A Sym reg) (k : Int)
    (v : Visit) (hm : v ∈ visits A Sym) (h : target A Sym v = ⟨reg, k, true⟩) :
    content (splitPass A Sym Rs (splitInit Sym)) reg (base Sym reg k) =
      some (scaledValue A Rs v.p) := by
  obtain ⟨pre, suf, hV⟩ := List.append_of_mem hm
  have hreg : (target A Sym v).region = reg := by rw [h]
  have := content_splitPass_of_visit Rs (hreg ▸ hr) hV
  rw [hreg] at this
  rw [← this]
  congr 1
  unfold closedIndex
  rw [h]
  simp

theorem ValidInput.regionValid {A : cholmod_sparse} {Sym : ParU_Symbolic}
    (hv : ValidInput A Sym) (reg : Region) : RegionValid A Sym reg := by
  have e1 := hv.n1_eq
  have e2 := hv.cs1_nonneg
  have e3 := hv.rs1_nonneg
  refine ⟨?_, ?_, ?_, hv.seg_len reg⟩
  · intro v hm hreg
    have hr := hv.row_range v hm
    have hp := hv.pinv_perm.1 _ hr.1 hr.2
    have hu := hv.u_rows v hm
    have hl := hv.l_cols v hm
    subst hreg
    unfold target
    simp only []
    split_ifs <;> simp only [extent] <;> omega
  · intro v hm w hw _ hd he
    have hrv := hv.row_range v hm
    have hrw := hv.row_range w hw
    have hinj := hv.pinv_perm.2 _ hrv.1 hrv.2 _ hrw.1 hrw.2
    have hnd := hv.no_dup v hm w hw
    have hdw : (target A Sym w).diag = true := he ▸ hd
    have key : v.newcol = w.newcol ∧ Sym.Pinv (A.i v.p) = Sym.Pinv (A.i w.p) := by
      unfold target at hd hdw he
      simp only [] at hd hdw he
      split_ifs at hd hdw he <;> simp_all
    have hp : v.p = w.p := hnd key.1 (hinj key.2)
    cases v; cases w
    simp_all
  · intro hreg k h0 h1
    cases reg with
    | Sx => simp [shift] at hreg
    | Sux =>
      simp only [extent] at h1
      obtain ⟨v, hm, hc, hr⟩ := hv.diag k h0 (by omega)
      refine ⟨v, hm, ?_⟩
      unfold target
      simp only [hc, hr]
      rw [if_neg (by omega), if_neg (by omega), if_pos h1]
      simp
    | Slx =>
      simp only [extent] at h1
      obtain ⟨v, hm, hc, hr⟩ := hv.diag (k + Sym.cs1) (by omega) (by omega)
      refine ⟨v, hm, ?_⟩
      unfold target
      simp only [hc, hr]
      rw [if_neg (by omega), if_neg (by omega), if_neg (by omega)]
      simp

theorem perm_of_isPerm {f : Int → Int} {n : Int} (h : IsPerm f n) :
    List.Perm ((loopRange 0 n).map f) (loopRange 0 n) := by
  apply List.Subperm.perm_of_length_le
  · apply List.subperm_of_subset
    · apply List.Nodup.map_on _ (loopRange_nodup 0 n)
      intro x hx y hy hxy
      rw [mem_loopRange] at hx hy
      exact h.2 x hx.1 hx.2 y hy.1 hy.2 hxy
    · intro y hy
      rw [List.mem_map] at hy
      obtain ⟨x, hx, rfl⟩ := hy
      rw [mem_loopRange] at hx ⊢
      exact h.1 x hx.1 hx.2
  · simp

theorem isPerm_surjective {f : Int → Int} {n : Int} (h : IsPerm f n) {c : Int}
    (h0 : 0 ≤ c) (h1 : c < n) : ∃ k, 0 ≤ k ∧ k < n ∧ f k = c := by
  have hc : c ∈ (loopRange 0 n).map f :=
    (perm_of_isPerm h).mem_iff.mpr (mem_loopRange.mpr ⟨h0, h1⟩)
  rw [List.mem_map] at hc
  obtain ⟨k, hk, rfl⟩ := hc
  rw [mem_loopRange] at hk
  exact ⟨k, hk.1, hk.2, rfl⟩

theorem length_visits {A : cholmod_sparse} {Sym : ParU_Symbolic}
    (h : IsPerm Sym.Qfill Sym.n) : (visits A Sym).length = nnz A Sym.n := by
  unfold visits nnz
  rw [List.flatMap, List.length_flatten, List.map_map]
  have e : (List.length ∘ fun newcol =>
      (loopRange (A.p (Sym.Qfill newcol)) (A.p (Sym.Qfill newcol + 1))).map
        (fun p => Visit.mk newcol p)) =
      (fun c => (A.p (c + 1) - A.p c).toNat) ∘ Sym.Qfill := by
    funext c
    simp [length_loopRange]
  rw [e, ← List.map_map]
  exact ((perm_of_isPerm h).map _).sum_eq

/-- Every stored entry of `A` is visited, when `Qfill` is a permutation. -/
theorem stored_entry_visited {A : cholmod_sparse} {Sym : ParU_Symbolic}
    (h : IsPerm Sym.Qfill Sym.n) {c p : Int} (h0 : 0 ≤ c) (h1 : c < Sym.n)
    (hp0 : A.p c ≤ p) (hp1 : p < A.p (c + 1)) :
    ∃ v ∈ visits A Sym, Sym.Qfill v.newcol = c ∧ v.p = p := by
  obtain ⟨k, hk0, hk1, rfl⟩ := isPerm_surjective h h0 h1
  exact ⟨⟨k, p⟩, mem_visits.mpr ⟨⟨hk0, hk1⟩, hp0, hp1⟩, rfl, rfl⟩

theorem loopRange_pairwise (lo hi : Int) : (loopRange lo hi).Pairwise (· < ·) := by
  unfold loopRange
  rw [List.pairwise_map]
  exact (List.pairwise_lt_range _).imp (fun h => by omega)

/-- The visits are ordered by permuted column and, inside a column, by
position. -/
theorem visits_pairwise (A : cholmod_sparse) (Sym : ParU_Symbolic) :
    (visits A Sym).Pairwise
      (fun v w => v.newcol < w.newcol ∨ (v.newcol = w.newcol ∧ v.p < w.p)) := by
  unfold visits
  rw [List.pairwise_flatMap]
  constructor
  · intro c _
    rw [List.pairwise_map]
    exact (loopRange_pairwise _ _).imp (fun h => Or.inr ⟨rfl, h⟩)
  · refine (loopRange_pairwise 0 Sym.n).imp ?_
    intro a b hab x hx y hy
    rw [List.mem_map] at hx hy
    obtain ⟨_, _, rfl⟩ := hx
    obtain ⟨_, _, rfl⟩ := hy
    exact Or.inl hab

theorem writeLogFrom_nodup {A : cholmod_sparse} {Sym : ParU_Symbolic}
    (Rs : Option (Int → ℚ)) (hv : ∀ reg, RegionValid A Sym reg) (P L : List Visit)
    (hV : visits A Sym = P ++ L) :
    (writeLogFrom A Sym Rs (P.foldl (splitStep A Sym Rs) (splitInit Sym)) L).Nodup := by
  induction L generalizing P with
  | nil => simp [writeLogFrom]
  | cons v L ih =>
    simp only [writeLogFrom, List.nodup_cons]
    constructor
    · rw [mem_writeLogFrom]
      rintro ⟨s1, w, s2, e, h⟩
      have hf : s1.foldl (splitStep A Sym Rs)
          (splitStep A Sym Rs (P.foldl (splitStep A Sym Rs) (splitInit Sym)) v) =
          (P ++ v :: s1).foldl (splitStep A Sym Rs) (splitInit Sym) := by
        simp [List.foldl_append]
      rw [hf, writeSlot_foldl, writeSlot_foldl] at h
      exact closedIndex_injective (hv _) (by rw [hV, e]) h
    · have := ih (P ++ [v]) (by simp [hV])
      simpa [List.foldl_append] using this

theorem interiorVisits_eq (A : cholmod_sparse) (Sym : ParU_Symbolic) {r : Int} (h0 : 0 ≤ r) :
    interiorVisits A Sym r = (visits A Sym).filter (appendsTo A Sym Region.Sx r) := by
  unfold interiorVisits
  apply List.filter_congr
  intro v _
  unfold appendsTo target
  simp only []
  split_ifs <;> simp <;> omega

theorem uOffDiagVisits_eq (A : cholmod_sparse) (Sym : ParU_Symbolic) {k : Int}
    (hn : Sym.cs1 ≤ Sym.n1) (h1 : k < Sym.cs1) :
    uOffDiagVisits A Sym k = (visits A Sym).filter (appendsTo A Sym Region.Sux k) := by
  unfold uOffDiagVisits
  apply List.filter_congr
  intro v _
  unfold appendsTo target
  simp only []
  split_ifs <;> simp <;> omega

theorem lOffDiagVisits_eq (A : cholmod_sparse) (Sym : ParU_Symbolic) {c : Int}
    (h1 : c < Sym.n1) :
    lOffDiagVisits A Sym c =
      (visits A Sym).filter (appendsTo A Sym Region.Slx (c - Sym.cs1)) := by
  unfold lOffDiagVisits
  apply List.filter_congr
  intro v _
  unfold appendsTo target
  simp only []
  split_ifs <;> simp <;> omega

theorem target_of_uDiag {A : cholmod_sparse} {Sym : ParU_Symbolic} {k : Int} {v : Visit}
    (hn : Sym.cs1 ≤ Sym.n1) (h1 : k < Sym.cs1) (hc : v.newcol = k)
    (hr : Sym.Pinv (A.i v.p) = k) : target A Sym v = ⟨Region.Sux, k, true⟩ := by
  unfold target
  simp only [hc, hr]
  rw [if_neg (by omega), if_neg (by omega), if_pos h1]
  simp

theorem target_of_lDiag {A : cholmod_sparse} {Sym : ParU_Symbolic} {c : Int} {v : Visit}
    (h0 : Sym.cs1 ≤ c) (h1 : c < Sym.n1) (hc : v.newcol = c)
    (hr : Sym.Pinv (A.i v.p) = c) : target A Sym v = ⟨Region.Slx, c - Sym.cs1, true⟩ := by
  unfold target
  simp only [hc, hr]
  rw [if_neg (by omega), if_neg (by omega), if_neg (by omega)]
  simp

theorem length_interiorVisits {A : cholmod_sparse} {Sym : ParU_Symbolic}
    (hr : RegionValid A Sym Region.Sx) {r : Int} (h0 : 0 ≤ r) (h1 : r < Sym.m - Sym.n1) :
    ((interiorVisits A Sym r).length : Int) = Sym.Sp (r + 1) - Sym.Sp r := by
  have hlen := hr.seg_len r h0 h1
  simp only [base] at hlen
  rw [interiorVisits_eq A Sym h0, ← List.countP_eq_length_filter, hlen]
  unfold segmentCount
  rw [segmentCount_split]
  have hd : (visits A Sym).countP (diagOf A Sym Region.Sx r) = 0 := by
    rw [List.countP_eq_zero]
    intro v _
    unfold diagOf target
    simp only []
    split_ifs <;> simp
  rw [hd, Nat.zero_add]

/-! ## The scaling pass -/

theorem scaleStep_apply (A : cholmod_sparse) (R : Int → ℚ) (p i : Int) :
    scaleStep A R p i = if A.i p = i then max (R i) |A.x p| else R i := by
  unfold scaleStep
  by_cases h : A.i p = i
  · subst h
    simp
  · rw [if_neg h, Function.update_noteq (Ne.symm h)]

/-- The scale of a row after a run of the first pass: it is at least the
initial scale and every value met in the row, and it is one of them. -/
theorem scale_foldl (A : cholmod_sparse) (L : List Visit) (R0 : Int → ℚ) (i : Int) :
    R0 i ≤ L.foldl (fun R v => scaleStep A R v.p) R0 i ∧
    (∀ v ∈ L, A.i v.p = i → |A.x v.p| ≤ L.foldl (fun R v => scaleStep A R v.p) R0 i) ∧
    (L.foldl (fun R v => scaleStep A R v.p) R0 i = R0 i ∨
      ∃ v ∈ L, A.i v.p = i ∧ L.foldl (fun R v => scaleStep A R v.p) R0 i = |A.x v.p|) := by
  induction L generalizing R0 with
  | nil => simp
  | cons a L ih =>
    obtain ⟨h1, h2, h3⟩ := ih (scaleStep A R0 a.p)
    have hstep := scaleStep_apply A R0 a.p i
    simp only [List.foldl_cons]
    refine ⟨?_, ?_, ?_⟩
    · refine le_trans ?_ h1
      rw [hstep]
      split_ifs
      · exact le_max_left _ _
      · exact le_refl _
    · intro v hv hi
      rcases List.mem_cons.mp hv with rfl | hv
      · refine le_trans ?_ h1
        rw [hstep, if_pos hi]
        exact le_max_right _ _
      · exact h2 v hv hi
    · rcases h3 with h3 | ⟨v, hv, hi, h3⟩
      · rw [h3, hstep]
        split_ifs with hi
        · rcases max_choice (R0 i) |A.x a.p| with hm | hm
          · exact Or.inl hm
          · exact Or.inr ⟨a, List.mem_cons_self _ _, hi, hm⟩
        · exact Or.inl rfl
      · exact Or.inr ⟨v, List.mem_cons_of_mem _ hv, hi, h3⟩

theorem stored_of_mem_visits {A : cholmod_sparse} {Sym : ParU_Symbolic}
    (h : IsPerm Sym.Qfill Sym.n) {v : Visit} (hv : v ∈ visits A Sym) :
    stored A Sym.n (Sym.Qfill v.newcol) v.p := by
  rw [mem_visits] at hv
  obtain ⟨⟨h0, h1⟩, hp0, hp1⟩ := hv
  have := h.1 _ h0 h1
  exact ⟨this.1, this.2, hp0, hp1⟩

/-- The scale of row `i` after the first pass on the zero array is the
largest absolute value stored in the row, and zero for a row without stored
entry. -/
theorem scalePass_max {A : cholmod_sparse} {Sym : ParU_Symbolic}
    (hq : IsPerm Sym.Qfill Sym.n) (i : Int) :
    (∀ c p, stored A Sym.n c p → A.i p = i → |A.x p| ≤ scalePass A Sym (fun _ => 0) i) ∧
    ((∃ c p, stored A Sym.n c p ∧ A.i p = i) →
      ∃ c p, stored A Sym.n c p ∧ A.i p = i ∧ scalePass A Sym (fun _ => 0) i = |A.x p|) ∧
    ((¬ ∃ c p, stored A Sym.n c p ∧ A.i p = i) → scalePass A Sym (fun _ => 0) i = 0) := by
  rw [scalePass_eq_foldl]
  obtain ⟨h1, h2, h3⟩ := scale_foldl A (visits A Sym) (fun _ => 0) i
  have hb : ∀ c p, stored A Sym.n c p → A.i p = i →
      |A.x p| ≤ (visits A Sym).foldl (fun R v => scaleStep A R v.p) (fun _ => 0) i := by
    intro c p hs hi
    obtain ⟨v, hv, _, rfl⟩ := stored_entry_visited hq hs.1 hs.2.1 hs.2.2.1 hs.2.2.2
    exact h2 v hv hi
  refine ⟨hb, ?_, ?_⟩
  · rintro ⟨c, p, hs, hi⟩
    rcases h3 with h3 | ⟨v, hv, hvi, h3⟩
    · refine ⟨c, p, hs, hi, ?_⟩
      have hle := hb c p hs hi
      rw [h3] at hle ⊢
      exact le_antisymm (abs_nonneg _) hle
    · exact ⟨_, _, stored_of_mem_visits hq hv, hvi, h3⟩
  · intro hno
    rcases h3 with h3 | ⟨v, hv, hvi, _⟩
    · exact h3
    · exact absurd ⟨_, _, stored_of_mem_visits hq hv, hvi⟩ hno

/-! ## The per-row stage -/

theorem rowUnit_out_of_memory (alloc : AllocOutcomes)
    (lac_el : (Int → Option paru_element) → Int → Int) (Sym : ParU_Symbolic)
    (Sx : Int → Option ℚ) (W : RowStage) (r : Int) :
    (rowUnit alloc lac_el Sym Sx W r).out_of_memory =
      W.out_of_memory + if rowFails alloc r then 1 else 0 := by
  unfold rowUnit rowFails paru_create_element paru_add_rowTuple
  cases h1 : alloc.element r <;> cases h2 : alloc.heapNew r <;>
    cases h3 : alloc.heapPush r <;> cases h4 : alloc.rowList r <;> simp

theorem rowStage_out_of_memory (alloc : AllocOutcomes)
    (lac_el : (Int → Option paru_element) → Int → Int) (Sym : ParU_Symbolic)
    (Sx : Int → Option ℚ) (L : List Int) (W : RowStage) :
    (L.foldl (rowUnit alloc lac_el Sym Sx) W).out_of_memory =
      W.out_of_memory + (L.countP (rowFails alloc) : Nat) := by
  induction L generalizing W with
  | nil => simp
  | cons r L ih =>
    rw [List.foldl_cons, ih, rowUnit_out_of_memory, List.countP_cons]
    split_ifs
    · push_cast; ring
    · simp

theorem rowUnit_RowList_self (alloc : AllocOutcomes)
    (lac_el : (Int → Option paru_element) → Int → Int) (Sym : ParU_Symbolic)
    (Sx : Int → Option ℚ) (W : RowStage) (r : Int) (h : rowFails alloc r = false) :
    (rowUnit alloc lac_el Sym Sx W r).RowList r = initialTupleList (Sym.row2atree r) := by
  unfold rowFails at h
  simp only [Bool.not_eq_false', Bool.and_eq_true] at h
  obtain ⟨⟨⟨h1, h2⟩, h3⟩, h4⟩ := h
  unfold rowUnit paru_create_element paru_add_rowTuple initialTupleList
  simp [h1, h2, h3, h4]

theorem rowUnit_RowList_other (alloc : AllocOutcomes)
    (lac_el : (Int → Option paru_element) → Int → Int) (Sym : ParU_Symbolic)
    (Sx : Int → Option ℚ) (W : RowStage) {r r' : Int} (h : r' ≠ r) :
    (rowUnit alloc lac_el Sym Sx W r').RowList r = W.RowList r := by
  unfold rowUnit paru_create_element paru_add_rowTuple
  cases h1 : alloc.element r' <;> cases h2 : alloc.heapNew r' <;>
    cases h3 : alloc.heapPush r' <;> cases h4 : alloc.rowList r' <;>
    simp [Function.update_noteq (Ne.symm h)]
theorem rowStage_RowList (alloc : AllocOutcomes)
    (lac_el : (Int → Option paru_element) → Int → Int) (Sym : ParU_Symbolic)
    (Sx : Int → Option ℚ) (L : List Int) (W : RowStage) (r : Int)
    (hr : W.RowList r = initialTupleList (Sym.row2atree r) ∨ r ∈ L)
    (hok : ∀ r' ∈ L, rowFails alloc r' = false) :
    (L.foldl (rowUnit alloc lac_el Sym Sx) W).RowList r =
      initialTupleList (Sym.row2atree r) := by
  induction L generalizing W with
  | nil => simpa using hr
  | cons a L ih =>
    rw [List.foldl_cons]
    apply ih
    · by_cases ha : a = r
      · subst ha
        exact Or.inl (rowUnit_RowList_self alloc lac_el Sym Sx W a
          (hok a (List.mem_cons_self _ _)))
      · rcases hr with hr | hr
        · exact Or.inl (by rw [rowUnit_RowList_other alloc lac_el Sym Sx W ha, hr])
        · rcases List.mem_cons.mp hr with rfl | hr
          · exact absurd rfl ha
          · exact Or.inr hr
    · intro r' hr'
      exact hok r' (List.mem_cons_of_mem _ hr')

/-- The element built for row `row` by a unit all of whose allocations
succeed. -/
theorem rowUnit_elementList_self (alloc : AllocOutcomes)
    (lac_el : (Int → Option paru_element) → Int → Int) (Sym : ParU_Symbolic)
    (Sx : Int → Option ℚ) (W : RowStage) (r : Int) (h : rowFails alloc r = false) :
    (rowUnit alloc lac_el Sym Sx W r).elementList (Sym.row2atree r) =
      some (fillElement Sym.Sp Sym.Sj Sx r
        { nrows := 1, ncols := Sym.Sp (r + 1) - Sym.Sp r,
          colrowIndex := fun _ => none, colrowNum := fun _ => none }) := by
  unfold rowFails at h
  simp only [Bool.not_eq_false', Bool.and_eq_true] at h
  obtain ⟨⟨⟨h1, h2⟩, h3⟩, h4⟩ := h
  unfold rowUnit paru_create_element paru_add_rowTuple
  simp [h1, h2, h3, h4]

theorem rowUnit_elementList_other (alloc : AllocOutcomes)
    (lac_el : (Int → Option paru_element) → Int → Int) (Sym : ParU_Symbolic)
    (Sx : Int → Option ℚ) (W : RowStage) {r' e : Int} (h : Sym.row2atree r' ≠ e) :
    (rowUnit alloc lac_el Sym Sx W r').elementList e = W.elementList e := by
  unfold rowUnit paru_create_element paru_add_rowTuple
  cases h1 : alloc.element r' <;> cases h2 : alloc.heapNew r' <;>
    cases h3 : alloc.heapPush r' <;> cases h4 : alloc.rowList r' <;>
    simp [Function.update_noteq (Ne.symm h)]

theorem rowStage_elementList (alloc : AllocOutcomes)
    (lac_el : (Int → Option paru_element) → Int → Int) (Sym : ParU_Symbolic)
    (Sx : Int → Option ℚ) (L : List Int) (W : RowStage) (r : Int)
    (hr : W.elementList (Sym.row2atree r) =
        some (fillElement Sym.Sp Sym.Sj Sx r
          { nrows := 1, ncols := Sym.Sp (r + 1) - Sym.Sp r,
            colrowIndex := fun _ => none, colrowNum := fun _ => none }) ∨ r ∈ L)
    (hok : ∀ r' ∈ L, rowFails alloc r' = false)
    (hinj : ∀ r' ∈ L, Sym.row2atree r' = Sym.row2atree r → r' = r) :
    (L.foldl (rowUnit alloc lac_el Sym Sx) W).elementList (Sym.row2atree r) =
      some (fillElement Sym.Sp Sym.Sj Sx r
        { nrows := 1, ncols := Sym.Sp (r + 1) - Sym.Sp r,
          colrowIndex := fun _ => none, colrowNum := fun _ => none }) := by
  induction L generalizing W with
  | nil => simpa using hr
  | cons a L ih =>
    rw [List.foldl_cons]
    apply ih
    · by_cases ha : a = r
      · subst ha
        exact Or.inl (rowUnit_elementList_self alloc lac_el Sym Sx W a
          (hok a (List.mem_cons_self _ _)))
      · have hne : Sym.row2atree a ≠ Sym.row2atree r :=
          fun e => ha (hinj a (List.mem_cons_self _ _) e)
        rcases hr with hr | hr
        · exact Or.inl (by rw [rowUnit_elementList_other alloc lac_el Sym Sx W hne, hr])
        · rcases List.mem_cons.mp hr with rfl | hr
          · exact absurd rfl ha
          · exact Or.inr hr
    · intro r' hr'
      exact hok r' (List.mem_cons_of_mem _ hr')
    · intro r' hr'
      exact hinj r' (List.mem_cons_of_mem _ hr')

/-- The copy loop of `fillElement`: it leaves the counts alone, advances the
index by the number of positions, and stores the index and the value of the
`t`-th position at index `j0 + t`. -/
theorem fillLoop (Sj : Int → Int) (Sx : Int → Option ℚ) (ps : List Int)
    (el : paru_element) (j0 : Int) :
    let res := ps.foldl
      (fun (acc : paru_element × Int) p =>
        ({ acc.1 with colrowIndex := Function.update acc.1.colrowIndex acc.2 (some (Sj p)),
                      colrowNum := Function.update acc.1.colrowNum acc.2 (Sx p) },
         acc.2 + 1))
      (el, j0)
    res.2 = j0 + ps.length ∧ res.1.nrows = el.nrows ∧ res.1.ncols = el.ncols ∧
    (∀ i, i < j0 → res.1.colrowIndex i = el.colrowIndex i ∧
      res.1.colrowNum i = el.colrowNum i) ∧
    (∀ (t : Nat) (p : Int), ps[t]? = some p →
      res.1.colrowIndex (j0 + t) = some (Sj p) ∧ res.1.colrowNum (j0 + t) = Sx p) := by
  induction ps generalizing el j0 with
  | nil => simp
  | cons a ps ih =>
    simp only [List.foldl_cons]
    obtain ⟨h1, h2, h3, h4, h5⟩ := ih
      { el with colrowIndex := Function.update el.colrowIndex j0 (some (Sj a)),
                colrowNum := Function.update el.colrowNum j0 (Sx a) } (j0 + 1)
    refine ⟨?_, h2, h3, ?_, ?_⟩
    · rw [h1]; simp; ring
    · intro i hi
      have := h4 i (by omega)
      simp only [Function.update_noteq (ne_of_lt hi)] at this
      exact this
    · intro t p ht
      cases t with
      | zero =>
        simp only [List.getElem?_cons_zero, Option.some.injEq] at ht
        subst ht
        have := h4 j0 (by omega)
        simpa using this
      | succ t =>
        rw [List.getElem?_cons_succ] at ht
        have := h5 t p ht
        have e : j0 + ((t + 1 : Nat) : Int) = j0 + 1 + (t : Int) := by push_cast; ring
        rw [e]
        exact this

theorem loopRange_getElem? (lo hi : Int) (t : Nat) (h : (t : Int) < hi - lo) :
    (loopRange lo hi)[t]? = some (lo + t) := by
  unfold loopRange
  rw [List.getElem?_map, List.getElem?_range (by omega)]
  rfl

/-- The element filled for a row: counts as created, the column indices and
values of the row's segment, and the row index after them. -/
theorem fillElement_spec (Sp Sj : Int → Int) (Sx : Int → Option ℚ) (row : Int)
    (el : paru_element) :
    (fillElement Sp Sj Sx row el).nrows = el.nrows ∧
    (fillElement Sp Sj Sx row el).ncols = el.ncols ∧
    (fillElement Sp Sj Sx row el).colrowIndex (((Sp (row + 1) - Sp row).toNat : Nat) : Int) =
      some row ∧
    (∀ j, 0 ≤ j → j < Sp (row + 1) - Sp row →
      (fillElement Sp Sj Sx row el).colrowIndex j = some (Sj (Sp row + j)) ∧
      (fillElement Sp Sj Sx row el).colrowNum j = Sx (Sp row + j)) := by
  obtain ⟨h1, h2, h3, _, h5⟩ := fillLoop Sj Sx (loopRange (Sp row) (Sp (row + 1))) el 0
  simp only [length_loopRange, zero_add] at h1 h5
  unfold fillElement
  simp only []
  refine ⟨h2, h3, ?_, ?_⟩
  · rw [h1]
    simp
  · intro j hj0 hj1
    have := h5 j.toNat (Sp row + j) (by
      rw [loopRange_getElem? _ _ _ (by omega)]
      congr 2
      omega)
    rw [Int.toNat_of_nonneg hj0] at this
    rw [h1]
    rw [Function.update_noteq (by omega)]
    exact this

/-! ## The whole function -/

theorem rowStageResult_out_of_memory (alloc : AllocOutcomes)
    (lac_el : (Int → Option paru_element) → Int → Int) (Sym : ParU_Symbolic)
    (Sx : Int → Option ℚ) (Work : paru_work) :
    (rowStageResult alloc lac_el Sym Sx Work).out_of_memory =
      ((loopRange 0 (Sym.m - Sym.n1)).countP (rowFails alloc) : Nat) := by
  unfold rowStageResult rowStage
  rw [rowStage_out_of_memory]
  simp [rowStageInit]

theorem finalInfo_rowStageResult (alloc : AllocOutcomes)
    (lac_el : (Int → Option paru_element) → Int → Int) (Sym : ParU_Symbolic)
    (Sx : Int → Option ℚ) (Work : paru_work) :
    (finalInfo (rowStageResult alloc lac_el Sym Sx Work).out_of_memory =
        ParU_Info.PARU_OUT_OF_MEMORY ↔
      ∃ r, 0 ≤ r ∧ r < Sym.m - Sym.n1 ∧ rowFails alloc r = true) ∧
    (finalInfo (rowStageResult alloc lac_el Sym Sx Work).out_of_memory =
        ParU_Info.PARU_SUCCESS ↔
      ¬ ∃ r, 0 ≤ r ∧ r < Sym.m - Sym.n1 ∧ rowFails alloc r = true) := by
  rw [rowStageResult_out_of_memory]
  have hpos : (0 < (loopRange 0 (Sym.m - Sym.n1)).countP (rowFails alloc)) ↔
      ∃ r, 0 ≤ r ∧ r < Sym.m - Sym.n1 ∧ rowFails alloc r = true := by
    rw [List.countP_pos_iff]
    constructor
    · rintro ⟨r, hr, hf⟩
      rw [mem_loopRange] at hr
      exact ⟨r, hr.1, hr.2, hf⟩
    · rintro ⟨r, h0, h1, hf⟩
      exact ⟨r, mem_loopRange.mpr ⟨h0, h1⟩, hf⟩
  unfold finalInfo
  rw [← hpos]
  by_cases h : 0 < (loopRange 0 (Sym.m - Sym.n1)).countP (rowFails alloc)
  · rw [if_pos (by omega)]
    simp [h]
  · rw [if_neg (by omega)]
    simp [h]

theorem PARU_MALLOC_isNone {α : Type} (ok : Bool) :
    (PARU_MALLOC ok : Option (Int → Option α)).isNone = !ok := by
  cases ok <;> rfl

theorem PARU_CALLOC_isNone {α : Type} (ok : Bool) (z : α) :
    (PARU_CALLOC ok z).isNone = !ok := by
  cases ok <;> rfl

theorem numAfterSx_Sx (alloc : AllocOutcomes) (Sym : ParU_Symbolic) :
    (numAfterSx alloc Sym).Sx = PARU_MALLOC alloc.Sx := rfl

theorem numAfterSux_Sx (alloc : AllocOutcomes) (Sym : ParU_Symbolic) :
    (numAfterSux alloc Sym).Sx = PARU_MALLOC alloc.Sx := by
  unfold numAfterSux
  split_ifs <;> rfl

theorem numAfterSlx_Sx (alloc : AllocOutcomes) (Sym : ParU_Symbolic) :
    (numAfterSlx alloc Sym).Sx = PARU_MALLOC alloc.Sx := by
  unfold numAfterSlx
  split_ifs <;> simp [numAfterSux_Sx]

theorem numAfterRs_Sx (alloc : AllocOutcomes) (Sym : ParU_Symbolic) (Control : ParU_Control) :
    (numAfterRs alloc Sym Control).Sx = PARU_MALLOC alloc.Sx := by
  unfold numAfterRs
  split_ifs <;> simp [numAfterSlx_Sx]

theorem numAfterSx_Rs (alloc : AllocOutcomes) (Sym : ParU_Symbolic) :
    (numAfterSx alloc Sym).Rs = none := by
  unfold numAfterSx numAfterAlloc numAlloc numInit
  split_ifs <;> rfl

theorem numAfterSlx_Rs (alloc : AllocOutcomes) (Sym : ParU_Symbolic) :
    (numAfterSlx alloc Sym).Rs = none := by
  unfold numAfterSlx numAfterSux
  split_ifs <;> simp [numAfterSx_Rs]

theorem numAfterRs_Rs (alloc : AllocOutcomes) (Sym : ParU_Symbolic) (Control : ParU_Control) :
    (numAfterRs alloc Sym Control).Rs =
      if Control.prescale = 1 then PARU_CALLOC alloc.Rs 0 else none := by
  unfold numAfterRs
  split_ifs <;> simp [numAfterSlx_Rs]

theorem numAfterSux_Sux (alloc : AllocOutcomes) (Sym : ParU_Symbolic) (h : Sym.cs1 > 0) :
    (numAfterSux alloc Sym).Sux = PARU_MALLOC alloc.Sux := by
  unfold numAfterSux
  rw [if_pos h]

theorem numAfterSlx_Slx (alloc : AllocOutcomes) (Sym : ParU_Symbolic) (h : Sym.rs1 > 0) :
    (numAfterSlx alloc Sym).Slx = PARU_MALLOC alloc.Slx := by
  unfold numAfterSlx
  rw [if_pos h]

/-- The singularity test on the numeric object built by the allocation
stage is the test `foundSingular`, when `Rs` was allocated. -/
theorem singular_test_iff (alloc : AllocOutcomes) (A : cholmod_sparse) (Sym : ParU_Symbolic)
    (Control : ParU_Control) (hRs : Control.prescale = 1 → alloc.Rs = true) :
    (((numScaled A Sym (numAfterRs alloc Sym Control)).Rs.map
        (singularRow (Sym.m - Sym.n1))).getD false = true) ↔
      foundSingular A Sym Control := by
  unfold foundSingular numScaled
  simp only [numAfterRs_Rs]
  by_cases hp : Control.prescale = 1
  · simp [hp, hRs hp, PARU_CALLOC]
  · simp [hp]

/-- When every allocation before the per-row stage succeeds, the function
runs lines 231-571 on the objects built so far. -/
theorem init_of_preStageAllocated {alloc : AllocOutcomes}
    (lac_el : (Int → Option paru_element) → Int → Int)
    (A : cholmod_sparse) {Sym : ParU_Symbolic} {Control : ParU_Control}
    (h : preStageAllocated alloc Sym Control) :
    paru_init_rowFronts alloc lac_el A Sym Control =
      initNumerics alloc lac_el A Sym (numAfterRs alloc Sym Control)
        (workAfterMemset alloc Sym) := by
  obtain ⟨hNum, hws, hSx, hcSp, hU, hL, hRs⟩ := h
  unfold paru_init_rowFronts
  rw [if_neg (by simp [hNum]), if_neg, if_neg, if_neg, if_neg, if_neg, if_neg]
  · rintro ⟨hp, hn⟩
    rw [numAfterRs_Rs, if_pos hp, PARU_CALLOC_isNone, hRs hp] at hn
    simp at hn
  · rintro ⟨hp, hn⟩
    rw [numAfterSlx_Slx _ _ hp, PARU_MALLOC_isNone, (hL hp).1, (hL hp).2] at hn
    simp at hn
  · rintro ⟨hp, hn⟩
    rw [numAfterSux_Sux _ _ hp, PARU_MALLOC_isNone, (hU hp).1, (hU hp).2] at hn
    simp at hn
  · rw [numAfterSx_Sx, PARU_MALLOC_isNone, hSx]
    simp
  · rintro ⟨hnf, hsym, hn⟩
    obtain ⟨_, hd⟩ := hws hnf
    obtain ⟨hd1, hd2⟩ := hd hsym
    unfold workAfterDiagAlloc at hn
    rw [if_pos ⟨hnf, hsym⟩] at hn
    simp [PARU_MALLOC, hd1, hd2] at hn
  · rintro ⟨hnf, hn⟩
    obtain ⟨hw, _⟩ := hws hnf
    obtain ⟨a1, a2, a3, a4, a5, a6, a7, a8, a9, a10, a11, a12, a13, a14, a15, a16, a17⟩ := hw
    unfold workspaceNull workAfterAlloc numAfterAlloc workAlloc numAlloc at hn
    rw [if_pos hnf, if_pos hnf] at hn
    simp [PARU_MALLOC, PARU_CALLOC, a1, a2, a3, a4, a5, a6, a7, a8, a9, a10, a11, a12, a13,
      a14, a15, a16, a17] at hn

/-- The second pass of a valid input uses no null pointer: a visit sent to
`Sux` (`Slx`) has its row (column) among the `cs1` (`rs1`) singletons. -/
theorem splitPassNull_of_regionValid {A : cholmod_sparse} {Sym : ParU_Symbolic}
    (hU : RegionValid A Sym Region.Sux) (hL : RegionValid A Sym Region.Slx) :
    splitPassNull A Sym = false := by
  unfold splitPassNull
  rw [List.any_eq_false]
  intro v hv
  have kU := hU.key_range v hv
  have kL := hL.key_range v hv
  unfold target at kU kL
  unfold splitStepNull
  simp only [extent] at kU kL ⊢
  split_ifs at kU kL ⊢ with h1 h2 h3 h4 <;> simp only [forall_const, Bool.not_eq_true,
    decide_eq_false_iff_not, not_not, Bool.false_eq_true, not_false_eq_true] at kU kL ⊢ <;>
    omega

theorem splitPassNull_of_valid {A : cholmod_sparse} {Sym : ParU_Symbolic}
    (hv : ValidInput A Sym) : splitPassNull A Sym = false :=
  splitPassNull_of_regionValid (hv.regionValid Region.Sux) (hv.regionValid Region.Slx)

/-- When every allocation before the per-row stage succeeds, the matrix is
not found singular, the second pass uses no null pointer and the per-row stage
has arrays to write to, the function returns the status computed from the
failure counter. -/
theorem init_eq_final {alloc : AllocOutcomes}
    (lac_el : (Int → Option paru_element) → Int → Int)
    (A : cholmod_sparse) {Sym : ParU_Symbolic} {Control : ParU_Control}
    (h : preStageAllocated alloc Sym Control)
    (hdef : Sym.nf = 0 → Sym.m - Sym.n1 ≤ 0)
    (hnn : splitPassNull A Sym = false)
    (hns : ¬ foundSingular A Sym Control) :
    paru_init_rowFronts alloc lac_el A Sym Control =
      Outcome.returned
        (finalInfo (rowStageResult alloc lac_el Sym
          (splitPass A Sym (numScaled A Sym (numAfterRs alloc Sym Control)).Rs
            (splitInit Sym)).Sx
          (workDiagMap Sym (workAfterMemset alloc Sym))).out_of_memory)
        (some (numSplit A Sym (numScaled A Sym (numAfterRs alloc Sym Control))))
        (workAfterRowStage Sym (workDiagMap Sym (workAfterMemset alloc Sym))
          (rowStageResult alloc lac_el Sym
            (splitPass A Sym (numScaled A Sym (numAfterRs alloc Sym Control)).Rs
              (splitInit Sym)).Sx
            (workDiagMap Sym (workAfterMemset alloc Sym)))) := by
  rw [init_of_preStageAllocated lac_el A h]
  unfold initNumerics
  rw [if_neg (by simp [h.2.2.2.1]),
    if_neg (fun hs => hns ((singular_test_iff alloc A Sym Control h.2.2.2.2.2.2).mp hs)),
    if_neg (by simp [hnn]),
    if_neg (fun hu => by have := hdef hu.1; omega)]

/-- When every allocation before the singularity test succeeds and the
matrix is found singular, the function returns `PARU_SINGULAR` and records it
in `Num->res`. -/
theorem init_eq_singular {alloc : AllocOutcomes}
    (lac_el : (Int → Option paru_element) → Int → Int)
    (A : cholmod_sparse) {Sym : ParU_Symbolic} {Control : ParU_Control}
    (h : preStageAllocated alloc Sym Control)
    (hs : foundSingular A Sym Control) :
    paru_init_rowFronts alloc lac_el A Sym Control =
      Outcome.returned ParU_Info.PARU_SINGULAR
        (some { numScaled A Sym (numAfterRs alloc Sym Control) with
                res := ParU_Info.PARU_SINGULAR })
        (workAfterMemset alloc Sym) := by
  rw [init_of_preStageAllocated lac_el A h]
  unfold initNumerics
  rw [if_neg (by simp [h.2.2.2.1]),
    if_pos ((singular_test_iff alloc A Sym Control h.2.2.2.2.2.2).mpr hs)]

/-- A call that returns `PARU_SUCCESS` went through the second pass and the
per-row stage, and no unit of the per-row stage counted a failure. -/
theorem init_success {alloc : AllocOutcomes}
    {lac_el : (Int → Option paru_element) → Int → Int}
    {A : cholmod_sparse} {Sym : ParU_Symbolic} {Control : ParU_Control}
    {Num_handle : Option ParU_Numeric} {Work : paru_work}
    (h : paru_init_rowFronts alloc lac_el A Sym Control =
      Outcome.returned ParU_Info.PARU_SUCCESS Num_handle Work) :
    ∃ (Num0 : ParU_Numeric) (Work0 : paru_work),
      Num_handle = some (numSplit A Sym Num0) ∧
      Num0.Sx.isSome ∧
      (∀ r, 0 ≤ r → r < Sym.m - Sym.n1 → rowFails alloc r = false) ∧
      (Sym.nf = 0 → Sym.m - Sym.n1 ≤ 0) ∧
      (Sym.nf ≠ 0 → Work = workAfterRows Work0
        (rowStageResult alloc lac_el Sym (splitPass A Sym Num0.Rs (splitInit Sym)).Sx
          Work0)) := by
  unfold paru_init_rowFronts at h
  split_ifs at h with h1 h2 h3 h4 h5 h6 h7 <;>
    try (first | contradiction | (injection h with hi; cases hi))
  unfold initNumerics at h
  split_ifs at h with g1 g2 g4 g3 <;>
    try (first | contradiction | (injection h with hi; cases hi))
  simp only [Outcome.returned.injEq] at h
  obtain ⟨hinfo, hnum, hwork⟩ := h
  refine ⟨numScaled A Sym (numAfterRs alloc Sym Control),
    workDiagMap Sym (workAfterMemset alloc Sym), hnum.symm, ?_, ?_, ?_, ?_⟩
  · have : (numScaled A Sym (numAfterRs alloc Sym Control)).Sx = PARU_MALLOC alloc.Sx :=
      numAfterRs_Sx alloc Sym Control
    rw [this]
    rw [numAfterSx_Sx, PARU_MALLOC_isNone] at h4
    cases hx : alloc.Sx
    · simp [hx] at h4
    · rfl
  · intro r h0 h1
    have := ((finalInfo_rowStageResult alloc lac_el Sym _ _).2.mp hinfo)
    by_contra hf
    exact this ⟨r, h0, h1, by simpa using hf⟩
  · intro hnf
    by_contra hm
    exact g3 ⟨hnf, by omega⟩
  · intro hnf
    rw [workAfterRowStage, if_neg hnf] at hwork
    exact hwork.symm

theorem numAfterAlloc_Rs (alloc : AllocOutcomes) (Sym : ParU_Symbolic) :
    (numAfterAlloc alloc Sym).Rs = none := by
  unfold numAfterAlloc numAlloc numInit
  split_ifs <;> rfl

theorem numAfterSux_Rs (alloc : AllocOutcomes) (Sym : ParU_Symbolic) :
    (numAfterSux alloc Sym).Rs = none := by
  unfold numAfterSux
  split_ifs <;> simp [numAfterSx_Rs]

/-- Whenever the function returns with `Num->Rs` not null, `Num->Rs` is the
result of the first pass on the zero array. -/
theorem returned_Rs {alloc : AllocOutcomes}
    {lac_el : (Int → Option paru_element) → Int → Int}
    {A : cholmod_sparse} {Sym : ParU_Symbolic} {Control : ParU_Control}
    {info : ParU_Info} {Num : ParU_Numeric} {Work : paru_work} {R : Int → ℚ}
    (h : paru_init_rowFronts alloc lac_el A Sym Control =
      Outcome.returned info (some Num) Work)
    (hR : Num.Rs = some R) : R = scalePass A Sym (fun _ => 0) := by
  have key : ∀ R', (numScaled A Sym (numAfterRs alloc Sym Control)).Rs = some R' →
      R' = scalePass A Sym (fun _ => 0) := by
    intro R' h'
    unfold numScaled at h'
    simp only [numAfterRs_Rs] at h'
    split_ifs at h' with hp
    · cases ha : alloc.Rs
      · simp [PARU_CALLOC, ha] at h'
      · simp only [PARU_CALLOC, ha, if_true, Option.map_some', Option.some.injEq] at h'
        exact h'.symm
    · simp at h'
  unfold paru_init_rowFronts at h
  split_ifs at h with h1 h2 h3 h4 h5 h6 h7
  · injection h with _ hn _
    cases hn
  · injection h with _ hn _
    injection hn with hn
    rw [← hn, numAfterAlloc_Rs] at hR
    cases hR
  · injection h with _ hn _
    injection hn with hn
    rw [← hn, numAfterAlloc_Rs] at hR
    cases hR
  · injection h with _ hn _
    injection hn with hn
    rw [← hn, numAfterSx_Rs] at hR
    cases hR
  · injection h with _ hn _
    injection hn with hn
    rw [← hn, numAfterSux_Rs] at hR
    cases hR
  · injection h with _ hn _
    injection hn with hn
    rw [← hn, numAfterSlx_Rs] at hR
    cases hR
  · injection h with _ hn _
    injection hn with hn
    rw [← hn] at hR
    rw [hR] at h7
    simp at h7
  · unfold initNumerics at h
    split_ifs at h with g1 g2 g4 g3 <;> try contradiction
    all_goals
      injection h with _ hn _
      injection hn with hn
      rw [← hn] at hR
      exact key R hR

theorem numAfterSlx_Sux (alloc : AllocOutcomes) (Sym : ParU_Symbolic) :
    (numAfterSlx alloc Sym).Sux = (numAfterSux alloc Sym).Sux := by
  unfold numAfterSlx
  split_ifs <;> rfl

theorem numAfterRs_Sux (alloc : AllocOutcomes) (Sym : ParU_Symbolic) (Control : ParU_Control) :
    (numAfterRs alloc Sym Control).Sux = (numAfterSux alloc Sym).Sux := by
  unfold numAfterRs
  split_ifs <;> simp [numAfterSlx_Sux]

theorem numAfterRs_Slx (alloc : AllocOutcomes) (Sym : ParU_Symbolic) (Control : ParU_Control) :
    (numAfterRs alloc Sym Control).Slx = (numAfterSlx alloc Sym).Slx := by
  unfold numAfterRs
  split_ifs <;> rfl

/-- When every allocation before the per-row stage succeeds, the matrix is
not found singular and the second pass uses no null pointer, the function
returns and the arrays `Sx`, `Sux` (allocated when `cs1 > 0`) and `Slx`
(allocated when `rs1 > 0`) of the numeric object are those left by the second
pass, run with the `Rs` of the numeric object. -/
theorem init_split_arrays {alloc : AllocOutcomes}
    (lac_el : (Int → Option paru_element) → Int → Int)
    (A : cholmod_sparse) {Sym : ParU_Symbolic} {Control : ParU_Control}
    (h : preStageAllocated alloc Sym Control)
    (hdef : Sym.nf = 0 → Sym.m - Sym.n1 ≤ 0)
    (hnn : splitPassNull A Sym = false)
    (hns : ¬ foundSingular A Sym Control) :
    ∃ info Num Work,
      paru_init_rowFronts alloc lac_el A Sym Control =
        Outcome.returned info (some Num) Work ∧
      Num.Sx = some (splitPass A Sym Num.Rs (splitInit Sym)).Sx ∧
      (Sym.cs1 > 0 → Num.Sux = some (splitPass A Sym Num.Rs (splitInit Sym)).Sux) ∧
      (Sym.rs1 > 0 → Num.Slx = some (splitPass A Sym Num.Rs (splitInit Sym)).Slx) := by
  refine ⟨_, _, _, init_eq_final lac_el A h hdef hnn hns, ?_, ?_, ?_⟩
  · have : (numScaled A Sym (numAfterRs alloc Sym Control)).Sx = PARU_MALLOC alloc.Sx :=
      numAfterRs_Sx alloc Sym Control
    simp [numSplit, this, PARU_MALLOC, h.2.2.1]
  · intro hc
    have : (numScaled A Sym (numAfterRs alloc Sym Control)).Sux = PARU_MALLOC alloc.Sux := by
      show (numAfterRs alloc Sym Control).Sux = _
      rw [numAfterRs_Sux, numAfterSux_Sux _ _ hc]
    simp [numSplit, this, PARU_MALLOC, (h.2.2.2.2.1 hc).2]
  · intro hc
    have : (numScaled A Sym (numAfterRs alloc Sym Control)).Slx = PARU_MALLOC alloc.Slx := by
      show (numAfterRs alloc Sym Control).Slx = _
      rw [numAfterRs_Slx, numAfterSlx_Slx _ _ hc]
    simp [numSplit, this, PARU_MALLOC, (h.2.2.2.2.2.1 hc).2]

/-! ## Facts on the concrete inputs -/

theorem exVisits : visits exA exSym = [⟨0, 0⟩, ⟨1, 1⟩, ⟨1, 2⟩, ⟨1, 3⟩, ⟨2, 4⟩, ⟨2, 5⟩] := by
  decide

theorem exValid : ValidInput exA exSym := by
  refine ⟨?_, ?_, ?_, ?_, ?_, ?_, ?_, ?_, ?_, ?_, ?_⟩
  · unfold IsPerm; decide
  · unfold IsPerm; decide
  · rw [exVisits]; decide
  · rw [exVisits]; decide
  · decide
  · decide
  · decide
  · rw [exVisits]; decide
  · rw [exVisits]; decide
  · rw [exVisits]; decide
  · intro reg k h0 h1
    unfold segmentCount
    rw [exVisits]
    cases reg <;> simp only [extent, exSym] at h1 <;> interval_cases k <;> decide

theorem preStageAllocated_allocAll (Sym : ParU_Symbolic) (Control : ParU_Control) :
    preStageAllocated allocAll Sym Control := by
  unfold preStageAllocated
  simp [allocAll]

theorem rowFails_allocAll (r : Int) : rowFails allocAll r = false := rfl

/-- With every allocation succeeding, a matrix not found singular, a second
pass that uses no null pointer and arrays for the per-row stage, the function
returns `PARU_SUCCESS`. -/
theorem init_allocAll_success (lac_el : (Int → Option paru_element) → Int → Int)
    (A : cholmod_sparse) (Sym : ParU_Symbolic) (Control : ParU_Control)
    (hdef : Sym.nf = 0 → Sym.m - Sym.n1 ≤ 0) (hnn : splitPassNull A Sym = false)
    (hns : ¬ foundSingular A Sym Control) :
    paru_init_rowFronts allocAll lac_el A Sym Control =
      Outcome.returned ParU_Info.PARU_SUCCESS
        (some (numSplit A Sym (numScaled A Sym (numAfterRs allocAll Sym Control))))
        (workAfterRowStage Sym (workDiagMap Sym (workAfterMemset allocAll Sym))
          (rowStageResult allocAll lac_el Sym
            (splitPass A Sym (numScaled A Sym (numAfterRs allocAll Sym Control)).Rs
              (splitInit Sym)).Sx
            (workDiagMap Sym (workAfterMemset allocAll Sym)))) := by
  rw [init_eq_final lac_el A (preStageAllocated_allocAll Sym Control) hdef hnn hns]
  congr 1
  rw [(finalInfo_rowStageResult allocAll lac_el Sym _ _).2]
  rintro ⟨r, _, _, hf⟩
  simp [rowFails_allocAll] at hf

theorem not_foundSingular_ctlPlain (A : cholmod_sparse) (Sym : ParU_Symbolic) :
    ¬ foundSingular A Sym ctlPlain := by
  unfold foundSingular
  simp [ctlPlain]


/-! ## The per-row stage: what a unit writes and what it reads -/

theorem rowStage_ext {W W' : RowStage}
    (h1 : ∀ k, W.row_degree_bound k = W'.row_degree_bound k)
    (h2 : ∀ k, W.elementList k = W'.elementList k)
    (h3 : ∀ k, W.rowMark k = W'.rowMark k)
    (h4 : ∀ k, W.heapList k = W'.heapList k)
    (h5 : ∀ k, W.RowList k = W'.RowList k)
    (h6 : ∀ k, W.lacList k = W'.lacList k)
    (h7 : W.out_of_memory = W'.out_of_memory) : W = W' := by
  cases W
  cases W'
  simp only [RowStage.mk.injEq]
  exact ⟨funext h1, funext h2, funext h3, funext h4, funext h5, funext h6, h7⟩

/-- The unit of row `a` leaves the entries of the arrays indexed by rows at
every index other than `a`. -/
theorem rowUnit_row_frame (alloc : AllocOutcomes)
    (lac_el : (Int → Option paru_element) → Int → Int) (Sym : ParU_Symbolic)
    (Sx : Int → Option ℚ) (W : RowStage) {a k : Int} (h : k ≠ a) :
    (rowUnit alloc lac_el Sym Sx W a).row_degree_bound k = W.row_degree_bound k ∧
    (rowUnit alloc lac_el Sym Sx W a).RowList k = W.RowList k := by
  unfold rowUnit paru_create_element paru_add_rowTuple
  cases h1 : alloc.element a <;> cases h2 : alloc.heapNew a <;>
    cases h3 : alloc.heapPush a <;> cases h4 : alloc.rowList a <;>
    simp [Function.update_noteq h]

/-- The unit of row `a` leaves the entries of the arrays indexed by element
ids at every id other than `row2atree[a]`. -/
theorem rowUnit_elem_frame (alloc : AllocOutcomes)
    (lac_el : (Int → Option paru_element) → Int → Int) (Sym : ParU_Symbolic)
    (Sx : Int → Option ℚ) (W : RowStage) {a e : Int} (h : e ≠ Sym.row2atree a) :
    (rowUnit alloc lac_el Sym Sx W a).elementList e = W.elementList e ∧
    (rowUnit alloc lac_el Sym Sx W a).rowMark e = W.rowMark e ∧
    (rowUnit alloc lac_el Sym Sx W a).heapList e = W.heapList e ∧
    (rowUnit alloc lac_el Sym Sx W a).lacList e = W.lacList e := by
  unfold rowUnit paru_create_element paru_add_rowTuple
  cases h1 : alloc.element a <;> cases h2 : alloc.heapNew a <;>
    cases h3 : alloc.heapPush a <;> cases h4 : alloc.rowList a <;>
    simp [Function.update_noteq h]

/-- The unit of a row leaves the entries that belong to another row with
another element id. -/
theorem rowUnit_rowSlots_other (alloc : AllocOutcomes)
    (lac_el : (Int → Option paru_element) → Int → Int) (Sym : ParU_Symbolic)
    (Sx : Int → Option ℚ) (W : RowStage) {a r : Int} (h : r ≠ a)
    (he : Sym.row2atree r ≠ Sym.row2atree a) :
    rowSlots Sym (rowUnit alloc lac_el Sym Sx W a) r = rowSlots Sym W r := by
  obtain ⟨r1, r2⟩ := rowUnit_row_frame alloc lac_el Sym Sx W h
  obtain ⟨e1, e2, e3, e4⟩ := rowUnit_elem_frame alloc lac_el Sym Sx W he
  unfold rowSlots
  rw [r1, r2, e1, e2, e3, e4]

/-- What the unit of row `r` leaves in the entries of row `r` depends on
the earlier state through these entries only. -/
theorem rowUnit_local (alloc : AllocOutcomes)
    {lac_el : (Int → Option paru_element) → Int → Int} (hlac : lacLocal lac_el)
    (Sym : ParU_Symbolic) (Sx : Int → Option ℚ) (W W' : RowStage) (r : Int)
    (h : rowSlots Sym W r = rowSlots Sym W' r) :
    rowSlots Sym (rowUnit alloc lac_el Sym Sx W r) r =
      rowSlots Sym (rowUnit alloc lac_el Sym Sx W' r) r := by
  have q1 : W.row_degree_bound r = W'.row_degree_bound r :=
    congrArg RowSlots.row_degree_bound h
  have q2 : W.RowList r = W'.RowList r := congrArg RowSlots.RowList h
  have q3 : W.elementList (Sym.row2atree r) = W'.elementList (Sym.row2atree r) :=
    congrArg RowSlots.element h
  have q4 : W.rowMark (Sym.row2atree r) = W'.rowMark (Sym.row2atree r) :=
    congrArg RowSlots.rowMark h
  have q5 : W.heapList (Sym.row2atree r) = W'.heapList (Sym.row2atree r) :=
    congrArg RowSlots.heap h
  have q6 : W.lacList (Sym.row2atree r) = W'.lacList (Sym.row2atree r) :=
    congrArg RowSlots.lac h
  unfold rowUnit paru_create_element paru_add_rowTuple rowSlots
  cases h1 : alloc.element r <;> cases h2 : alloc.heapNew r <;>
    cases h3 : alloc.heapPush r <;> cases h4 : alloc.rowList r <;>
    simp [q1, q2, q3, q4, q5, q6]
  exact hlac _ _ _ (by simp)

/-- The entries left for row `r` by its unit when none of its allocations
fails. -/
theorem rowUnit_rowSlots_done (alloc : AllocOutcomes)
    {lac_el : (Int → Option paru_element) → Int → Int} (hlac : lacLocal lac_el)
    (Sym : ParU_Symbolic) (Sx : Int → Option ℚ) (W : RowStage) (r : Int)
    (h : rowFails alloc r = false) :
    rowSlots Sym (rowUnit alloc lac_el Sym Sx W r) r = doneSlots lac_el Sym Sx r := by
  unfold rowFails at h
  simp only [Bool.not_eq_false', Bool.and_eq_true] at h
  obtain ⟨⟨⟨h1, h2⟩, h3⟩, h4⟩ := h
  unfold rowUnit paru_create_element paru_add_rowTuple rowSlots doneSlots initialTupleList
    initialElement
  simp [h1, h2, h3, h4]
  exact hlac _ _ _ (by simp)

/-- Units of two rows with different element ids commute. -/
theorem rowUnit_comm (alloc : AllocOutcomes)
    {lac_el : (Int → Option paru_element) → Int → Int} (hlac : lacLocal lac_el)
    (Sym : ParU_Symbolic) (Sx : Int → Option ℚ) (W : RowStage) {a b : Int} (hab : a ≠ b)
    (he : Sym.row2atree a ≠ Sym.row2atree b) :
    rowUnit alloc lac_el Sym Sx (rowUnit alloc lac_el Sym Sx W a) b =
      rowUnit alloc lac_el Sym Sx (rowUnit alloc lac_el Sym Sx W b) a := by
  have hb : rowSlots Sym (rowUnit alloc lac_el Sym Sx (rowUnit alloc lac_el Sym Sx W a) b) b =
      rowSlots Sym (rowUnit alloc lac_el Sym Sx (rowUnit alloc lac_el Sym Sx W b) a) b := by
    rw [rowUnit_rowSlots_other alloc lac_el Sym Sx _ (Ne.symm hab) (Ne.symm he)]
    exact rowUnit_local alloc hlac Sym Sx _ _ b
      (rowUnit_rowSlots_other alloc lac_el Sym Sx W (Ne.symm hab) (Ne.symm he))
  have ha : rowSlots Sym (rowUnit alloc lac_el Sym Sx (rowUnit alloc lac_el Sym Sx W a) b) a =
      rowSlots Sym (rowUnit alloc lac_el Sym Sx (rowUnit alloc lac_el Sym Sx W b) a) a := by
    rw [rowUnit_rowSlots_other alloc lac_el Sym Sx _ hab he]
    exact (rowUnit_local alloc hlac Sym Sx _ _ a
      (rowUnit_rowSlots_other alloc lac_el Sym Sx W hab he)).symm
  have row : ∀ k, k ≠ a → k ≠ b →
      (rowUnit alloc lac_el Sym Sx (rowUnit alloc lac_el Sym Sx W a) b).row_degree_bound k =
        (rowUnit alloc lac_el Sym Sx (rowUnit alloc lac_el Sym Sx W b) a).row_degree_bound k ∧
      (rowUnit alloc lac_el Sym Sx (rowUnit alloc lac_el Sym Sx W a) b).RowList k =
        (rowUnit alloc lac_el Sym Sx (rowUnit alloc lac_el Sym Sx W b) a).RowList k := by
    intro k ka kb
    rw [(rowUnit_row_frame alloc lac_el Sym Sx _ kb).1,
      (rowUnit_row_frame alloc lac_el Sym Sx _ kb).2,
      (rowUnit_row_frame alloc lac_el Sym Sx _ ka).1,
      (rowUnit_row_frame alloc lac_el Sym Sx _ ka).2,
      (rowUnit_row_frame alloc lac_el Sym Sx _ ka).1,
      (rowUnit_row_frame alloc lac_el Sym Sx _ ka).2,
      (rowUnit_row_frame alloc lac_el Sym Sx _ kb).1,
      (rowUnit_row_frame alloc lac_el Sym Sx _ kb).2]
    exact ⟨rfl, rfl⟩
  have elem : ∀ e, e ≠ Sym.row2atree a → e ≠ Sym.row2atree b →
      (rowUnit alloc lac_el Sym Sx (rowUnit alloc lac_el Sym Sx W a) b).elementList e =
        (rowUnit alloc lac_el Sym Sx (rowUnit alloc lac_el Sym Sx W b) a).elementList e ∧
      (rowUnit alloc lac_el Sym Sx (rowUnit alloc lac_el Sym Sx W a) b).rowMark e =
        (rowUnit alloc lac_el Sym Sx (rowUnit alloc lac_el Sym Sx W b) a).rowMark e ∧
      (rowUnit alloc lac_el Sym Sx (rowUnit alloc lac_el Sym Sx W a) b).heapList e =
        (rowUnit alloc lac_el Sym Sx (rowUnit alloc lac_el Sym Sx W b) a).heapList e ∧
      (rowUnit alloc lac_el Sym Sx (rowUnit alloc lac_el Sym Sx W a) b).lacList e =
        (rowUnit alloc lac_el Sym Sx (rowUnit alloc lac_el Sym Sx W b) a).lacList e := by
    intro e ea eb
    obtain ⟨x1, x2, x3, x4⟩ :=
      rowUnit_elem_frame alloc lac_el Sym Sx (rowUnit alloc lac_el Sym Sx W a) eb
    obtain ⟨y1, y2, y3, y4⟩ := rowUnit_elem_frame alloc lac_el Sym Sx W ea
    obtain ⟨z1, z2, z3, z4⟩ :=
      rowUnit_elem_frame alloc lac_el Sym Sx (rowUnit alloc lac_el Sym Sx W b) ea
    obtain ⟨w1, w2, w3, w4⟩ := rowUnit_elem_frame alloc lac_el Sym Sx W eb
    rw [x1, x2, x3, x4, y1, y2, y3, y4, z1, z2, z3, z4, w1, w2, w3, w4]
    exact ⟨rfl, rfl, rfl, rfl⟩
  apply rowStage_ext
  · intro k
    by_cases ka : k = a
    · subst ka; exact congrArg RowSlots.row_degree_bound ha
    · by_cases kb : k = b
      · subst kb; exact congrArg RowSlots.row_degree_bound hb
      · exact (row k ka kb).1
  · intro e
    by_cases ea : e = Sym.row2atree a
    · subst ea; exact congrArg RowSlots.element ha
    · by_cases eb : e = Sym.row2atree b
      · subst eb; exact congrArg RowSlots.element hb
      · exact (elem e ea eb).1
  · intro e
    by_cases ea : e = Sym.row2atree a
    · subst ea; exact congrArg RowSlots.rowMark ha
    · by_cases eb : e = Sym.row2atree b
      · subst eb; exact congrArg RowSlots.rowMark hb
      · exact (elem e ea eb).2.1
  · intro e
    by_cases ea : e = Sym.row2atree a
    · subst ea; exact congrArg RowSlots.heap ha
    · by_cases eb : e = Sym.row2atree b
      · subst eb; exact congrArg RowSlots.heap hb
      · exact (elem e ea eb).2.2.1
  · intro k
    by_cases ka : k = a
    · subst ka; exact congrArg RowSlots.RowList ha
    · by_cases kb : k = b
      · subst kb; exact congrArg RowSlots.RowList hb
      · exact (row k ka kb).2
  · intro e
    by_cases ea : e = Sym.row2atree a
    · subst ea; exact congrArg RowSlots.lac ha
    · by_cases eb : e = Sym.row2atree b
      · subst eb; exact congrArg RowSlots.lac hb
      · exact (elem e ea eb).2.2.2
  · rw [rowUnit_out_of_memory, rowUnit_out_of_memory, rowUnit_out_of_memory,
      rowUnit_out_of_memory]
    ring

/-- The state left by the units of a list of rows with pairwise different
element ids does not depend on the order of the list. -/
theorem rowStage_perm (alloc : AllocOutcomes)
    {lac_el : (Int → Option paru_element) → Int → Int} (hlac : lacLocal lac_el)
    (Sym : ParU_Symbolic) (Sx : Int → Option ℚ) (W : RowStage) {L L' : List Int}
    (hp : L.Perm L')
    (hinj : ∀ a ∈ L, ∀ b ∈ L, Sym.row2atree a = Sym.row2atree b → a = b) :
    L.foldl (rowUnit alloc lac_el Sym Sx) W = L'.foldl (rowUnit alloc lac_el Sym Sx) W := by
  apply List.Perm.foldl_eq' hp
  intro x hx y hy z
  by_cases hxy : x = y
  · subst hxy; rfl
  · exact rowUnit_comm alloc hlac Sym Sx z hxy (fun e => hxy (hinj x hx y hy e))

/-- The units of the rows of a list leave the entries indexed by a row that
is not in the list. -/
theorem rowStage_row_frame (alloc : AllocOutcomes)
    (lac_el : (Int → Option paru_element) → Int → Int) (Sym : ParU_Symbolic)
    (Sx : Int → Option ℚ) (L : List Int) (W : RowStage) {k : Int} (h : k ∉ L) :
    (L.foldl (rowUnit alloc lac_el Sym Sx) W).row_degree_bound k = W.row_degree_bound k ∧
    (L.foldl (rowUnit alloc lac_el Sym Sx) W).RowList k = W.RowList k := by
  induction L generalizing W with
  | nil => exact ⟨rfl, rfl⟩
  | cons a L ih =>
    rw [List.foldl_cons]
    have hk : k ≠ a := fun e => h (e ▸ List.mem_cons_self _ _)
    obtain ⟨i1, i2⟩ := ih (rowUnit alloc lac_el Sym Sx W a)
      (fun hm => h (List.mem_cons_of_mem _ hm))
    obtain ⟨f1, f2⟩ := rowUnit_row_frame alloc lac_el Sym Sx W hk
    exact ⟨i1.trans f1, i2.trans f2⟩

/-- The units of the rows of a list leave the entries indexed by an element
id that is not the id of a row of the list. -/
theorem rowStage_elem_frame (alloc : AllocOutcomes)
    (lac_el : (Int → Option paru_element) → Int → Int) (Sym : ParU_Symbolic)
    (Sx : Int → Option ℚ) (L : List Int) (W : RowStage) {e : Int}
    (h : ∀ a ∈ L, Sym.row2atree a ≠ e) :
    (L.foldl (rowUnit alloc lac_el Sym Sx) W).elementList e = W.elementList e ∧
    (L.foldl (rowUnit alloc lac_el Sym Sx) W).rowMark e = W.rowMark e ∧
    (L.foldl (rowUnit alloc lac_el Sym Sx) W).heapList e = W.heapList e ∧
    (L.foldl (rowUnit alloc lac_el Sym Sx) W).lacList e = W.lacList e := by
  induction L generalizing W with
  | nil => exact ⟨rfl, rfl, rfl, rfl⟩
  | cons a L ih =>
    rw [List.foldl_cons]
    have hk : e ≠ Sym.row2atree a := fun q => h a (List.mem_cons_self _ _) q.symm
    obtain ⟨i1, i2, i3, i4⟩ := ih (rowUnit alloc lac_el Sym Sx W a)
      (fun b hb => h b (List.mem_cons_of_mem _ hb))
    obtain ⟨f1, f2, f3, f4⟩ := rowUnit_elem_frame alloc lac_el Sym Sx W hk
    exact ⟨i1.trans f1, i2.trans f2, i3.trans f3, i4.trans f4⟩

/-- The entries of a row none of whose allocations fails, after the units of
a list of rows containing it in which no other row has its element id. -/
theorem rowStage_rowSlots_done (alloc : AllocOutcomes)
    {lac_el : (Int → Option paru_element) → Int → Int} (hlac : lacLocal lac_el)
    (Sym : ParU_Symbolic) (Sx : Int → Option ℚ) (L : List Int) (W : RowStage) (r : Int)
    (hr : rowSlots Sym W r = doneSlots lac_el Sym Sx r ∨ r ∈ L)
    (hok : rowFails alloc r = false)
    (hinj : ∀ a ∈ L, Sym.row2atree a = Sym.row2atree r → a = r) :
    rowSlots Sym (L.foldl (rowUnit alloc lac_el Sym Sx) W) r = doneSlots lac_el Sym Sx r := by
  induction L generalizing W with
  | nil => simpa using hr
  | cons a L ih =>
    rw [List.foldl_cons]
    apply ih
    · by_cases ha : a = r
      · subst ha
        exact Or.inl (rowUnit_rowSlots_done alloc hlac Sym Sx W a hok)
      · have hne : Sym.row2atree r ≠ Sym.row2atree a :=
          fun e => ha (hinj a (List.mem_cons_self _ _) e.symm)
        rcases hr with hr | hr
        · exact Or.inl (by
            rw [rowUnit_rowSlots_other alloc lac_el Sym Sx W (Ne.symm ha) hne, hr])
        · rcases List.mem_cons.mp hr with rfl | hr
          · exact absurd rfl ha
          · exact Or.inr hr
    · intro b hb
      exact hinj b (List.mem_cons_of_mem _ hb)

/-- The heap of the element of a row after the units of a list of rows
containing it, when no allocation of a unit fails. -/
theorem rowStage_heapList (alloc : AllocOutcomes)
    (lac_el : (Int → Option paru_element) → Int → Int) (Sym : ParU_Symbolic)
    (Sx : Int → Option ℚ) (L : List Int) (W : RowStage) (r : Int)
    (hr : W.heapList (Sym.row2atree r) = some [Sym.row2atree r] ∨ r ∈ L)
    (hok : ∀ a ∈ L, rowFails alloc a = false) :
    (L.foldl (rowUnit alloc lac_el Sym Sx) W).heapList (Sym.row2atree r) =
      some [Sym.row2atree r] := by
  induction L generalizing W with
  | nil => simpa using hr
  | cons a L ih =>
    rw [List.foldl_cons]
    apply ih
    · have hfa := hok a (List.mem_cons_self _ _)
      unfold rowFails at hfa
      simp only [Bool.not_eq_false', Bool.and_eq_true] at hfa
      obtain ⟨⟨⟨h1, h2⟩, h3⟩, h4⟩ := hfa
      by_cases he : Sym.row2atree a = Sym.row2atree r
      · left
        unfold rowUnit paru_create_element paru_add_rowTuple
        simp [h1, h2, h3, h4, he]
      · rcases hr with hr | hr
        · exact Or.inl (by
            rw [(rowUnit_elem_frame alloc lac_el Sym Sx W (Ne.symm he)).2.2.1, hr])
        · rcases List.mem_cons.mp hr with rfl | hr
          · exact absurd rfl he
          · exact Or.inr hr
    · intro b hb
      exact hok b (List.mem_cons_of_mem _ hb)

/-! ## The whole function: reaching the per-row stage -/

theorem workDiagMap_rowStageInit (Sym : ParU_Symbolic) (Work : paru_work) :
    rowStageInit (workDiagMap Sym Work) = rowStageInit Work := by
  unfold workDiagMap
  split <;> rfl

/-- The arrays of the work object read by the per-row stage, as they are
after the sentinel initialisation. -/
theorem workAfterMemset_arrays (alloc : AllocOutcomes) (Sym : ParU_Symbolic) :
    (workAfterMemset alloc Sym).row_degree_bound =
      (if Sym.nf ≠ 0 then PARU_MALLOC alloc.row_degree_bound else none) ∧
    (workAfterMemset alloc Sym).elementList =
      (if Sym.nf ≠ 0 then PARU_CALLOC alloc.elementList none else none) ∧
    (workAfterMemset alloc Sym).rowMark =
      (if Sym.nf ≠ 0 then PARU_MALLOC alloc.rowMark else none) ∧
    (workAfterMemset alloc Sym).heapList =
      (if Sym.nf ≠ 0 then PARU_CALLOC alloc.heapList none else none) ∧
    (workAfterMemset alloc Sym).RowList =
      (if Sym.nf ≠ 0 then PARU_CALLOC alloc.RowList { numTuple := 0, len := 0, list := none }
        else none) ∧
    (workAfterMemset alloc Sym).lacList =
      (if Sym.nf ≠ 0 then PARU_MALLOC alloc.lacList else none) := by
  unfold workAfterMemset workMemset workAfterDiagAlloc workAfterAlloc workAlloc workNull
  split_ifs <;> exact ⟨rfl, rfl, rfl, rfl, rfl, rfl⟩

/-- The arrays of the per-row stage are as allocated when the stage starts:
no entry written, the tuple lists zero. -/
theorem rowStageInit_work (alloc : AllocOutcomes) (Sym : ParU_Symbolic) :
    rowStageInit (workDiagMap Sym (workAfterMemset alloc Sym)) = rowStageInit workNull := by
  rw [workDiagMap_rowStageInit]
  obtain ⟨h1, h2, h3, h4, h5, h6⟩ := workAfterMemset_arrays alloc Sym
  unfold rowStageInit
  rw [h1, h2, h3, h4, h5, h6]
  by_cases hnf : Sym.nf ≠ 0
  · simp only [if_pos hnf]
    apply rowStage_ext
    · intro k; cases alloc.row_degree_bound <;> rfl
    · intro k; cases alloc.elementList <;> rfl
    · intro k; cases alloc.rowMark <;> rfl
    · intro k; cases alloc.heapList <;> rfl
    · intro k; cases alloc.RowList <;> rfl
    · intro k; cases alloc.lacList <;> rfl
    · rfl
  · simp only [if_neg hnf]
    rfl

/-- The six arrays of the work object written by the per-row stage, after
the stage. -/
theorem workAfterRowStage_arrays (Sym : ParU_Symbolic) (Work : paru_work) (S : RowStage)
    (hnf : Sym.nf ≠ 0) :
    (workAfterRowStage Sym Work S).row_degree_bound = some S.row_degree_bound ∧
    (workAfterRowStage Sym Work S).elementList = some S.elementList ∧
    (workAfterRowStage Sym Work S).rowMark = some S.rowMark ∧
    (workAfterRowStage Sym Work S).heapList = some S.heapList ∧
    (workAfterRowStage Sym Work S).RowList = some S.RowList ∧
    (workAfterRowStage Sym Work S).lacList = some S.lacList := by
  unfold workAfterRowStage
  rw [if_neg hnf]
  exact ⟨rfl, rfl, rfl, rfl, rfl, rfl⟩

theorem workAfterRowStage_Diag_map (Sym : ParU_Symbolic) (Work : paru_work) (S : RowStage) :
    (workAfterRowStage Sym Work S).Diag_map = Work.Diag_map ∧
    (workAfterRowStage Sym Work S).inv_Diag_map = Work.inv_Diag_map := by
  unfold workAfterRowStage
  split_ifs <;> exact ⟨rfl, rfl⟩

theorem numScaled_Rs_of_pre {alloc : AllocOutcomes} (A : cholmod_sparse)
    {Sym : ParU_Symbolic} {Control : ParU_Control}
    (h : Control.prescale = 1 → alloc.Rs = true) :
    (numScaled A Sym (numAfterRs alloc Sym Control)).Rs = scaleOf A Sym Control := by
  unfold numScaled scaleOf
  simp only [numAfterRs_Rs]
  by_cases hp : Control.prescale = 1
  · simp [hp, h hp, PARU_CALLOC]
  · simp [hp]

/-- When every allocation before the per-row stage succeeds, the matrix is
not found singular, the second pass uses no null pointer and the per-row
stage has arrays to write to, the function returns the status computed from
the failure counter of the per-row stage, which starts from arrays in which
nothing has been written and reads the interior values left by the second
pass. -/
theorem init_reached {alloc : AllocOutcomes}
    (lac_el : (Int → Option paru_element) → Int → Int)
    (A : cholmod_sparse) {Sym : ParU_Symbolic} {Control : ParU_Control}
    (h : preStageAllocated alloc Sym Control)
    (hdef : Sym.nf = 0 → Sym.m - Sym.n1 ≤ 0)
    (hnn : splitPassNull A Sym = false)
    (hns : ¬ foundSingular A Sym Control) :
    paru_init_rowFronts alloc lac_el A Sym Control =
      Outcome.returned
        (finalInfo (rowStage alloc lac_el Sym (interiorValues A Sym Control)
          (Sym.m - Sym.n1) (rowStageInit workNull)).out_of_memory)
        (some (numSplit A Sym (numScaled A Sym (numAfterRs alloc Sym Control))))
        (workAfterRowStage Sym (workDiagMap Sym (workAfterMemset alloc Sym))
          (rowStage alloc lac_el Sym (interiorValues A Sym Control)
            (Sym.m - Sym.n1) (rowStageInit workNull))) := by
  rw [init_eq_final lac_el A h hdef hnn hns]
  unfold rowStageResult interiorValues
  rw [rowStageInit_work, numScaled_Rs_of_pre A h.2.2.2.2.2.2]

theorem numSplit_Sx_of_pre {alloc : AllocOutcomes} (A : cholmod_sparse)
    {Sym : ParU_Symbolic} {Control : ParU_Control}
    (h : preStageAllocated alloc Sym Control) :
    (numSplit A Sym (numScaled A Sym (numAfterRs alloc Sym Control))).Sx =
      some (interiorValues A Sym Control) := by
  have e : (numScaled A Sym (numAfterRs alloc Sym Control)).Sx = PARU_MALLOC alloc.Sx :=
    numAfterRs_Sx alloc Sym Control
  unfold numSplit interiorValues
  simp only [e, numScaled_Rs_of_pre A h.2.2.2.2.2.2]
  simp [PARU_MALLOC, h.2.2.1]

/-! ## The whole function: the allocation checks -/

theorem unwritten_none {α : Type} : unwritten (none : Option (Int → Option α)) := by
  intro f h
  cases h

theorem unwritten_PARU_MALLOC {α : Type} (ok : Bool) :
    unwritten (PARU_MALLOC ok : Option (Int → Option α)) := by
  intro f h k
  cases ok
  · cases h
  · simp only [PARU_MALLOC, if_true, Option.some.injEq] at h
    rw [← h]

theorem numAfterAlloc_values (alloc : AllocOutcomes) (Sym : ParU_Symbolic) :
    (numAfterAlloc alloc Sym).Sx = none ∧ (numAfterAlloc alloc Sym).Sux = none ∧
    (numAfterAlloc alloc Sym).Slx = none := by
  unfold numAfterAlloc numAlloc numInit
  split_ifs <;> exact ⟨rfl, rfl, rfl⟩

theorem numAfterSux_Sux_unwritten (alloc : AllocOutcomes) (Sym : ParU_Symbolic) :
    unwritten (numAfterSux alloc Sym).Sux := by
  unfold numAfterSux
  split_ifs
  · exact unwritten_PARU_MALLOC _
  · have : (numAfterSx alloc Sym).Sux = none := (numAfterAlloc_values alloc Sym).2.1
    rw [this]
    exact unwritten_none

theorem numAfterSux_Slx (alloc : AllocOutcomes) (Sym : ParU_Symbolic) :
    (numAfterSux alloc Sym).Slx = none := by
  unfold numAfterSux
  split_ifs <;> exact (numAfterAlloc_values alloc Sym).2.2

theorem numAfterSlx_Slx_unwritten (alloc : AllocOutcomes) (Sym : ParU_Symbolic) :
    unwritten (numAfterSlx alloc Sym).Slx := by
  unfold numAfterSlx
  split_ifs
  · exact unwritten_PARU_MALLOC _
  · rw [numAfterSux_Slx]
    exact unwritten_none

/-- The value arrays of the numeric object built by the allocations of
lines 160-208 have no slot written. -/
theorem numAfterRs_unwritten (alloc : AllocOutcomes) (Sym : ParU_Symbolic)
    (Control : ParU_Control) :
    unwritten (numAfterRs alloc Sym Control).Sx ∧
    unwritten (numAfterRs alloc Sym Control).Sux ∧
    unwritten (numAfterRs alloc Sym Control).Slx := by
  refine ⟨?_, ?_, ?_⟩
  · rw [numAfterRs_Sx]; exact unwritten_PARU_MALLOC _
  · rw [numAfterRs_Sux]; exact numAfterSux_Sux_unwritten alloc Sym
  · rw [numAfterRs_Slx]; exact numAfterSlx_Slx_unwritten alloc Sym

/-- When none of the tests of lines 67-208 fires, every allocation made
before the per-row stage other than that of `cSp` has succeeded. -/
theorem pre_of_checks {alloc : AllocOutcomes} {Sym : ParU_Symbolic} {Control : ParU_Control}
    (h1 : ¬ alloc.Num = false)
    (h2 : ¬ (Sym.nf ≠ 0 ∧
      workspaceNull (workAfterAlloc alloc Sym) (numAfterAlloc alloc Sym) = true))
    (h3 : ¬ (Sym.nf ≠ 0 ∧ Sym.symmetric = true ∧
      ((workAfterDiagAlloc alloc Sym).Diag_map.isNone = true ∨
       (workAfterDiagAlloc alloc Sym).inv_Diag_map.isNone = true)))
    (h4 : ¬ (numAfterSx alloc Sym).Sx.isNone = true)
    (h5 : ¬ (Sym.cs1 > 0 ∧ (alloc.cSup = false ∨ (numAfterSux alloc Sym).Sux.isNone = true)))
    (h6 : ¬ (Sym.rs1 > 0 ∧ (alloc.cSlp = false ∨ (numAfterSlx alloc Sym).Slx.isNone = true)))
    (h7 : ¬ (Control.prescale = 1 ∧ (numAfterRs alloc Sym Control).Rs.isNone = true)) :
    preStageAllocated { alloc with cSp := true } Sym Control := by
  unfold preStageAllocated
  refine ⟨by simpa using h1, ?_, ?_, rfl, ?_, ?_, ?_⟩
  · intro hnf
    constructor
    · have h2' : ¬ workspaceNull (workAfterAlloc alloc Sym) (numAfterAlloc alloc Sym) = true :=
        fun q => h2 ⟨hnf, q⟩
      unfold workspaceNull workAfterAlloc numAfterAlloc workAlloc numAlloc at h2'
      rw [if_pos hnf, if_pos hnf] at h2'
      simp only [PARU_MALLOC_isNone, PARU_CALLOC_isNone, Bool.or_eq_true, not_or,
        Bool.not_eq_true', Bool.not_eq_false] at h2'
      obtain ⟨⟨⟨⟨⟨⟨⟨⟨⟨⟨⟨⟨⟨⟨⟨⟨a1, a2⟩, a3⟩, a4⟩, a5⟩, a6⟩, a7⟩, a8⟩, a9⟩, a10⟩, a11⟩, a12⟩,
        a13⟩, a14⟩, a15⟩, a16⟩, a17⟩ := h2'
      exact ⟨a1, a2, a3, a4, a5, a6, a7, a8, a9, a10, a11, a12, a13, a14, a15, a16, a17⟩
    · intro hs
      have h3' : ¬ ((workAfterDiagAlloc alloc Sym).Diag_map.isNone = true ∨
          (workAfterDiagAlloc alloc Sym).inv_Diag_map.isNone = true) :=
        fun q => h3 ⟨hnf, hs, q⟩
      unfold workAfterDiagAlloc at h3'
      rw [if_pos ⟨hnf, hs⟩] at h3'
      simp only [PARU_MALLOC_isNone, not_or, Bool.not_eq_true', Bool.not_eq_false] at h3'
      exact h3'
  · rw [numAfterSx_Sx, PARU_MALLOC_isNone] at h4
    simpa using h4
  · intro hc
    have h5' := fun q => h5 ⟨hc, q⟩
    rw [numAfterSux_Sux _ _ hc, PARU_MALLOC_isNone] at h5'
    simpa using h5'
  · intro hc
    have h6' := fun q => h6 ⟨hc, q⟩
    rw [numAfterSlx_Slx _ _ hc, PARU_MALLOC_isNone] at h6'
    simpa using h6'
  · intro hp
    have h7' := fun q => h7 ⟨hp, q⟩
    rw [numAfterRs_Rs, if_pos hp, PARU_CALLOC_isNone] at h7'
    simpa using h7'

theorem pre_with_cSp {alloc : AllocOutcomes} {Sym : ParU_Symbolic} {Control : ParU_Control}
    (h : preStageAllocated { alloc with cSp := true } Sym Control) (hc : alloc.cSp = true) :
    preStageAllocated alloc Sym Control := by
  unfold preStageAllocated at h ⊢
  exact ⟨h.1, h.2.1, h.2.2.1, hc, h.2.2.2.2⟩

theorem pre_drop_cSp {alloc : AllocOutcomes} {Sym : ParU_Symbolic} {Control : ParU_Control}
    (h : preStageAllocated alloc Sym Control) :
    preStageAllocated { alloc with cSp := true } Sym Control := by
  unfold preStageAllocated at h ⊢
  exact ⟨h.1, h.2.1, h.2.2.1, rfl, h.2.2.2.2⟩

/-- The allocation checks of lines 67-208 as a whole.  Either some
allocation made before the per-row stage other than that of `cSp` fails, and
the function returns `PARU_OUT_OF_MEMORY` with no slot of the value arrays
written; or all of them succeed and the function goes on to line 212 without
having looked at `cSp`. -/
theorem init_checks (alloc : AllocOutcomes)
    (lac_el : (Int → Option paru_element) → Int → Int)
    (A : cholmod_sparse) (Sym : ParU_Symbolic) (Control : ParU_Control) :
    (¬ preStageAllocated { alloc with cSp := true } Sym Control ∧
      ∃ Num_handle Work,
        paru_init_rowFronts alloc lac_el A Sym Control =
          Outcome.returned ParU_Info.PARU_OUT_OF_MEMORY Num_handle Work ∧
        ∀ Num, Num_handle = some Num →
          unwritten Num.Sx ∧ unwritten Num.Sux ∧ unwritten Num.Slx) ∨
    (preStageAllocated { alloc with cSp := true } Sym Control ∧
      paru_init_rowFronts alloc lac_el A Sym Control =
        initNumerics alloc lac_el A Sym (numAfterRs alloc Sym Control)
          (workAfterMemset alloc Sym)) := by
  by_cases hall : preStageAllocated { alloc with cSp := true } Sym Control
  · right
    refine ⟨hall, ?_⟩
    obtain ⟨hNum, hws, hSx, _, hU, hL, hRs⟩ := hall
    unfold paru_init_rowFronts
    rw [if_neg (by simpa using hNum), if_neg, if_neg, if_neg, if_neg, if_neg, if_neg]
    · rintro ⟨hp, hn⟩
      rw [numAfterRs_Rs, if_pos hp, PARU_CALLOC_isNone] at hn
      have := hRs hp
      simp_all
    · rintro ⟨hp, hn⟩
      rw [numAfterSlx_Slx _ _ hp, PARU_MALLOC_isNone] at hn
      have := hL hp
      simp_all
    · rintro ⟨hp, hn⟩
      rw [numAfterSux_Sux _ _ hp, PARU_MALLOC_isNone] at hn
      have := hU hp
      simp_all
    · rw [numAfterSx_Sx, PARU_MALLOC_isNone]
      simp_all
    · rintro ⟨hnf, hsym, hn⟩
      obtain ⟨_, hd⟩ := hws hnf
      obtain ⟨hd1, hd2⟩ := hd hsym
      unfold workAfterDiagAlloc at hn
      rw [if_pos ⟨hnf, hsym⟩] at hn
      simp only [PARU_MALLOC_isNone] at hn
      simp_all
    · rintro ⟨hnf, hn⟩
      obtain ⟨hw, _⟩ := hws hnf
      obtain ⟨a1, a2, a3, a4, a5, a6, a7, a8, a9, a10, a11, a12, a13, a14, a15, a16, a17⟩ := hw
      unfold workspaceNull workAfterAlloc numAfterAlloc workAlloc numAlloc at hn
      rw [if_pos hnf, if_pos hnf] at hn
      simp only [PARU_MALLOC_isNone, PARU_CALLOC_isNone] at hn
      simp_all
  · left
    refine ⟨hall, ?_⟩
    unfold paru_init_rowFronts
    split_ifs with h1 h2 h3 h4 h5 h6 h7
    · exact ⟨_, _, rfl, fun Num hN => by cases hN⟩
    · refine ⟨_, _, rfl, fun Num hN => ?_⟩
      injection hN with hN
      obtain ⟨n1, n2, n3⟩ := numAfterAlloc_values alloc Sym
      rw [← hN, n1, n2, n3]
      exact ⟨unwritten_none, unwritten_none, unwritten_none⟩
    · refine ⟨_, _, rfl, fun Num hN => ?_⟩
      injection hN with hN
      obtain ⟨n1, n2, n3⟩ := numAfterAlloc_values alloc Sym
      rw [← hN, n1, n2, n3]
      exact ⟨unwritten_none, unwritten_none, unwritten_none⟩
    · refine ⟨_, _, rfl, fun Num hN => ?_⟩
      injection hN with hN
      have n2 : (numAfterSx alloc Sym).Sux = none := (numAfterAlloc_values alloc Sym).2.1
      have n3 : (numAfterSx alloc Sym).Slx = none := (numAfterAlloc_values alloc Sym).2.2
      rw [← hN, numAfterSx_Sx, n2, n3]
      exact ⟨unwritten_PARU_MALLOC _, unwritten_none, unwritten_none⟩
    · refine ⟨_, _, rfl, fun Num hN => ?_⟩
      injection hN with hN
      rw [← hN, numAfterSux_Sx, numAfterSux_Slx]
      exact ⟨unwritten_PARU_MALLOC _, numAfterSux_Sux_unwritten alloc Sym, unwritten_none⟩
    · refine ⟨_, _, rfl, fun Num hN => ?_⟩
      injection hN with hN
      rw [← hN, numAfterSlx_Sx, numAfterSlx_Sux]
      exact ⟨unwritten_PARU_MALLOC _, numAfterSux_Sux_unwritten alloc Sym,
        numAfterSlx_Slx_unwritten alloc Sym⟩
    · refine ⟨_, _, rfl, fun Num hN => ?_⟩
      injection hN with hN
      rw [← hN]
      exact numAfterRs_unwritten alloc Sym Control
    · exact absurd (pre_of_checks h1 h2 h3 h4 h5 h6 h7) hall

theorem finalInfo_ne_singular (k : Int) : finalInfo k ≠ ParU_Info.PARU_SINGULAR := by
  unfold finalInfo
  split_ifs <;> exact fun h => by cases h

/-- A call that returns `PARU_SUCCESS` has made every allocation before the
per-row stage with success, has not found the matrix singular, has arrays
for the rows it processes, and none of its units has counted a failure. -/
theorem init_success_pre {alloc : AllocOutcomes}
    {lac_el : (Int → Option paru_element) → Int → Int}
    {A : cholmod_sparse} {Sym : ParU_Symbolic} {Control : ParU_Control}
    {Num_handle : Option ParU_Numeric} {Work : paru_work}
    (h : paru_init_rowFronts alloc lac_el A Sym Control =
      Outcome.returned ParU_Info.PARU_SUCCESS Num_handle Work) :
    preStageAllocated alloc Sym Control ∧ ¬ foundSingular A Sym Control ∧
    (Sym.nf = 0 → Sym.m - Sym.n1 ≤ 0) ∧
    (∀ r, 0 ≤ r → r < Sym.m - Sym.n1 → rowFails alloc r = false) := by
  rcases init_checks alloc lac_el A Sym Control with ⟨_, _, _, e, _⟩ | ⟨hpre, e⟩
  · rw [e] at h
    injection h with hi
    cases hi
  · rw [e] at h
    unfold initNumerics at h
    split_ifs at h with g1 g2 g4 g3 <;>
      try (first | contradiction | (injection h with hi; cases hi))
    have hc : alloc.cSp = true := by simpa using g1
    have hall := pre_with_cSp hpre hc
    simp only [Outcome.returned.injEq] at h
    refine ⟨hall, ?_, ?_, ?_⟩
    · intro hs
      exact g2 ((singular_test_iff alloc A Sym Control hall.2.2.2.2.2.2).mpr hs)
    · intro hnf
      by_contra hm
      exact g3 ⟨hnf, by omega⟩
    · intro r h0 h1
      have := (finalInfo_rowStageResult alloc lac_el Sym _ _).2.mp h.1
      by_contra hf
      exact this ⟨r, h0, h1, by simpa using hf⟩

/-- A call that returns `PARU_SINGULAR` returns from line 314: the numeric
object is the one built by the allocations and the first pass, with `res`
set, and the work object is the one left by the sentinel initialisation. -/
theorem init_singular_form {alloc : AllocOutcomes}
    {lac_el : (Int → Option paru_element) → Int → Int}
    {A : cholmod_sparse} {Sym : ParU_Symbolic} {Control : ParU_Control}
    {Num_handle : Option ParU_Numeric} {Work : paru_work}
    (h : paru_init_rowFronts alloc lac_el A Sym Control =
      Outcome.returned ParU_Info.PARU_SINGULAR Num_handle Work) :
    Num_handle = some { numScaled A Sym (numAfterRs alloc Sym Control) with
                        res := ParU_Info.PARU_SINGULAR } ∧
    Work = workAfterMemset alloc Sym := by
  rcases init_checks alloc lac_el A Sym Control with ⟨_, _, _, e, _⟩ | ⟨_, e⟩
  · rw [e] at h
    injection h with hi
    cases hi
  · rw [e] at h
    unfold initNumerics at h
    split_ifs at h with g1 g2 g4 g3
    · simp only [Outcome.returned.injEq, true_and] at h
      exact ⟨h.1.symm, h.2.symm⟩
    · simp only [Outcome.returned.injEq] at h
      exact absurd h.1 (finalInfo_ne_singular _)

/-- The diagonal maps of the work object after the sentinel
initialisation. -/
theorem workAfterMemset_Diag_map (alloc : AllocOutcomes) (Sym : ParU_Symbolic) :
    (workAfterMemset alloc Sym).Diag_map =
      (if Sym.nf ≠ 0 ∧ Sym.symmetric = true then PARU_MALLOC alloc.Diag_map else none) ∧
    (workAfterMemset alloc Sym).inv_Diag_map =
      (if Sym.nf ≠ 0 ∧ Sym.symmetric = true then PARU_MALLOC alloc.inv_Diag_map else none) := by
  unfold workAfterMemset workMemset workAfterDiagAlloc workAfterAlloc workAlloc workNull
  split_ifs <;> exact ⟨rfl, rfl⟩

/-! ## The diagonal map -/

theorem diagMap_fold_fst (f : Int → Int) (L : List Int)
    (D : (Int → Option Int) × (Int → Option Int)) (i : Int)
    (h : D.1 i = some (f i) ∨ i ∈ L) :
    (L.foldl (fun D k => (Function.update D.1 k (some (f k)),
        Function.update D.2 (f k) (some k))) D).1 i = some (f i) := by
  induction L generalizing D with
  | nil => simpa using h
  | cons a L ih =>
    rw [List.foldl_cons]
    apply ih
    by_cases ha : i = a
    · left
      subst ha
      simp
    · rcases h with h | h
      · left
        simp only [Function.update_noteq ha]
        exact h
      · rcases List.mem_cons.mp h with h | h
        · exact absurd h ha
        · exact Or.inr h

theorem diagMap_fold_snd (f : Int → Int) (L : List Int)
    (D : (Int → Option Int) × (Int → Option Int)) (i : Int)
    (hinj : ∀ b ∈ L, f b = f i → b = i)
    (h : D.2 (f i) = some i ∨ i ∈ L) :
    (L.foldl (fun D k => (Function.update D.1 k (some (f k)),
        Function.update D.2 (f k) (some k))) D).2 (f i) = some i := by
  induction L generalizing D with
  | nil => simpa using h
  | cons a L ih =>
    rw [List.foldl_cons]
    apply ih
    · intro b hb
      exact hinj b (List.mem_cons_of_mem _ hb)
    · by_cases ha : f a = f i
      · left
        have := hinj a (List.mem_cons_self _ _) ha
        subst this
        simp
      · rcases h with h | h
        · left
          simp only [Function.update_noteq (Ne.symm ha)]
          exact h
        · rcases List.mem_cons.mp h with h | h
          · exact absurd (congrArg f h.symm) ha
          · exact Or.inr h

/-- The loop of lines 421-425 for a diagonal map that is one-to-one on
`0..n-1`: the map is copied and its inverse filled. -/
theorem diagMapLoop_spec (Sym : ParU_Symbolic)
    (D : (Int → Option Int) × (Int → Option Int))
    (hinj : ∀ j, 0 ≤ j → j < Sym.n → ∀ k, 0 ≤ k → k < Sym.n →
      Sym.Diag_map j = Sym.Diag_map k → j = k)
    (i : Int) (h0 : 0 ≤ i) (h1 : i < Sym.n) :
    (diagMapLoop Sym D).1 i = some (Sym.Diag_map i) ∧
    (diagMapLoop Sym D).2 (Sym.Diag_map i) = some i := by
  have hm : i ∈ loopRange 0 Sym.n := mem_loopRange.mpr ⟨h0, h1⟩
  unfold diagMapLoop
  show (List.foldl (fun D k => (Function.update D.1 k (some (Sym.Diag_map k)),
      Function.update D.2 (Sym.Diag_map k) (some k))) D (loopRange 0 Sym.n)).1 i = _ ∧
    (List.foldl (fun D k => (Function.update D.1 k (some (Sym.Diag_map k)),
      Function.update D.2 (Sym.Diag_map k) (some k))) D (loopRange 0 Sym.n)).2
        (Sym.Diag_map i) = _
  refine ⟨diagMap_fold_fst Sym.Diag_map _ D i (Or.inr hm),
    diagMap_fold_snd Sym.Diag_map _ D i ?_ (Or.inr hm)⟩
  intro b hb e
  rw [mem_loopRange] at hb
  exact hinj b hb.1 hb.2 i h0 h1 e

/-- The diagonal maps of the work object returned by a call that reaches
the loop of lines 417-425 under the symmetric strategy. -/
theorem workDiagMap_symmetric {alloc : AllocOutcomes} {Sym : ParU_Symbolic}
    {Control : ParU_Control} (h : preStageAllocated alloc Sym Control)
    (hnf : Sym.nf ≠ 0) (hs : Sym.symmetric = true) :
    (workDiagMap Sym (workAfterMemset alloc Sym)).Diag_map =
      some (diagMapLoop Sym (fun _ => none, fun _ => none)).1 ∧
    (workDiagMap Sym (workAfterMemset alloc Sym)).inv_Diag_map =
      some (diagMapLoop Sym (fun _ => none, fun _ => none)).2 := by
  obtain ⟨d1, d2⟩ := workAfterMemset_Diag_map alloc Sym
  obtain ⟨a1, a2⟩ := (h.2.1 hnf).2 hs
  rw [if_pos ⟨hnf, hs⟩, a1] at d1
  rw [if_pos ⟨hnf, hs⟩, a2] at d2
  unfold workDiagMap
  rw [d1, d2]
  exact ⟨rfl, rfl⟩

theorem workDiagMap_heapList (Sym : ParU_Symbolic) (Work : paru_work) :
    Work.heapList = (workDiagMap Sym Work).heapList := by
  unfold workDiagMap
  split <;> rfl

/-- A call that returns after every allocation before the per-row stage has
succeeded, the matrix not being found singular, has gone through the second
pass without using a null pointer and through the per-row stage: its status
and its two objects are those of the end of the function (line 571). -/
theorem init_returned {alloc : AllocOutcomes}
    {lac_el : (Int → Option paru_element) → Int → Int}
    {A : cholmod_sparse} {Sym : ParU_Symbolic} {Control : ParU_Control}
    {info : ParU_Info} {Num_handle : Option ParU_Numeric} {Work : paru_work}
    (hpre : preStageAllocated alloc Sym Control)
    (hns : ¬ foundSingular A Sym Control)
    (h : paru_init_rowFronts alloc lac_el A Sym Control =
      Outcome.returned info Num_handle Work) :
    splitPassNull A Sym = false ∧ (Sym.nf = 0 → Sym.m - Sym.n1 ≤ 0) ∧
    info = finalInfo (rowStage alloc lac_el Sym (interiorValues A Sym Control)
      (Sym.m - Sym.n1) (rowStageInit workNull)).out_of_memory ∧
    Num_handle = some (numSplit A Sym (numScaled A Sym (numAfterRs alloc Sym Control))) ∧
    Work = workAfterRowStage Sym (workDiagMap Sym (workAfterMemset alloc Sym))
      (rowStage alloc lac_el Sym (interiorValues A Sym Control)
        (Sym.m - Sym.n1) (rowStageInit workNull)) := by
  have hnn : splitPassNull A Sym = false := by
    rw [init_of_preStageAllocated lac_el A hpre] at h
    unfold initNumerics at h
    split_ifs at h with g1 g2 g4 g3
    · exact absurd ((singular_test_iff alloc A Sym Control hpre.2.2.2.2.2.2).mp g2) hns
    · simpa using g4
  have hdef : Sym.nf = 0 → Sym.m - Sym.n1 ≤ 0 := by
    rw [init_of_preStageAllocated lac_el A hpre] at h
    unfold initNumerics at h
    split_ifs at h with g1 g2 g4 g3
    · exact absurd ((singular_test_iff alloc A Sym Control hpre.2.2.2.2.2.2).mp g2) hns
    · intro hnf
      by_contra hm
      exact g3 ⟨hnf, by omega⟩
  have e := init_reached lac_el A hpre hdef hnn hns
  rw [h] at e
  simp only [Outcome.returned.injEq] at e
  exact ⟨hnn, hdef, e.1, e.2.1, e.2.2⟩

/-- A call that reaches the per-row stage and none of whose units counts a
failure returns `PARU_SUCCESS`. -/
theorem init_reached_success {alloc : AllocOutcomes}
    (lac_el : (Int → Option paru_element) → Int → Int)
    (A : cholmod_sparse) {Sym : ParU_Symbolic} {Control : ParU_Control}
    (h : preStageAllocated alloc Sym Control)
    (hdef : Sym.nf = 0 → Sym.m - Sym.n1 ≤ 0)
    (hnn : splitPassNull A Sym = false)
    (hns : ¬ foundSingular A Sym Control)
    (hok : ∀ r, 0 ≤ r → r < Sym.m - Sym.n1 → rowFails alloc r = false) :
    paru_init_rowFronts alloc lac_el A Sym Control =
      Outcome.returned ParU_Info.PARU_SUCCESS
        (some (numSplit A Sym (numScaled A Sym (numAfterRs alloc Sym Control))))
        (workAfterRowStage Sym (workDiagMap Sym (workAfterMemset alloc Sym))
          (rowStage alloc lac_el Sym (interiorValues A Sym Control)
            (Sym.m - Sym.n1) (rowStageInit workNull))) := by
  rw [init_reached lac_el A h hdef hnn hns]
  congr 1
  refine (finalInfo_rowStageResult alloc lac_el Sym (interiorValues A Sym Control)
    workNull).2.mpr ?_
  rintro ⟨r, a, b, c⟩
  rw [hok r a b] at c
  cases c

/-! ## Further facts used by the statements -/

theorem rowSlots_workAfterRowStage (Sym : ParU_Symbolic) (Work : paru_work) (S : RowStage)
    (hnf : Sym.nf ≠ 0) (r : Int) :
    rowSlots Sym (rowStageInit (workAfterRowStage Sym Work S)) r = rowSlots Sym S r := by
  unfold workAfterRowStage
  rw [if_neg hnf]
  rfl

/-- The status computed from the failure counter of the per-row stage
started with a counter of zero. -/
theorem finalInfo_rowStage (alloc : AllocOutcomes)
    (lac_el : (Int → Option paru_element) → Int → Int) (Sym : ParU_Symbolic)
    (Sx : Int → Option ℚ) :
    (finalInfo (rowStage alloc lac_el Sym Sx (Sym.m - Sym.n1)
        (rowStageInit workNull)).out_of_memory = ParU_Info.PARU_OUT_OF_MEMORY ↔
      ∃ r, 0 ≤ r ∧ r < Sym.m - Sym.n1 ∧ rowFails alloc r = true) ∧
    (finalInfo (rowStage alloc lac_el Sym Sx (Sym.m - Sym.n1)
        (rowStageInit workNull)).out_of_memory = ParU_Info.PARU_SUCCESS ↔
      ¬ ∃ r, 0 ≤ r ∧ r < Sym.m - Sym.n1 ∧ rowFails alloc r = true) :=
  finalInfo_rowStageResult alloc lac_el Sym Sx workNull

theorem lacLocal_lacZero : lacLocal lacZero := fun _ _ _ _ => rfl

theorem preStageAllocated_allocNoElement1 (Sym : ParU_Symbolic) (Control : ParU_Control) :
    preStageAllocated allocNoElement1 Sym Control := by
  unfold preStageAllocated
  simp [allocNoElement1, allocAll]

theorem rowFails_allocNoElement1 (r : Int) (h : r ≠ 1) : rowFails allocNoElement1 r = false := by
  unfold rowFails
  simp [allocNoElement1, allocAll, h]

theorem c20_row2atree_injective :
    ∀ a, 0 ≤ a → a < (c20Sym 1 (arr [0, 1, 2] 0)).m - (c20Sym 1 (arr [0, 1, 2] 0)).n1 →
    ∀ b, 0 ≤ b → b < (c20Sym 1 (arr [0, 1, 2] 0)).m - (c20Sym 1 (arr [0, 1, 2] 0)).n1 →
      (c20Sym 1 (arr [0, 1, 2] 0)).row2atree a = (c20Sym 1 (arr [0, 1, 2] 0)).row2atree b →
      a = b := by
  decide

theorem c13_foundSingular : foundSingular c5A c13Sym ctlScaled := by
  unfold foundSingular
  decide

theorem c14_isPerm : IsPerm c14Sym.Diag_map c14Sym.n := by
  unfold IsPerm
  decide

theorem c20_interiorValues (nf : Int) (t : Int → Int) :
    interiorValues c20A (c20Sym nf t) ctlPlain 0 = some 4 ∧
    interiorValues c20A (c20Sym nf t) ctlPlain 1 = some 1 ∧
    interiorValues c20A (c20Sym nf t) ctlPlain 2 = some 3 ∧
    interiorValues c20A (c20Sym nf t) ctlPlain 3 = some 5 := by
  have e : interiorValues c20A (c20Sym nf t) ctlPlain =
      interiorValues c20A (c20Sym 1 (arr [0, 1, 2] 0)) ctlPlain := rfl
  rw [e]
  decide

theorem c20_rows (nf : Int) (t : Int → Int) :
    loopRange 0 ((c20Sym nf t).m - (c20Sym nf t).n1) = [0, 1, 2] := by
  have e : (c20Sym nf t).m - (c20Sym nf t).n1 = 3 := rfl
  rw [e]
  decide

theorem c20_perm :
    List.Perm [2, 0, 1]
      (loopRange 0 ((c20Sym 1 (arr [0, 1, 2] 0)).m - (c20Sym 1 (arr [0, 1, 2] 0)).n1)) := by
  decide

/-! ## The second pass: final cursors and the values present -/

/-- In a singleton region with its preconditions, exactly one visit is
stored in the fixed first slot of a row or column. -/
theorem countP_diagOf_singleton {A : cholmod_sparse} {Sym : ParU_Symbolic} {reg : Region}
    (hr : RegionValid A Sym reg) (hs : shift reg = 1) {k : Int} (h0 : 0 ≤ k)
    (h1 : k < extent Sym reg) :
    (visits A Sym).countP (diagOf A Sym reg k) = 1 := by
  obtain ⟨d, hd, ht⟩ := hr.diag_exists hs k h0 h1
  have hc : (visits A Sym).countP (diagOf A Sym reg k) =
      (visits A Sym).countP (fun w => w == d) := by
    apply List.countP_congr
    intro w hw
    simp only [diagOf, decide_eq_true_eq, beq_iff_eq]
    constructor
    · rintro ⟨a, b, c⟩
      have e : target A Sym d = target A Sym w := by
        rw [ht]
        cases hT : target A Sym w with
        | mk r' k' d' =>
          rw [hT] at a b c
          simp only at a b c
          rw [a, b, c]
      exact (hr.diag_unique d hd w hw (by rw [ht]) (by rw [ht]) e).symm
    · rintro rfl
      rw [ht]
      exact ⟨rfl, rfl, rfl⟩
  rw [hc]
  exact List.count_eq_one_of_mem (visits_nodup A Sym) hd

/-- In the interior region no visit is stored in a fixed slot. -/
theorem countP_diagOf_interior (A : cholmod_sparse) (Sym : ParU_Symbolic) {reg : Region}
    (hs : shift reg = 0) (k : Int) (L : List Visit) :
    L.countP (diagOf A Sym reg k) = 0 := by
  rw [List.countP_eq_zero]
  intro w _ hw
  simp only [diagOf, decide_eq_true_eq] at hw
  have := target_diag_region hw.1
  rw [hw.2.1, hs] at this
  cases this

/-- The cursor of a row or column at the end of the second pass: the start
offset of the next one for `Sx`, one less for `Sux` and `Slx`. -/
theorem cursor_splitPass_final {A : cholmod_sparse} {Sym : ParU_Symbolic} {reg : Region}
    (Rs : Option (Int → ℚ)) (hr : RegionValid A Sym reg) {k : Int} (h0 : 0 ≤ k)
    (h1 : k < extent Sym reg) :
    cursor (splitPass A Sym Rs (splitInit Sym)) reg k =
      base Sym reg (k + 1) - shift reg := by
  rw [splitPass_eq_foldl, cursor_foldl, cursor_splitInit]
  have hlen := hr.seg_len k h0 h1
  unfold segmentCount at hlen
  rw [segmentCount_split] at hlen
  have hs : shift reg = 0 ∨ shift reg = 1 := by
    cases reg <;> simp [shift]
  rcases hs with hs | hs
  · rw [countP_diagOf_interior A Sym hs] at hlen
    rw [hs]
    push_cast at hlen
    omega
  · rw [countP_diagOf_singleton hr hs h0 h1] at hlen
    rw [hs]
    push_cast at hlen
    omega

/-- A value present in an array after a run of steps was there before or
is the value stored for one of the visits of the run. -/
theorem content_foldl_value (A : cholmod_sparse) (Sym : ParU_Symbolic)
    (Rs : Option (Int → ℚ)) (L : List Visit) (st : SplitState) (reg : Region) (i : Int)
    (x : ℚ) (h : content (L.foldl (splitStep A Sym Rs) st) reg i = some x) :
    content st reg i = some x ∨ ∃ v ∈ L, x = scaledValue A Rs v.p := by
  induction L generalizing st with
  | nil => exact Or.inl h
  | cons a L ih =>
    rw [List.foldl_cons] at h
    rcases ih _ h with h' | ⟨v, hv, e⟩
    · rw [content_splitStep] at h'
      split_ifs at h'
      · right
        refine ⟨a, List.mem_cons_self _ _, ?_⟩
        injection h' with h'
        exact h'.symm
      · exact Or.inl h'
    · exact Or.inr ⟨v, List.mem_cons_of_mem _ hv, e⟩

theorem DupInput.of_valid {A : cholmod_sparse} {Sym : ParU_Symbolic} (hv : ValidInput A Sym) :
    DupInput A Sym :=
  ⟨hv.qfill_perm, hv.pinv_perm, hv.row_range, hv.cs1_nonneg, hv.rs1_nonneg, hv.n1_eq,
    hv.u_rows, hv.l_cols, hv.diag, hv.seg_len⟩

theorem c21Visits : visits c21A c21Sym = [⟨0, 0⟩, ⟨0, 1⟩] := by
  decide

theorem c21_dupInput : DupInput c21A c21Sym := by
  refine ⟨?_, ?_, ?_, ?_, ?_, ?_, ?_, ?_, ?_, ?_⟩
  · unfold IsPerm; decide
  · unfold IsPerm; decide
  · rw [c21Visits]; decide
  · decide
  · decide
  · decide
  · rw [c21Visits]; decide
  · rw [c21Visits]; decide
  · rw [c21Visits]; decide
  · intro reg k h0 h1
    unfold segmentCount
    rw [c21Visits]
    cases reg <;> simp only [extent, c21Sym] at h1 <;> first | omega | (interval_cases k; decide)

/-! ## The whole function: every return -/

theorem workspaceNull_iff (alloc : AllocOutcomes) {Sym : ParU_Symbolic} (hnf : Sym.nf ≠ 0) :
    workspaceNull (workAfterAlloc alloc Sym) (numAfterAlloc alloc Sym) = false ↔
      workspaceOk alloc := by
  unfold workspaceNull workAfterAlloc numAfterAlloc workAlloc numAlloc workspaceOk
  rw [if_pos hnf, if_pos hnf]
  simp only [PARU_MALLOC_isNone, PARU_CALLOC_isNone, Bool.or_eq_false_iff,
    Bool.not_eq_false']
  constructor
  · rintro ⟨⟨⟨⟨⟨⟨⟨⟨⟨⟨⟨⟨⟨⟨⟨⟨a1, a2⟩, a3⟩, a4⟩, a5⟩, a6⟩, a7⟩, a8⟩, a9⟩, a10⟩, a11⟩, a12⟩,
      a13⟩, a14⟩, a15⟩, a16⟩, a17⟩
    exact ⟨a1, a2, a3, a4, a5, a6, a7, a8, a9, a10, a11, a12, a13, a14, a15, a16, a17⟩
  · rintro ⟨a1, a2, a3, a4, a5, a6, a7, a8, a9, a10, a11, a12, a13, a14, a15, a16, a17⟩
    exact ⟨⟨⟨⟨⟨⟨⟨⟨⟨⟨⟨⟨⟨⟨⟨⟨a1, a2⟩, a3⟩, a4⟩, a5⟩, a6⟩, a7⟩, a8⟩, a9⟩, a10⟩, a11⟩, a12⟩,
      a13⟩, a14⟩, a15⟩, a16⟩, a17⟩

theorem workAfterDiagAlloc_Diag_map (alloc : AllocOutcomes) (Sym : ParU_Symbolic) :
    (workAfterDiagAlloc alloc Sym).Diag_map =
      (if Sym.nf ≠ 0 ∧ Sym.symmetric = true then PARU_MALLOC alloc.Diag_map else none) ∧
    (workAfterDiagAlloc alloc Sym).inv_Diag_map =
      (if Sym.nf ≠ 0 ∧ Sym.symmetric = true then PARU_MALLOC alloc.inv_Diag_map else none) := by
  unfold workAfterDiagAlloc workAfterAlloc workAlloc workNull
  split_ifs <;> exact ⟨rfl, rfl⟩

theorem workAllocated_of_pre {alloc : AllocOutcomes} {Sym : ParU_Symbolic}
    {Control : ParU_Control} (h : preStageAllocated alloc Sym Control) :
    workAllocated alloc Sym :=
  ⟨h.1, h.2.1⟩

/-- Every return of the function is one of nine: the seven tests of the
allocations (lines 67-208), the singularity test (line 314) and the end of the
function (line 571).  A property of the status and of the two objects that
holds in the nine cases holds on every return. -/
theorem init_return_cases {alloc : AllocOutcomes}
    {lac_el : (Int → Option paru_element) → Int → Int}
    {A : cholmod_sparse} {Sym : ParU_Symbolic} {Control : ParU_Control}
    (P : ParU_Info → Option ParU_Numeric → paru_work → Prop)
    (c1 : alloc.Num = false → P ParU_Info.PARU_OUT_OF_MEMORY none workNull)
    (c2 : alloc.Num = true → Sym.nf ≠ 0 → ¬ workspaceOk alloc →
      P ParU_Info.PARU_OUT_OF_MEMORY (some (numAfterAlloc alloc Sym)) (workAfterAlloc alloc Sym))
    (c3 : alloc.Num = true → Sym.nf ≠ 0 → Sym.symmetric = true → workspaceOk alloc →
      (alloc.Diag_map = false ∨ alloc.inv_Diag_map = false) →
      P ParU_Info.PARU_OUT_OF_MEMORY (some (numAfterAlloc alloc Sym))
        (workAfterDiagAlloc alloc Sym))
    (c4 : workAllocated alloc Sym → alloc.Sx = false →
      P ParU_Info.PARU_OUT_OF_MEMORY (some (numAfterSx alloc Sym))
        (workAfterDiagAlloc alloc Sym))
    (c5 : workAllocated alloc Sym → Sym.cs1 > 0 →
      P ParU_Info.PARU_OUT_OF_MEMORY (some (numAfterSux alloc Sym))
        (workAfterDiagAlloc alloc Sym))
    (c6 : workAllocated alloc Sym → Sym.rs1 > 0 →
      P ParU_Info.PARU_OUT_OF_MEMORY (some (numAfterSlx alloc Sym))
        (workAfterDiagAlloc alloc Sym))
    (c7 : workAllocated alloc Sym → Control.prescale = 1 →
      (numAfterRs alloc Sym Control).Rs = none →
      P ParU_Info.PARU_OUT_OF_MEMORY (some (numAfterRs alloc Sym Control))
        (workAfterDiagAlloc alloc Sym))
    (c8 : preStageAllocated alloc Sym Control → foundSingular A Sym Control →
      P ParU_Info.PARU_SINGULAR
        (some { numScaled A Sym (numAfterRs alloc Sym Control) with
                res := ParU_Info.PARU_SINGULAR })
        (workAfterMemset alloc Sym))
    (c9 : preStageAllocated alloc Sym Control → ¬ foundSingular A Sym Control →
      (Sym.nf = 0 → Sym.m - Sym.n1 ≤ 0) →
      P (finalInfo (rowStage alloc lac_el Sym (interiorValues A Sym Control)
          (Sym.m - Sym.n1) (rowStageInit workNull)).out_of_memory)
        (some (numSplit A Sym (numScaled A Sym (numAfterRs alloc Sym Control))))
        (workAfterRowStage Sym (workDiagMap Sym (workAfterMemset alloc Sym))
          (rowStage alloc lac_el Sym (interiorValues A Sym Control)
            (Sym.m - Sym.n1) (rowStageInit workNull))))
    {info : ParU_Info} {Num_handle : Option ParU_Numeric} {Work : paru_work}
    (h : paru_init_rowFronts alloc lac_el A Sym Control =
      Outcome.returned info Num_handle Work) : P info Num_handle Work := by
  have wide : alloc.Num = true →
      ¬ (Sym.nf ≠ 0 ∧
        workspaceNull (workAfterAlloc alloc Sym) (numAfterAlloc alloc Sym) = true) →
      ¬ (Sym.nf ≠ 0 ∧ Sym.symmetric = true ∧
        ((workAfterDiagAlloc alloc Sym).Diag_map.isNone = true ∨
         (workAfterDiagAlloc alloc Sym).inv_Diag_map.isNone = true)) →
      workAllocated alloc Sym := by
    intro hN g2 g3
    refine ⟨hN, fun hnf => ?_⟩
    have w : workspaceOk alloc := by
      rw [← workspaceNull_iff alloc hnf]
      have : ¬ workspaceNull (workAfterAlloc alloc Sym) (numAfterAlloc alloc Sym) = true :=
        fun q => g2 ⟨hnf, q⟩
      simpa using this
    refine ⟨w, fun hs => ?_⟩
    have g3' : ¬ ((workAfterDiagAlloc alloc Sym).Diag_map.isNone = true ∨
        (workAfterDiagAlloc alloc Sym).inv_Diag_map.isNone = true) :=
      fun q => g3 ⟨hnf, hs, q⟩
    obtain ⟨d1, d2⟩ := workAfterDiagAlloc_Diag_map alloc Sym
    rw [d1, d2, if_pos ⟨hnf, hs⟩, if_pos ⟨hnf, hs⟩] at g3'
    simp only [PARU_MALLOC_isNone, not_or, Bool.not_eq_true', Bool.not_eq_false] at g3'
    exact g3'
  rcases init_checks alloc lac_el A Sym Control with ⟨hnpre, _⟩ | ⟨hpre, e⟩
  · unfold paru_init_rowFronts at h
    split_ifs at h with h1 h2 h3 h4 h5 h6 h7
    · cases h
      exact c1 h1
    · cases h
      refine c2 (by simpa using h1) h2.1 ?_
      intro w
      rw [← workspaceNull_iff alloc h2.1, h2.2] at w
      cases w
    · cases h
      have w : workspaceOk alloc := by
        rw [← workspaceNull_iff alloc h3.1]
        have : ¬ workspaceNull (workAfterAlloc alloc Sym) (numAfterAlloc alloc Sym) = true :=
          fun q => h2 ⟨h3.1, q⟩
        simpa using this
      refine c3 (by simpa using h1) h3.1 h3.2.1 w ?_
      obtain ⟨d1, d2⟩ := workAfterDiagAlloc_Diag_map alloc Sym
      have := h3.2.2
      rw [d1, d2, if_pos ⟨h3.1, h3.2.1⟩, if_pos ⟨h3.1, h3.2.1⟩] at this
      simpa [PARU_MALLOC_isNone] using this
    · cases h
      refine c4 (wide (by simpa using h1) h2 h3) ?_
      rw [numAfterSx_Sx, PARU_MALLOC_isNone] at h4
      simpa using h4
    · cases h
      exact c5 (wide (by simpa using h1) h2 h3) h5.1
    · cases h
      exact c6 (wide (by simpa using h1) h2 h3) h6.1
    · cases h
      refine c7 (wide (by simpa using h1) h2 h3) h7.1 ?_
      have := h7.2
      rwa [Option.isNone_iff_eq_none] at this
    · exact absurd (pre_of_checks h1 h2 h3 h4 h5 h6 h7) hnpre
  · rw [e] at h
    unfold initNumerics at h
    split_ifs at h with g1 g2 g4 g3
    · cases h
      have hall := pre_with_cSp hpre (by simpa using g1)
      exact c8 hall ((singular_test_iff alloc A Sym Control hall.2.2.2.2.2.2).mp g2)
    · have hall := pre_with_cSp hpre (by simpa using g1)
      have hns : ¬ foundSingular A Sym Control :=
        fun hs => g2 ((singular_test_iff alloc A Sym Control hall.2.2.2.2.2.2).mpr hs)
      have hdef : Sym.nf = 0 → Sym.m - Sym.n1 ≤ 0 := by
        intro hnf
        by_contra hm
        exact g3 ⟨hnf, by omega⟩
      have e2 := init_reached lac_el A hall hdef (by simpa using g4) hns
      rw [e] at e2
      unfold initNumerics at e2
      rw [if_neg g1, if_neg g2, if_neg g4, if_neg g3] at e2
      rw [e2] at h
      cases h
      exact c9 hall hns hdef

theorem numAfterSlx_res (alloc : AllocOutcomes) (Sym : ParU_Symbolic) :
    (numAfterAlloc alloc Sym).res = ParU_Info.PARU_SUCCESS ∧
    (numAfterSx alloc Sym).res = ParU_Info.PARU_SUCCESS ∧
    (numAfterSux alloc Sym).res = ParU_Info.PARU_SUCCESS ∧
    (numAfterSlx alloc Sym).res = ParU_Info.PARU_SUCCESS := by
  unfold numAfterSlx numAfterSux numAfterSx numAfterAlloc numAlloc numInit
  split_ifs <;> exact ⟨rfl, rfl, rfl, rfl⟩

theorem numAfterRs_res (alloc : AllocOutcomes) (Sym : ParU_Symbolic) (Control : ParU_Control) :
    (numAfterRs alloc Sym Control).res = ParU_Info.PARU_SUCCESS := by
  unfold numAfterRs
  split_ifs <;> exact (numAfterSlx_res alloc Sym).2.2.2

/-- The numeric objects returned by the tests of lines 126-195: status
`PARU_SUCCESS` recorded, no scale array, no slot of a value array written. -/
theorem early_num (alloc : AllocOutcomes) (Sym : ParU_Symbolic) (N : ParU_Numeric)
    (h : N = numAfterAlloc alloc Sym ∨ N = numAfterSx alloc Sym ∨
      N = numAfterSux alloc Sym ∨ N = numAfterSlx alloc Sym) :
    N.res = ParU_Info.PARU_SUCCESS ∧ N.Rs = none ∧
    unwritten N.Sx ∧ unwritten N.Sux ∧ unwritten N.Slx := by
  obtain ⟨r1, r2, r3, r4⟩ := numAfterSlx_res alloc Sym
  obtain ⟨v1, v2, v3⟩ := numAfterAlloc_values alloc Sym
  rcases h with rfl | rfl | rfl | rfl
  · refine ⟨r1, numAfterAlloc_Rs alloc Sym, ?_, ?_, ?_⟩
    · rw [v1]; exact unwritten_none
    · rw [v2]; exact unwritten_none
    · rw [v3]; exact unwritten_none
  · refine ⟨r2, numAfterSx_Rs alloc Sym, ?_, ?_, ?_⟩
    · rw [numAfterSx_Sx]; exact unwritten_PARU_MALLOC _
    · have : (numAfterSx alloc Sym).Sux = none := v2
      rw [this]; exact unwritten_none
    · have : (numAfterSx alloc Sym).Slx = none := v3
      rw [this]; exact unwritten_none
  · refine ⟨r3, numAfterSux_Rs alloc Sym, ?_, numAfterSux_Sux_unwritten alloc Sym, ?_⟩
    · rw [numAfterSux_Sx]; exact unwritten_PARU_MALLOC _
    · rw [numAfterSux_Slx]; exact unwritten_none
  · refine ⟨r4, numAfterSlx_Rs alloc Sym, ?_, ?_, numAfterSlx_Slx_unwritten alloc Sym⟩
    · rw [numAfterSlx_Sx]; exact unwritten_PARU_MALLOC _
    · rw [numAfterSlx_Sux]; exact numAfterSux_Sux_unwritten alloc Sym

theorem scaleOf_some {A : cholmod_sparse} {Sym : ParU_Symbolic} {Control : ParU_Control}
    {R : Int → ℚ} (h : scaleOf A Sym Control = some R) :
    Control.prescale = 1 ∧ R = scalePass A Sym (fun _ => 0) := by
  unfold scaleOf at h
  split_ifs at h with hp
  injection h with h
  exact ⟨hp, h.symm⟩

theorem scaleOf_none {A : cholmod_sparse} {Sym : ParU_Symbolic} {Control : ParU_Control}
    (h : Control.prescale ≠ 1) : scaleOf A Sym Control = none := by
  unfold scaleOf
  rw [if_neg h]

/-- The value arrays of the numeric object after the second pass are those
left by the pass, run with the scale array of the object. -/
theorem numSplit_arrays (A : cholmod_sparse) (Sym : ParU_Symbolic) (N : ParU_Numeric) :
    (numSplit A Sym N).Rs = N.Rs ∧ (numSplit A Sym N).res = N.res ∧
    (∀ a, (numSplit A Sym N).Sx = some a →
      a = (splitPass A Sym (numSplit A Sym N).Rs (splitInit Sym)).Sx) ∧
    (∀ a, (numSplit A Sym N).Sux = some a →
      a = (splitPass A Sym (numSplit A Sym N).Rs (splitInit Sym)).Sux) ∧
    (∀ a, (numSplit A Sym N).Slx = some a →
      a = (splitPass A Sym (numSplit A Sym N).Rs (splitInit Sym)).Slx) := by
  refine ⟨rfl, rfl, ?_, ?_, ?_⟩
  · intro a h
    unfold numSplit at h
    simp only [Option.map_eq_some'] at h
    obtain ⟨_, _, h⟩ := h
    exact h.symm
  · intro a h
    unfold numSplit at h
    simp only [Option.map_eq_some'] at h
    obtain ⟨_, _, h⟩ := h
    exact h.symm
  · intro a h
    unfold numSplit at h
    simp only [Option.map_eq_some'] at h
    obtain ⟨_, _, h⟩ := h
    exact h.symm

theorem workDiagMap_isSome (Sym : ParU_Symbolic) (Work : paru_work) :
    (workDiagMap Sym Work).Diag_map.isSome = Work.Diag_map.isSome ∧
    (workDiagMap Sym Work).inv_Diag_map.isSome = Work.inv_Diag_map.isSome := by
  unfold workDiagMap
  split
  · rename_i D I hD hI
    rw [hD, hI]
    exact ⟨rfl, rfl⟩
  · exact ⟨rfl, rfl⟩

/-- The loop of lines 417-425 is skipped when `Diag_map` is null. -/
theorem workDiagMap_of_null (Sym : ParU_Symbolic) (Work : paru_work)
    (h : Work.Diag_map = none) : workDiagMap Sym Work = Work := by
  unfold workDiagMap
  rw [h]

theorem workAfterAlloc_Diag_map (alloc : AllocOutcomes) (Sym : ParU_Symbolic) :
    (workAfterAlloc alloc Sym).Diag_map = none ∧
    (workAfterAlloc alloc Sym).inv_Diag_map = none := by
  unfold workAfterAlloc workAlloc workNull
  split_ifs <;> exact ⟨rfl, rfl⟩

/-- When the allocations before them succeed, the diagonal maps are not
null exactly for the symmetric strategy with `nf != 0` and a successful
allocation of their own. -/
theorem diag_isSome_iff {alloc : AllocOutcomes} {Sym : ParU_Symbolic} (ok : Bool)
    (hN : alloc.Num = true) (hw : Sym.nf ≠ 0 → workspaceOk alloc) :
    ((if Sym.nf ≠ 0 ∧ Sym.symmetric = true then PARU_MALLOC ok else none :
        Option (Int → Option Int)).isSome = true ↔
      Sym.symmetric = true ∧ Sym.nf ≠ 0 ∧ alloc.Num = true ∧ workspaceOk alloc ∧
        ok = true) := by
  by_cases hc : Sym.nf ≠ 0 ∧ Sym.symmetric = true
  · rw [if_pos hc]
    cases ok
    · simp [PARU_MALLOC]
    · simp only [PARU_MALLOC, if_true, Option.isSome_some, true_iff]
      exact ⟨hc.2, hc.1, hN, hw hc.1, trivial⟩
  · rw [if_neg hc]
    simp only [Option.isSome_none, Bool.false_eq_true, false_iff]
    rintro ⟨a, b, _⟩
    exact hc ⟨b, a⟩

/-! ## The per-row stage: rows whose allocations fail -/

/-- The units of rows other than `r` with other element ids leave the
entries of row `r`. -/
theorem rowStage_rowSlots_other (alloc : AllocOutcomes)
    (lac_el : (Int → Option paru_element) → Int → Int) (Sym : ParU_Symbolic)
    (Sx : Int → Option ℚ) (L : List Int) (W : RowStage) (r : Int)
    (h : ∀ a ∈ L, a ≠ r ∧ Sym.row2atree a ≠ Sym.row2atree r) :
    rowSlots Sym (L.foldl (rowUnit alloc lac_el Sym Sx) W) r = rowSlots Sym W r := by
  obtain ⟨r1, r2⟩ := rowStage_row_frame alloc lac_el Sym Sx L W
    (k := r) (fun hm => (h r hm).1 rfl)
  obtain ⟨e1, e2, e3, e4⟩ := rowStage_elem_frame alloc lac_el Sym Sx L W
    (e := Sym.row2atree r) (fun a ha => (h a ha).2)
  unfold rowSlots
  rw [r1, r2, e1, e2, e3, e4]

/-- After the units of a list of different rows in which only row `r` has
its element id, the entries of row `r` are those left by its unit, run on a
state with the entries that row `r` had at the start. -/
theorem rowStage_rowSlots_unit (alloc : AllocOutcomes)
    (lac_el : (Int → Option paru_element) → Int → Int) (Sym : ParU_Symbolic)
    (Sx : Int → Option ℚ) (L : List Int) (W : RowStage) (r : Int)
    (hnd : L.Nodup) (hinj : ∀ a ∈ L, Sym.row2atree a = Sym.row2atree r → a = r)
    (hr : r ∈ L) :
    ∃ W', rowSlots Sym W' r = rowSlots Sym W r ∧
      rowSlots Sym (L.foldl (rowUnit alloc lac_el Sym Sx) W) r =
        rowSlots Sym (rowUnit alloc lac_el Sym Sx W' r) r := by
  induction L generalizing W with
  | nil => cases hr
  | cons a L ih =>
    rw [List.foldl_cons]
    rw [List.nodup_cons] at hnd
    by_cases ha : a = r
    · subst ha
      refine ⟨W, rfl, ?_⟩
      apply rowStage_rowSlots_other
      intro b hb
      have hne : b ≠ a := fun e => hnd.1 (e ▸ hb)
      exact ⟨hne, fun e => hne (hinj b (List.mem_cons_of_mem _ hb) e)⟩
    · have hr' : r ∈ L := by
        rcases List.mem_cons.mp hr with h | h
        · exact absurd h.symm ha
        · exact h
      obtain ⟨W', e1, e2⟩ := ih (rowUnit alloc lac_el Sym Sx W a) hnd.2
        (fun b hb => hinj b (List.mem_cons_of_mem _ hb)) hr'
      refine ⟨W', ?_, e2⟩
      rw [e1]
      exact rowUnit_rowSlots_other alloc lac_el Sym Sx W (Ne.symm ha)
        (fun e => ha (hinj a (List.mem_cons_self _ _) e.symm))

/-- The unit of a row whose element cannot be allocated (lines 468-482): it
records the degree bound, stores the null pointer in `elementList`, counts
one failure and writes nothing else. -/
theorem rowUnit_of_failed_element (alloc : AllocOutcomes)
    (lac_el : (Int → Option paru_element) → Int → Int) (Sym : ParU_Symbolic)
    (Sx : Int → Option ℚ) (W : RowStage) (r : Int) (h : alloc.element r = false) :
    rowUnit alloc lac_el Sym Sx W r =
      { W with
        row_degree_bound :=
          Function.update W.row_degree_bound r (some (Sym.Sp (r + 1) - Sym.Sp r)),
        elementList := Function.update W.elementList (Sym.row2atree r) none,
        out_of_memory := W.out_of_memory + 1 } := by
  unfold rowUnit paru_create_element
  simp [h]

/-- The unit of a row whose element and heap are created and whose tuple list
cannot be allocated (lines 468-507). -/
theorem rowUnit_of_failed_rowList (alloc : AllocOutcomes)
    (lac_el : (Int → Option paru_element) → Int → Int) (Sym : ParU_Symbolic)
    (Sx : Int → Option ℚ) (W : RowStage) (r : Int) (h1 : alloc.element r = true)
    (h2 : alloc.heapNew r = true) (h3 : alloc.heapPush r = true)
    (h4 : alloc.rowList r = false) :
    rowUnit alloc lac_el Sym Sx W r =
      { W with
        row_degree_bound :=
          Function.update W.row_degree_bound r (some (Sym.Sp (r + 1) - Sym.Sp r)),
        elementList := Function.update W.elementList (Sym.row2atree r)
          (some { nrows := 1, ncols := Sym.Sp (r + 1) - Sym.Sp r,
                  colrowIndex := fun _ => none, colrowNum := fun _ => none }),
        rowMark := Function.update W.rowMark (Sym.row2atree r) (some 0),
        heapList := Function.update W.heapList (Sym.row2atree r) (some [Sym.row2atree r]),
        RowList := Function.update W.RowList r
          { numTuple := (W.RowList r).numTuple, len := (W.RowList r).len, list := none },
        out_of_memory := W.out_of_memory + 1 } := by
  unfold rowUnit paru_create_element
  simp [h1, h2, h3, h4]

/-- The least active column recorded by the unit of a row none of whose
allocations fails: `lac_el` on an element list that holds the filled element
of the row. -/
theorem rowUnit_lac (alloc : AllocOutcomes)
    (lac_el : (Int → Option paru_element) → Int → Int) (Sym : ParU_Symbolic)
    (Sx : Int → Option ℚ) (W : RowStage) (r : Int) (h : rowFails alloc r = false) :
    ∃ EL : Int → Option paru_element,
      EL (Sym.row2atree r) = some (initialElement Sym Sx r) ∧
      (rowSlots Sym (rowUnit alloc lac_el Sym Sx W r) r).lac =
        some (lac_el EL (Sym.row2atree r)) := by
  unfold rowFails at h
  simp only [Bool.not_eq_false', Bool.and_eq_true] at h
  obtain ⟨⟨⟨h1, h2⟩, h3⟩, h4⟩ := h
  refine ⟨Function.update (Function.update W.elementList (Sym.row2atree r)
      (some { nrows := 1, ncols := Sym.Sp (r + 1) - Sym.Sp r,
              colrowIndex := fun _ => none, colrowNum := fun _ => none }))
    (Sym.row2atree r) (some (initialElement Sym Sx r)), by simp, ?_⟩
  unfold rowUnit paru_create_element paru_add_rowTuple rowSlots initialElement
  simp [h1, h2, h3, h4]

theorem rowSlots_init (Sym : ParU_Symbolic) (r : Int) :
    rowSlots Sym (rowStageInit workNull) r =
      { row_degree_bound := none, RowList := zeroTupleList, element := none,
        rowMark := none, heap := none, lac := none } := rfl

theorem lacInColumns_lacFirst : lacInColumns lacFirst := by
  intro EL e el he hn hw
  refine ⟨0, le_refl _, hn, ?_⟩
  have := hw 0 (le_refl _) hn
  obtain ⟨x, hx⟩ := Option.isSome_iff_exists.mp this
  simp only [lacFirst, he, hx, Option.getD_some]

/-! ## Sentinels -/

/-- The three sentinel arrays after lines 212-229, when `nf != 0`. -/
theorem workAfterMemset_sentinels (alloc : AllocOutcomes) {Sym : ParU_Symbolic}
    (hnf : Sym.nf ≠ 0) :
    (workAfterMemset alloc Sym).rowSize =
      (PARU_MALLOC alloc.rowSize).map (fun a => paru_memset a (Sym.m - Sym.n1)) ∧
    (workAfterMemset alloc Sym).elRow =
      (PARU_MALLOC alloc.elRow).map (fun a => paru_memset a (Sym.m - Sym.n1 + Sym.nf)) ∧
    (workAfterMemset alloc Sym).elCol =
      (PARU_MALLOC alloc.elCol).map (fun a => paru_memset a (Sym.m - Sym.n1 + Sym.nf)) := by
  unfold workAfterMemset workMemset workAfterDiagAlloc workAfterAlloc workAlloc
  rw [if_pos hnf]
  split_ifs <;> exact ⟨rfl, rfl, rfl⟩

/-- The diagonal-map loop and the per-row stage leave the three sentinel
arrays. -/
theorem sentinels_kept (Sym : ParU_Symbolic) (Work : paru_work) (S : RowStage) :
    (workAfterRowStage Sym (workDiagMap Sym Work) S).rowSize = Work.rowSize ∧
    (workAfterRowStage Sym (workDiagMap Sym Work) S).elRow = Work.elRow ∧
    (workAfterRowStage Sym (workDiagMap Sym Work) S).elCol = Work.elCol := by
  unfold workAfterRowStage workAfterRows workDiagMap
  split_ifs <;> split <;> exact ⟨rfl, rfl, rfl⟩

/-! ## Facts on the last concrete inputs -/

theorem preStageAllocated_allocNoElement0 (Sym : ParU_Symbolic) (Control : ParU_Control) :
    preStageAllocated allocNoElement0 Sym Control := by
  unfold preStageAllocated
  simp [allocNoElement0, allocAll]

theorem preStageAllocated_allocNoRowList0 (Sym : ParU_Symbolic) (Control : ParU_Control) :
    preStageAllocated allocNoRowList0 Sym Control := by
  unfold preStageAllocated
  simp [allocNoRowList0, allocAll]

/-! ## The write log of the diagonal-map loop and machine subtraction -/

theorem invDiagSlot_eq (Sym : ParU_Symbolic) (D : (Int → Option Int) × (Int → Option Int))
    (i : Int) : invDiagSlot Sym D i = Sym.Diag_map i := by
  simp [invDiagSlot, diagMapStep]

/-- An iteration of the loop writes `Diag_map[i]` and the one entry of
`inv_Diag_map` at the index it has read from `Diag_map[i]`. -/
theorem diagMapStep_writes (Sym : ParU_Symbolic)
    (D : (Int → Option Int) × (Int → Option Int)) (i j : Int) :
    (diagMapStep Sym D i).1 j = (if j = i then some (Sym.Diag_map i) else D.1 j) ∧
    (diagMapStep Sym D i).2 j = (if j = invDiagSlot Sym D i then some i else D.2 j) := by
  rw [invDiagSlot_eq]
  unfold diagMapStep
  simp only [Function.update_apply]
  exact ⟨trivial, trivial⟩

theorem invDiagLogFrom_eq (Sym : ParU_Symbolic) (L : List Int)
    (D : (Int → Option Int) × (Int → Option Int)) :
    invDiagLogFrom Sym D L = L.map Sym.Diag_map := by
  induction L generalizing D with
  | nil => rfl
  | cons a L ih =>
    unfold invDiagLogFrom
    rw [ih, invDiagSlot_eq]
    rfl

/-- For a diagonal map that is a permutation of `0..n-1` the loop writes
every entry `0..n-1` of `inv_Diag_map` once and no other entry. -/
theorem invDiagLog_perm {Sym : ParU_Symbolic} (h : IsPerm Sym.Diag_map Sym.n)
    (D : (Int → Option Int) × (Int → Option Int)) :
    (invDiagLog Sym D).Perm (loopRange 0 Sym.n) := by
  unfold invDiagLog
  rw [invDiagLogFrom_eq]
  exact perm_of_isPerm h

theorem c20_splitPassNull (nf : Int) (t : Int → Int) :
    splitPassNull c20A (c20Sym nf t) = false := by
  have e : splitPassNull c20A (c20Sym nf t) =
      splitPassNull c20A (c20Sym 1 (arr [0, 1, 2] 0)) := rfl
  rw [e]
  decide

/-- A call that reaches the per-row stage and one of whose units counts a
failure returns `PARU_OUT_OF_MEMORY`. -/
theorem init_reached_failure {alloc : AllocOutcomes}
    (lac_el : (Int → Option paru_element) → Int → Int)
    (A : cholmod_sparse) {Sym : ParU_Symbolic} {Control : ParU_Control}
    (h : preStageAllocated alloc Sym Control)
    (hdef : Sym.nf = 0 → Sym.m - Sym.n1 ≤ 0)
    (hnn : splitPassNull A Sym = false)
    (hns : ¬ foundSingular A Sym Control)
    (hfail : ∃ r, 0 ≤ r ∧ r < Sym.m - Sym.n1 ∧ rowFails alloc r = true) :
    paru_init_rowFronts alloc lac_el A Sym Control =
      Outcome.returned ParU_Info.PARU_OUT_OF_MEMORY
        (some (numSplit A Sym (numScaled A Sym (numAfterRs alloc Sym Control))))
        (workAfterRowStage Sym (workDiagMap Sym (workAfterMemset alloc Sym))
          (rowStage alloc lac_el Sym (interiorValues A Sym Control)
            (Sym.m - Sym.n1) (rowStageInit workNull))) := by
  rw [init_reached lac_el A h hdef hnn hns]
  congr 1
  exact (finalInfo_rowStage alloc lac_el Sym (interiorValues A Sym Control)).1.mpr hfail
/-! ## The claims -/

/-- C1 (region partition completeness of the second pass).  For a valid
input, every stored entry of `A` is visited (and no visit is repeated), the
step for a visit changes exactly one slot of exactly one of `Sx`, `Sux`,
`Slx`, no two visits write the same slot, the number of slots written is the
number of nonzeros of `A`, and the slots holding a value after the pass are
exactly the slots written.  When every allocation before the per-row stage
succeeds and the matrix is not found singular, the function returns and the
arrays `Sx`, `Sux`, `Slx` of the numeric object are those left by this
pass. -/
theorem C1_region_partition_complete (A : cholmod_sparse) (Sym : ParU_Symbolic)
    (Rs : Option (Int → ℚ)) (hv : ValidInput A Sym) :
    (∀ c p, stored A Sym.n c p → ∃ v ∈ visits A Sym, Sym.Qfill v.newcol = c ∧ v.p = p) ∧
    (visits A Sym).Nodup ∧
    (∀ st v reg i, content (splitStep A Sym Rs st v) reg i =
        if (reg, i) = writeSlot A Sym st v then some (scaledValue A Rs v.p)
        else content st reg i) ∧
    (writeLog A Sym Rs).Nodup ∧
    (writeLog A Sym Rs).length = nnz A Sym.n ∧
    (∀ reg i, (content (splitPass A Sym Rs (splitInit Sym)) reg i).isSome ↔
        (reg, i) ∈ writeLog A Sym Rs) ∧
    (∀ (alloc : AllocOutcomes) (lac_el : (Int → Option paru_element) → Int → Int)
        (Control : ParU_Control),
      preStageAllocated alloc Sym Control → (Sym.nf = 0 → Sym.m - Sym.n1 ≤ 0) →
      ¬ foundSingular A Sym Control →
      ∃ info Num Work,
        paru_init_rowFronts alloc lac_el A Sym Control =
          Outcome.returned info (some Num) Work ∧
        Num.Sx = some (splitPass A Sym Num.Rs (splitInit Sym)).Sx ∧
        (Sym.cs1 > 0 → Num.Sux = some (splitPass A Sym Num.Rs (splitInit Sym)).Sux) ∧
        (Sym.rs1 > 0 → Num.Slx = some (splitPass A Sym Num.Rs (splitInit Sym)).Slx)) := by
  refine ⟨fun c p hs => stored_entry_visited hv.qfill_perm hs.1 hs.2.1 hs.2.2.1 hs.2.2.2,
    visits_nodup A Sym,
    fun st v reg i => content_splitStep A Sym Rs st v reg i, ?_, ?_, ?_,
    fun _ lac_el _ hall hdef hns =>
      init_split_arrays lac_el A hall hdef (splitPassNull_of_valid hv) hns⟩
  · exact writeLogFrom_nodup Rs hv.regionValid [] _ rfl
  · unfold writeLog
    rw [length_writeLogFrom, length_visits hv.qfill_perm]
  · intro reg i
    rw [splitPass_eq_foldl]
    unfold writeLog
    constructor
    · intro h
      by_contra hn
      rw [mem_writeLogFrom] at hn
      rw [content_foldl_of_not_written, content_splitInit] at h
      · simp at h
      · intro s1 w s2 e hw
        exact hn ⟨s1, w, s2, e, hw⟩
    · rw [mem_writeLogFrom]
      rintro ⟨s1, w, s2, e, hw⟩
      rw [e, List.foldl_append, List.foldl_cons]
      apply content_isSome_foldl
      rw [content_splitStep, if_pos hw.symm]
      rfl

/-- Witness of C1 on the 3-by-3 example: its six entries are written to six
different slots. -/
theorem C1_region_partition_complete_witness :
    ValidInput exA exSym ∧ (writeLog exA exSym none).Nodup ∧
      (writeLog exA exSym none).length = nnz exA exSym.n ∧ nnz exA exSym.n = 6 :=
  ⟨exValid, (C1_region_partition_complete exA exSym none exValid).2.2.2.1,
    (C1_region_partition_complete exA exSym none exValid).2.2.2.2.1, by decide⟩

/-- C2 as stated fails: with offsets `Sp = [0, 0, 0]` for the matrix
`diag(1, 2)` the entry of interior row 0 is overwritten by the entry of row
1, so `Sx[Sp[0] + 0]` does not hold the value of row 0. -/
theorem C2_counterexample :
    ¬ (∀ r, 0 ≤ r → r < c2Sym.m - c2Sym.n1 →
        ∀ (t : Nat) (v : Visit), (interiorVisits c2A c2Sym r)[t]? = some v →
          (splitPass c2A c2Sym none (splitInit c2Sym)).Sx (c2Sym.Sp r + t) =
            some (scaledValue c2A none v.p)) := by
  intro h
  have h0 := h 0 (by decide) (by decide) 0 ⟨0, 0⟩ (by decide)
  revert h0
  decide

/-- C2 amended (interior region row-major, ordered by permuted column).
When every entry sent to `Sx` has its row inside the interior block and the
segment lengths of `Sp` are the numbers of entries of the interior rows,
the entries mapped to interior row `r` are met in order of permuted column,
there are `Sp[r+1] - Sp[r]` of them, and after the second pass
`Sx[Sp[r] + t]` holds the (possibly scaled) value of the `t`-th of them. -/
theorem C2_interior_row_major (A : cholmod_sparse) (Sym : ParU_Symbolic)
    (Rs : Option (Int → ℚ)) (hr : RegionValid A Sym Region.Sx)
    (r : Int) (h0 : 0 ≤ r) (h1 : r < Sym.m - Sym.n1) :
    (interiorVisits A Sym r).Pairwise
      (fun v w => v.newcol < w.newcol ∨ (v.newcol = w.newcol ∧ v.p < w.p)) ∧
    ((interiorVisits A Sym r).length : Int) = Sym.Sp (r + 1) - Sym.Sp r ∧
    ∀ (t : Nat) (v : Visit), (interiorVisits A Sym r)[t]? = some v →
      (splitPass A Sym Rs (splitInit Sym)).Sx (Sym.Sp r + t) =
        some (scaledValue A Rs v.p) := by
  refine ⟨(visits_pairwise A Sym).filter _, length_interiorVisits hr h0 h1, ?_⟩
  intro t v h
  rw [interiorVisits_eq A Sym h0] at h
  have := content_splitPass_append Rs hr r t v h
  simpa [content, base, shift] using this

/-- Witness of C2 on the 3-by-3 example: its interior row 0 holds the entry
at position 5. -/
theorem C2_interior_row_major_witness :
    RegionValid exA exSym Region.Sx ∧ (0 : Int) ≤ 0 ∧ (0 : Int) < exSym.m - exSym.n1 ∧
      (splitPass exA exSym none (splitInit exSym)).Sx (exSym.Sp 0 + (0 : Nat)) =
        some (scaledValue exA none 5) :=
  ⟨exValid.regionValid Region.Sx, by decide, by decide,
    (C2_interior_row_major exA exSym none (exValid.regionValid Region.Sx) 0
      (by decide) (by decide)).2.2 0 ⟨2, 5⟩ (by decide)⟩

/-- C3 as stated fails: in a matrix whose singleton row 0 has no diagonal
entry (entries `(1,1) = 7`, `(0,2) = 9`, `(2,2) = 5`, segment lengths of
`Sup` equal to the row counts) the entry `(0,2)` is written to `Sux[Sup[1]]`
after the diagonal entry of row 1, so row 1 has a diagonal entry whose value
is not at `Sux[Sup[1]]`. -/
theorem C3_counterexample :
    ¬ (∀ k, 0 ≤ k → k < c3Sym.cs1 →
        ∀ d ∈ visits c3A c3Sym, d.newcol = k → c3Sym.Pinv (c3A.i d.p) = k →
          (splitPass c3A c3Sym none (splitInit c3Sym)).Sux (c3Sym.ustons_Sup k) =
            some (scaledValue c3A none d.p)) := by
  intro h
  have h0 := h 1 (by decide) (by decide) ⟨1, 0⟩ (by decide) (by decide) (by decide)
  revert h0
  decide

/-- C3 amended (diagonal first in the column-singleton region).  When every
entry sent to `Sux` has its row among the `cs1` singleton rows, each of
these rows has exactly one diagonal entry and the segment lengths of `Sup`
are the numbers of entries of the rows, then for a singleton row `k < cs1` the
value of its diagonal entry is at `Sux[Sup[k]]` after the second pass, the
other entries of permuted row `k` are met in order of permuted column, and
the `t`-th of them is at `Sux[Sup[k] + 1 + t]`. -/
theorem C3_u_diagonal_first (A : cholmod_sparse) (Sym : ParU_Symbolic)
    (Rs : Option (Int → ℚ)) (hr : RegionValid A Sym Region.Sux) (hn : Sym.cs1 ≤ Sym.n1)
    (k : Int) (h1 : k < Sym.cs1) :
    (∀ d ∈ visits A Sym, d.newcol = k → Sym.Pinv (A.i d.p) = k →
      (splitPass A Sym Rs (splitInit Sym)).Sux (Sym.ustons_Sup k) =
        some (scaledValue A Rs d.p)) ∧
    (uOffDiagVisits A Sym k).Pairwise
      (fun v w => v.newcol < w.newcol ∨ (v.newcol = w.newcol ∧ v.p < w.p)) ∧
    ∀ (t : Nat) (v : Visit), (uOffDiagVisits A Sym k)[t]? = some v →
      (splitPass A Sym Rs (splitInit Sym)).Sux (Sym.ustons_Sup k + 1 + t) =
        some (scaledValue A Rs v.p) := by
  refine ⟨?_, (visits_pairwise A Sym).filter _, ?_⟩
  · intro d hm hc hrow
    have := content_splitPass_diag Rs hr k d hm (target_of_uDiag hn h1 hc hrow)
    simpa [content, base] using this
  · intro t v h
    rw [uOffDiagVisits_eq A Sym hn h1] at h
    have := content_splitPass_append Rs hr k t v h
    simpa [content, base, shift] using this

/-- Witness of C3 on the 3-by-3 example: the diagonal entry of singleton row
0 (position 0) is at `Sux[Sup[0]]` and the entry of column 2 (position 4),
the second off-diagonal entry of the row, at `Sux[Sup[0] + 2]`. -/
theorem C3_u_diagonal_first_witness :
    RegionValid exA exSym Region.Sux ∧ exSym.cs1 ≤ exSym.n1 ∧ (0 : Int) < exSym.cs1 ∧
      (splitPass exA exSym none (splitInit exSym)).Sux (exSym.ustons_Sup 0) =
        some (scaledValue exA none 0) ∧
      (splitPass exA exSym none (splitInit exSym)).Sux (exSym.ustons_Sup 0 + 1 + (1 : Nat)) =
        some (scaledValue exA none 4) :=
  ⟨exValid.regionValid Region.Sux, by decide, by decide,
    (C3_u_diagonal_first exA exSym none (exValid.regionValid Region.Sux) (by decide) 0
      (by decide)).1 ⟨0, 0⟩ (by decide) rfl (by decide),
    (C3_u_diagonal_first exA exSym none (exValid.regionValid Region.Sux) (by decide) 0
      (by decide)).2.2 1 ⟨2, 4⟩ (by decide)⟩

/-- C4 as stated fails: with offsets `Slp = [0, 0, 0]` for the matrix
`diag(3, 4)` with two row singletons, the diagonal entry of column 1 is
written over the diagonal entry of column 0, whose value is then not at
`Slx[Slp[0]]`. -/
theorem C4_counterexample :
    ¬ (∀ c, c4Sym.cs1 ≤ c → c < c4Sym.n1 →
        ∀ d ∈ visits c4A c4Sym, d.newcol = c → c4Sym.Pinv (c4A.i d.p) = c →
          (splitPass c4A c4Sym none (splitInit c4Sym)).Slx
              (c4Sym.lstons_Slp (c - c4Sym.cs1)) =
            some (scaledValue c4A none d.p)) := by
  intro h
  have h0 := h 0 (by decide) (by decide) ⟨0, 0⟩ (by decide) (by decide) (by decide)
  revert h0
  decide

/-- C4 amended (diagonal first in the row-singleton region).  When every
entry sent to `Slx` has its column among the `rs1` singleton columns, each
of these columns has exactly one diagonal entry and the segment lengths of
`Slp` are the numbers of entries of the columns, then for a singleton column
`c` with `cs1 <= c < n1` the value of its diagonal entry is at
`Slx[Slp[c - cs1]]` after the second pass, the other entries of permuted
column `c` with permuted row `>= cs1` are met in order of their position in
the column, and the `t`-th of them is at `Slx[Slp[c - cs1] + 1 + t]`. -/
theorem C4_l_diagonal_first (A : cholmod_sparse) (Sym : ParU_Symbolic)
    (Rs : Option (Int → ℚ)) (hr : RegionValid A Sym Region.Slx)
    (c : Int) (h0 : Sym.cs1 ≤ c) (h1 : c < Sym.n1) :
    (∀ d ∈ visits A Sym, d.newcol = c → Sym.Pinv (A.i d.p) = c →
      (splitPass A Sym Rs (splitInit Sym)).Slx (Sym.lstons_Slp (c - Sym.cs1)) =
        some (scaledValue A Rs d.p)) ∧
    (lOffDiagVisits A Sym c).Pairwise (fun v w => v.p < w.p) ∧
    ∀ (t : Nat) (v : Visit), (lOffDiagVisits A Sym c)[t]? = some v →
      (splitPass A Sym Rs (splitInit Sym)).Slx (Sym.lstons_Slp (c - Sym.cs1) + 1 + t) =
        some (scaledValue A Rs v.p) := by
  refine ⟨?_, ?_, ?_⟩
  · intro d hm hc hrow
    have := content_splitPass_diag Rs hr (c - Sym.cs1) d hm (target_of_lDiag h0 h1 hc hrow)
    simpa [content, base] using this
  · unfold lOffDiagVisits
    rw [List.pairwise_filter]
    refine (visits_pairwise A Sym).imp ?_
    intro v w hvw hv hw
    rcases hvw with hlt | ⟨_, hp⟩
    · omega
    · exact hp
  · intro t v h
    rw [lOffDiagVisits_eq A Sym h1] at h
    have := content_splitPass_append Rs hr (c - Sym.cs1) t v h
    simpa [content, base, shift] using this

/-- Witness of C4 on the 3-by-3 example, whose singleton column 1 is stored
bottom-up: the diagonal entry (position 2) is at `Slx[Slp[0]]` and the entry
of row 2 (position 1), met first, at `Slx[Slp[0] + 1]`. -/
theorem C4_l_diagonal_first_witness :
    RegionValid exA exSym Region.Slx ∧ exSym.cs1 ≤ 1 ∧ (1 : Int) < exSym.n1 ∧
      (splitPass exA exSym none (splitInit exSym)).Slx (exSym.lstons_Slp (1 - exSym.cs1)) =
        some (scaledValue exA none 2) ∧
      (splitPass exA exSym none (splitInit exSym)).Slx
          (exSym.lstons_Slp (1 - exSym.cs1) + 1 + (0 : Nat)) =
        some (scaledValue exA none 1) :=
  ⟨exValid.regionValid Region.Slx, by decide, by decide,
    (C4_l_diagonal_first exA exSym none (exValid.regionValid Region.Slx) 1
      (by decide) (by decide)).1 ⟨1, 2⟩ (by decide) rfl (by decide),
    (C4_l_diagonal_first exA exSym none (exValid.regionValid Region.Slx) 1
      (by decide) (by decide)).2.2 0 ⟨1, 1⟩ (by decide)⟩

/-- C5 (the code evaluated at two failing inputs, scaling enabled and every
allocation succeeding).  The test of lines 307-316 only looks at `Rs[k]` for
`k < Sym->m - n1`.  For the matrix `[3 1; 0 0]` whose entry `(1,1)` is stored
with value 0 and whose two columns are column singletons (`Sym->m = 2`,
`n1 = 2`), the function returns `PARU_SUCCESS` and leaves `Rs[1] = 0`.  For
the same matrix without the entry `(1,1)` and with one column singleton
(`n1 = 1`), row 1 has no stored entry, and again the function returns
`PARU_SUCCESS` and leaves `Rs[1] = 0`. -/
theorem C5_zero_row_not_reported :
    ((1 : Int) < c5zSym.m ∧
      ∃ Num Work R,
        paru_init_rowFronts allocAll lacZero c5zA c5zSym ctlScaled =
          Outcome.returned ParU_Info.PARU_SUCCESS (some Num) Work ∧
        Num.Rs = some R ∧ R 1 = 0) ∧
    ((1 : Int) < c5Sym.m ∧
      (¬ ∃ c p, stored c5A c5Sym.n c p ∧ c5A.i p = 1) ∧
      ∃ Num Work R,
        paru_init_rowFronts allocAll lacZero c5A c5Sym ctlScaled =
          Outcome.returned ParU_Info.PARU_SUCCESS (some Num) Work ∧
        Num.Rs = some R ∧ R 1 = 0) := by
  refine ⟨⟨by decide, ?_⟩, by decide, ?_, ?_⟩
  · have hns : ¬ foundSingular c5zA c5zSym ctlScaled := by
      unfold foundSingular
      decide
    refine ⟨_, _, scalePass c5zA c5zSym (fun _ => 0),
      init_allocAll_success lacZero c5zA c5zSym ctlScaled (by decide) (by decide) hns, ?_, by decide⟩
    simp [numSplit, numScaled, numAfterRs_Rs, ctlScaled, PARU_CALLOC, allocAll]
  · rintro ⟨c, p, ⟨h0, h1, h2, h3⟩, hi⟩
    have hn : c5Sym.n = 2 := rfl
    rw [hn] at h1
    interval_cases c
    · have e0 : c5A.p 0 = 0 := by decide
      have e1 : c5A.p (0 + 1) = 1 := by decide
      rw [e0] at h2
      rw [e1] at h3
      interval_cases p
      revert hi
      decide
    · have e0 : c5A.p 1 = 1 := by decide
      have e1 : c5A.p (1 + 1) = 2 := by decide
      rw [e0] at h2
      rw [e1] at h3
      interval_cases p
      revert hi
      decide
  · have hns : ¬ foundSingular c5A c5Sym ctlScaled := by
      unfold foundSingular
      decide
    refine ⟨_, _, scalePass c5A c5Sym (fun _ => 0),
      init_allocAll_success lacZero c5A c5Sym ctlScaled (by decide) (by decide) hns, ?_, by decide⟩
    simp [numSplit, numScaled, numAfterRs_Rs, ctlScaled, PARU_CALLOC, allocAll]

/-- C6 (the row scale is the largest absolute value of the row).  The first
pass runs when `prescale == 1`, on the zero array obtained from
`PARU_CALLOC`: whenever the function returns with `Num->Rs` not null,
`Num->Rs` is the result `scalePass A Sym 0` of that pass.  When `Qfill` is a
permutation of the columns this array satisfies, for every row index `i`:
`Rs[i]` bounds `|Ax[p]|` for every stored entry `p` of row `i`, it is
attained by one of them when the row has a stored entry, and it is 0 when the
row has none. -/
theorem C6_row_scale_is_row_max (A : cholmod_sparse) (Sym : ParU_Symbolic)
    (hq : IsPerm Sym.Qfill Sym.n) (i : Int) :
    (∀ (alloc : AllocOutcomes) (lac_el : (Int → Option paru_element) → Int → Int)
        (Control : ParU_Control) (info : ParU_Info) (Num : ParU_Numeric) (Work : paru_work)
        (R : Int → ℚ),
      paru_init_rowFronts alloc lac_el A Sym Control =
        Outcome.returned info (some Num) Work →
      Num.Rs = some R → R = scalePass A Sym (fun _ => 0)) ∧
    (∀ c p, stored A Sym.n c p → A.i p = i → |A.x p| ≤ scalePass A Sym (fun _ => 0) i) ∧
    ((∃ c p, stored A Sym.n c p ∧ A.i p = i) →
      ∃ c p, stored A Sym.n c p ∧ A.i p = i ∧ scalePass A Sym (fun _ => 0) i = |A.x p|) ∧
    ((¬ ∃ c p, stored A Sym.n c p ∧ A.i p = i) → scalePass A Sym (fun _ => 0) i = 0) :=
  ⟨fun _ _ _ _ _ _ _ h hR => returned_Rs h hR, scalePass_max hq i⟩

/-- Witness of C6 on the 3-by-3 example: the scale of row 2 bounds the value
stored at position 1, an entry of that row. -/
theorem C6_row_scale_is_row_max_witness :
    IsPerm exSym.Qfill exSym.n ∧ |exA.x 1| ≤ scalePass exA exSym (fun _ => 0) 2 :=
  ⟨exValid.qfill_perm,
    (C6_row_scale_is_row_max exA exSym exValid.qfill_perm 2).2.1 1 1
      (by unfold stored; decide) (by decide)⟩

/-- C7 (tuple lists after initialisation).  Whenever the function returns
`PARU_SUCCESS`, for every row `r` with `0 <= r < m` the list `RowList[r]` has
`numTuple = 1`, `len = 2`, and its tuple at position 0 is
`(row2atree[r], 0)`. -/
theorem C7_tuple_list_initial_state {alloc : AllocOutcomes}
    {lac_el : (Int → Option paru_element) → Int → Int}
    {A : cholmod_sparse} {Sym : ParU_Symbolic} {Control : ParU_Control}
    {Num_handle : Option ParU_Numeric} {Work : paru_work}
    (h : paru_init_rowFronts alloc lac_el A Sym Control =
      Outcome.returned ParU_Info.PARU_SUCCESS Num_handle Work)
    (r : Int) (h0 : 0 ≤ r) (h1 : r < Sym.m - Sym.n1) :
    ∃ RowList l, Work.RowList = some RowList ∧
      (RowList r).numTuple = 1 ∧ (RowList r).len = 2 ∧
      (RowList r).list = some l ∧ l 0 = some { e := Sym.row2atree r, f := 0 } := by
  obtain ⟨Num0, Work0, _, _, hok, hnf0, hwork⟩ := init_success h
  have hnf : Sym.nf ≠ 0 := fun e => by have := hnf0 e; omega
  have hRL : (rowStageResult alloc lac_el Sym (splitPass A Sym Num0.Rs (splitInit Sym)).Sx
      Work0).RowList r = initialTupleList (Sym.row2atree r) :=
    rowStage_RowList alloc lac_el Sym
      (splitPass A Sym Num0.Rs (splitInit Sym)).Sx (loopRange 0 (Sym.m - Sym.n1))
      (rowStageInit Work0) r (Or.inr (mem_loopRange.mpr ⟨h0, h1⟩))
      (fun r' hr' => hok r' (mem_loopRange.mp hr').1 (mem_loopRange.mp hr').2)
  refine ⟨_, Function.update (fun _ => none) 0 (some { e := Sym.row2atree r, f := 0 }),
    by rw [hwork hnf]; rfl, ?_, ?_, ?_, ?_⟩
  · rw [hRL]; rfl
  · rw [hRL]; rfl
  · rw [hRL]; rfl
  · simp

/-- Witness of C7 on the 3-by-3 example with every allocation succeeding. -/
theorem C7_tuple_list_initial_state_witness :
    ∃ Num Work,
      paru_init_rowFronts allocAll lacZero exA exSym ctlPlain =
        Outcome.returned ParU_Info.PARU_SUCCESS Num Work ∧
      (0 : Int) ≤ 0 ∧ (0 : Int) < exSym.m - exSym.n1 ∧
      ∃ RowList l, Work.RowList = some RowList ∧
        (RowList 0).numTuple = 1 ∧ (RowList 0).len = 2 ∧
        (RowList 0).list = some l ∧ l 0 = some { e := exSym.row2atree 0, f := 0 } :=
  ⟨_, _, init_allocAll_success lacZero exA exSym ctlPlain (by decide) (by decide)
      (not_foundSingular_ctlPlain exA exSym), by decide, by decide,
    C7_tuple_list_initial_state
      (init_allocAll_success lacZero exA exSym ctlPlain (by decide) (by decide)
        (not_foundSingular_ctlPlain exA exSym)) 0 (by decide) (by decide)⟩

/-- C8 as stated fails in two ways.  With `row2atree` sending rows 0 and 1
to the same element, the function returns `PARU_SUCCESS` and
`elementList[row2atree[0]]` is the element of row 1, whose trailing index
entry is 1.  With `Sp[1] < Sp[0]`, the column count of the element of row 0
is negative and its row index is stored at position 0, not at position
`ncols`. -/
theorem C8_counterexample :
    (¬ (∀ Num_handle Work,
        paru_init_rowFronts allocAll lacZero c2A c8Sym ctlPlain =
          Outcome.returned ParU_Info.PARU_SUCCESS Num_handle Work →
        ∀ r, 0 ≤ r → r < c8Sym.m - c8Sym.n1 →
          ∃ elementList el, Work.elementList = some elementList ∧
            elementList (c8Sym.row2atree r) = some el ∧
            el.nrows = 1 ∧ el.ncols = c8Sym.Sp (r + 1) - c8Sym.Sp r ∧
            el.colrowIndex el.ncols = some r)) ∧
    (¬ (∀ Num_handle Work,
        paru_init_rowFronts allocAll lacZero c2A c8SymDecr ctlPlain =
          Outcome.returned ParU_Info.PARU_SUCCESS Num_handle Work →
        ∀ r, 0 ≤ r → r < c8SymDecr.m - c8SymDecr.n1 →
          ∃ elementList el, Work.elementList = some elementList ∧
            elementList (c8SymDecr.row2atree r) = some el ∧
            el.nrows = 1 ∧ el.ncols = c8SymDecr.Sp (r + 1) - c8SymDecr.Sp r ∧
            el.colrowIndex el.ncols = some r)) := by
  constructor
  · intro hc
    obtain ⟨EL, el, hEL, hel, _, _, ht⟩ := hc _ _
      (init_allocAll_success lacZero c2A c8Sym ctlPlain (by decide) (by decide)
        (not_foundSingular_ctlPlain c2A c8Sym)) 0 (by decide) (by decide)
    have e : some (rowStageResult allocAll lacZero c8Sym
        (splitPass c2A c8Sym (numScaled c2A c8Sym (numAfterRs allocAll c8Sym ctlPlain)).Rs
          (splitInit c8Sym)).Sx
        (workDiagMap c8Sym (workAfterMemset allocAll c8Sym))).elementList = some EL := hEL
    rw [Option.some.injEq] at e
    subst e
    have hcomp : ((rowStageResult allocAll lacZero c8Sym
        (splitPass c2A c8Sym (numScaled c2A c8Sym (numAfterRs allocAll c8Sym ctlPlain)).Rs
          (splitInit c8Sym)).Sx
        (workDiagMap c8Sym (workAfterMemset allocAll c8Sym))).elementList
          (c8Sym.row2atree 0)).bind (fun el => el.colrowIndex el.ncols) = some 1 := by
      decide
    rw [hel, Option.some_bind, ht] at hcomp
    revert hcomp
    decide
  · intro hc
    obtain ⟨EL, el, hEL, hel, _, _, ht⟩ := hc _ _
      (init_allocAll_success lacZero c2A c8SymDecr ctlPlain (by decide) (by decide)
        (not_foundSingular_ctlPlain c2A c8SymDecr)) 0 (by decide) (by decide)
    have e : some (rowStageResult allocAll lacZero c8SymDecr
        (splitPass c2A c8SymDecr
          (numScaled c2A c8SymDecr (numAfterRs allocAll c8SymDecr ctlPlain)).Rs
          (splitInit c8SymDecr)).Sx
        (workDiagMap c8SymDecr (workAfterMemset allocAll c8SymDecr))).elementList =
          some EL := hEL
    rw [Option.some.injEq] at e
    subst e
    have hcomp : ((rowStageResult allocAll lacZero c8SymDecr
        (splitPass c2A c8SymDecr
          (numScaled c2A c8SymDecr (numAfterRs allocAll c8SymDecr ctlPlain)).Rs
          (splitInit c8SymDecr)).Sx
        (workDiagMap c8SymDecr (workAfterMemset allocAll c8SymDecr))).elementList
          (c8SymDecr.row2atree 0)).bind (fun el => el.colrowIndex el.ncols) = none := by
      decide
    rw [hel, Option.some_bind, ht] at hcomp
    revert hcomp
    decide

/-- C8 amended (element shape).  Whenever the function returns
`PARU_SUCCESS` and `row2atree` is one-to-one on the rows `0..m-1`, for every
row `r` with `Sp[r] <= Sp[r+1]` the element `elementList[row2atree[r]]`
exists, has row count 1 and column count `Sp[r+1] - Sp[r]`, and the entry of
its index array at position `ncols` is `r`. -/
theorem C8_element_shape {alloc : AllocOutcomes}
    {lac_el : (Int → Option paru_element) → Int → Int}
    {A : cholmod_sparse} {Sym : ParU_Symbolic} {Control : ParU_Control}
    {Num_handle : Option ParU_Numeric} {Work : paru_work}
    (h : paru_init_rowFronts alloc lac_el A Sym Control =
      Outcome.returned ParU_Info.PARU_SUCCESS Num_handle Work)
    (hinj : ∀ a, 0 ≤ a → a < Sym.m - Sym.n1 → ∀ b, 0 ≤ b → b < Sym.m - Sym.n1 →
      Sym.row2atree a = Sym.row2atree b → a = b)
    (r : Int) (h0 : 0 ≤ r) (h1 : r < Sym.m - Sym.n1) (hmono : Sym.Sp r ≤ Sym.Sp (r + 1)) :
    ∃ elementList el, Work.elementList = some elementList ∧
      elementList (Sym.row2atree r) = some el ∧
      el.nrows = 1 ∧ el.ncols = Sym.Sp (r + 1) - Sym.Sp r ∧
      el.colrowIndex el.ncols = some r := by
  obtain ⟨Num0, Work0, _, _, hok, hnf0, hwork⟩ := init_success h
  have hnf : Sym.nf ≠ 0 := fun e => by have := hnf0 e; omega
  have hEL : (rowStageResult alloc lac_el Sym (splitPass A Sym Num0.Rs (splitInit Sym)).Sx
      Work0).elementList (Sym.row2atree r) = _ :=
    rowStage_elementList alloc lac_el Sym
      (splitPass A Sym Num0.Rs (splitInit Sym)).Sx (loopRange 0 (Sym.m - Sym.n1))
      (rowStageInit Work0) r (Or.inr (mem_loopRange.mpr ⟨h0, h1⟩))
      (fun r' hr' => hok r' (mem_loopRange.mp hr').1 (mem_loopRange.mp hr').2)
      (fun r' hr' e => hinj r' (mem_loopRange.mp hr').1 (mem_loopRange.mp hr').2 r h0 h1 e)
  obtain ⟨f1, f2, f3, _⟩ := fillElement_spec Sym.Sp Sym.Sj
    (splitPass A Sym Num0.Rs (splitInit Sym)).Sx r
    { nrows := 1, ncols := Sym.Sp (r + 1) - Sym.Sp r,
      colrowIndex := fun _ => none, colrowNum := fun _ => none }
  refine ⟨_, _, by rw [hwork hnf]; rfl, hEL, f1, f2, ?_⟩
  rw [f2]
  rw [Int.toNat_of_nonneg (by omega)] at f3
  exact f3

/-- Witness of C8 on the 3-by-3 example with every allocation succeeding. -/
theorem C8_element_shape_witness :
    ∃ Num Work,
      paru_init_rowFronts allocAll lacZero exA exSym ctlPlain =
        Outcome.returned ParU_Info.PARU_SUCCESS Num Work ∧
      (0 : Int) ≤ 0 ∧ (0 : Int) < exSym.m - exSym.n1 ∧ exSym.Sp 0 ≤ exSym.Sp (0 + 1) ∧
      ∃ elementList el, Work.elementList = some elementList ∧
        elementList (exSym.row2atree 0) = some el ∧
        el.nrows = 1 ∧ el.ncols = exSym.Sp (0 + 1) - exSym.Sp 0 ∧
        el.colrowIndex el.ncols = some 0 :=
  ⟨_, _, init_allocAll_success lacZero exA exSym ctlPlain (by decide) (by decide)
      (not_foundSingular_ctlPlain exA exSym), by decide, by decide, by decide,
    C8_element_shape
      (init_allocAll_success lacZero exA exSym ctlPlain (by decide) (by decide)
        (not_foundSingular_ctlPlain exA exSym))
      (by
        intro a ha0 ha1 b hb0 hb1 _
        have hm : exSym.m - exSym.n1 = 1 := rfl
        rw [hm] at ha1 hb1
        omega)
      0 (by decide) (by decide) (by decide)⟩

/-- C9 as stated fails: with `row2atree` sending rows 0 and 1 to the same
element, the function returns `PARU_SUCCESS` and `elementList[row2atree[0]]`
is the element of row 1, whose column index at position 0 is `Sj[Sp[1]] = 1`
and not `Sj[Sp[0]] = 0`. -/
theorem C9_counterexample :
    ¬ (∀ Num_handle Work,
        paru_init_rowFronts allocAll lacZero c2A c8Sym ctlPlain =
          Outcome.returned ParU_Info.PARU_SUCCESS Num_handle Work →
        ∀ r, 0 ≤ r → r < c8Sym.m - c8Sym.n1 →
          ∀ j, 0 ≤ j → j < c8Sym.Sp (r + 1) - c8Sym.Sp r →
            ∃ elementList el, Work.elementList = some elementList ∧
              elementList (c8Sym.row2atree r) = some el ∧
              el.colrowIndex j = some (c8Sym.Sj (c8Sym.Sp r + j))) := by
  intro hc
  obtain ⟨EL, el, hEL, hel, ht⟩ := hc _ _
    (init_allocAll_success lacZero c2A c8Sym ctlPlain (by decide) (by decide)
      (not_foundSingular_ctlPlain c2A c8Sym)) 0 (by decide) (by decide)
      0 (by decide) (by decide)
  have e : some (rowStageResult allocAll lacZero c8Sym
      (splitPass c2A c8Sym (numScaled c2A c8Sym (numAfterRs allocAll c8Sym ctlPlain)).Rs
        (splitInit c8Sym)).Sx
      (workDiagMap c8Sym (workAfterMemset allocAll c8Sym))).elementList = some EL := hEL
  rw [Option.some.injEq] at e
  subst e
  have hcomp : ((rowStageResult allocAll lacZero c8Sym
      (splitPass c2A c8Sym (numScaled c2A c8Sym (numAfterRs allocAll c8Sym ctlPlain)).Rs
        (splitInit c8Sym)).Sx
      (workDiagMap c8Sym (workAfterMemset allocAll c8Sym))).elementList
        (c8Sym.row2atree 0)).bind (fun el => el.colrowIndex 0) = some 1 := by
    decide
  rw [hel, Option.some_bind, ht] at hcomp
  revert hcomp
  decide

/-- C9 amended (element contents).  Whenever the function returns
`PARU_SUCCESS` and `row2atree` is one-to-one on the rows `0..m-1`, for every
row `r` and every `j` with `0 <= j < Sp[r+1] - Sp[r]` the `j`-th column
index of `elementList[row2atree[r]]` is `Sj[Sp[r] + j]` and its `j`-th value
is `Num->Sx[Sp[r] + j]`, where `Num->Sx` is the array left by the second
pass. -/
theorem C9_element_contents {alloc : AllocOutcomes}
    {lac_el : (Int → Option paru_element) → Int → Int}
    {A : cholmod_sparse} {Sym : ParU_Symbolic} {Control : ParU_Control}
    {Num_handle : Option ParU_Numeric} {Work : paru_work}
    (h : paru_init_rowFronts alloc lac_el A Sym Control =
      Outcome.returned ParU_Info.PARU_SUCCESS Num_handle Work)
    (hinj : ∀ a, 0 ≤ a → a < Sym.m - Sym.n1 → ∀ b, 0 ≤ b → b < Sym.m - Sym.n1 →
      Sym.row2atree a = Sym.row2atree b → a = b)
    (r : Int) (h0 : 0 ≤ r) (h1 : r < Sym.m - Sym.n1)
    (j : Int) (hj0 : 0 ≤ j) (hj1 : j < Sym.Sp (r + 1) - Sym.Sp r) :
    ∃ Num Sx elementList el, Num_handle = some Num ∧ Num.Sx = some Sx ∧
      Sx = (splitPass A Sym Num.Rs (splitInit Sym)).Sx ∧
      Work.elementList = some elementList ∧
      elementList (Sym.row2atree r) = some el ∧
      el.colrowIndex j = some (Sym.Sj (Sym.Sp r + j)) ∧
      el.colrowNum j = Sx (Sym.Sp r + j) := by
  obtain ⟨Num0, Work0, hnum, hsx, hok, hnf0, hwork⟩ := init_success h
  have hnf : Sym.nf ≠ 0 := fun e => by have := hnf0 e; omega
  have hEL : (rowStageResult alloc lac_el Sym (splitPass A Sym Num0.Rs (splitInit Sym)).Sx
      Work0).elementList (Sym.row2atree r) = _ :=
    rowStage_elementList alloc lac_el Sym
      (splitPass A Sym Num0.Rs (splitInit Sym)).Sx (loopRange 0 (Sym.m - Sym.n1))
      (rowStageInit Work0) r (Or.inr (mem_loopRange.mpr ⟨h0, h1⟩))
      (fun r' hr' => hok r' (mem_loopRange.mp hr').1 (mem_loopRange.mp hr').2)
      (fun r' hr' e => hinj r' (mem_loopRange.mp hr').1 (mem_loopRange.mp hr').2 r h0 h1 e)
  obtain ⟨_, _, _, f4⟩ := fillElement_spec Sym.Sp Sym.Sj
    (splitPass A Sym Num0.Rs (splitInit Sym)).Sx r
    { nrows := 1, ncols := Sym.Sp (r + 1) - Sym.Sp r,
      colrowIndex := fun _ => none, colrowNum := fun _ => none }
  obtain ⟨sx0, hsx0⟩ := Option.isSome_iff_exists.mp hsx
  refine ⟨numSplit A Sym Num0, (splitPass A Sym Num0.Rs (splitInit Sym)).Sx, _, _, hnum,
    ?_, rfl, by rw [hwork hnf]; rfl, hEL, (f4 j hj0 hj1).1, (f4 j hj0 hj1).2⟩
  simp [numSplit, hsx0]

/-- Witness of C9 on the 3-by-3 example with every allocation succeeding. -/
theorem C9_element_contents_witness :
    ∃ Num_handle Work,
      paru_init_rowFronts allocAll lacZero exA exSym ctlPlain =
        Outcome.returned ParU_Info.PARU_SUCCESS Num_handle Work ∧
      (0 : Int) ≤ 0 ∧ (0 : Int) < exSym.m - exSym.n1 ∧
      (0 : Int) < exSym.Sp (0 + 1) - exSym.Sp 0 ∧
      ∃ Num Sx elementList el, Num_handle = some Num ∧ Num.Sx = some Sx ∧
        Sx = (splitPass exA exSym Num.Rs (splitInit exSym)).Sx ∧
        Work.elementList = some elementList ∧
        elementList (exSym.row2atree 0) = some el ∧
        el.colrowIndex 0 = some (exSym.Sj (exSym.Sp 0 + 0)) ∧
        el.colrowNum 0 = Sx (exSym.Sp 0 + 0) :=
  ⟨_, _, init_allocAll_success lacZero exA exSym ctlPlain (by decide) (by decide)
      (not_foundSingular_ctlPlain exA exSym), by decide, by decide, by decide,
    C9_element_contents
      (init_allocAll_success lacZero exA exSym ctlPlain (by decide) (by decide)
        (not_foundSingular_ctlPlain exA exSym))
      (by
        intro a ha0 ha1 b hb0 hb1 _
        have hm : exSym.m - exSym.n1 = 1 := rfl
        rw [hm] at ha1 hb1
        omega)
      0 (by decide) (by decide) 0 (by decide) (by decide)⟩

/-- C10 (the final status is a reduction of the failure counter).  Take a
call that returns after every allocation before the per-row stage has
succeeded.  If the matrix is found singular during scaling, the status is
`PARU_SINGULAR`, recorded in `Num->res`.  Otherwise the call has gone through
the per-row stage, and its status is `PARU_OUT_OF_MEMORY` if and only if the
unit of some row `r` with `0 <= r < m` fails to allocate its element, heap or
tuple list, and `PARU_SUCCESS` if and only if there is no such row. -/
theorem C10_final_status_reduction {alloc : AllocOutcomes}
    {lac_el : (Int → Option paru_element) → Int → Int}
    {A : cholmod_sparse} {Sym : ParU_Symbolic} {Control : ParU_Control}
    {info : ParU_Info} {Num_handle : Option ParU_Numeric} {Work : paru_work}
    (hall : preStageAllocated alloc Sym Control)
    (h : paru_init_rowFronts alloc lac_el A Sym Control =
      Outcome.returned info Num_handle Work) :
    (foundSingular A Sym Control →
      info = ParU_Info.PARU_SINGULAR ∧
      ∃ Num, Num_handle = some Num ∧ Num.res = ParU_Info.PARU_SINGULAR) ∧
    (¬ foundSingular A Sym Control →
      (info = ParU_Info.PARU_OUT_OF_MEMORY ↔
        ∃ r, 0 ≤ r ∧ r < Sym.m - Sym.n1 ∧ rowFails alloc r = true) ∧
      (info = ParU_Info.PARU_SUCCESS ↔
        ¬ ∃ r, 0 ≤ r ∧ r < Sym.m - Sym.n1 ∧ rowFails alloc r = true)) := by
  constructor
  · intro hs
    have e := init_eq_singular lac_el A hall hs
    rw [h] at e
    simp only [Outcome.returned.injEq] at e
    exact ⟨e.1, _, e.2.1, rfl⟩
  · intro hns
    obtain ⟨_, _, hi, _, _⟩ := init_returned hall hns h
    rw [hi]
    exact finalInfo_rowStage alloc lac_el Sym _

/-- Witness of C10 on the 3-by-3 example with every allocation succeeding:
the call returns `PARU_SUCCESS` and no row fails. -/
theorem C10_final_status_reduction_witness :
    preStageAllocated allocAll exSym ctlPlain ∧
    ∃ Num_handle Work,
      paru_init_rowFronts allocAll lacZero exA exSym ctlPlain =
        Outcome.returned ParU_Info.PARU_SUCCESS Num_handle Work ∧
      ¬ ∃ r, 0 ≤ r ∧ r < exSym.m - exSym.n1 ∧ rowFails allocAll r = true :=
  ⟨preStageAllocated_allocAll exSym ctlPlain, _, _,
    init_allocAll_success lacZero exA exSym ctlPlain (by decide) (by decide)
      (not_foundSingular_ctlPlain exA exSym),
    ((C10_final_status_reduction (preStageAllocated_allocAll exSym ctlPlain)
      (init_allocAll_success lacZero exA exSym ctlPlain (by decide) (by decide)
        (not_foundSingular_ctlPlain exA exSym))).2
      (not_foundSingular_ctlPlain exA exSym)).2.mp rfl⟩

/-! ## The claims on failures, the diagonal map and the rows -/

/-- C11 (the code evaluated at a failing pattern of allocations).  The
result of the allocation of the cursor copy `cSp` (line 163) is never
tested.  On the 3-by-3 example with every allocation succeeding except that
of `cSp`, the function does not return `PARU_OUT_OF_MEMORY`: it goes on to
line 238 and writes through the null pointer.  The same happens for every
input whenever the allocation of `cSp` fails and the other allocations made
before the per-row stage succeed.  Whenever one of these other allocations
fails, the function does return `PARU_OUT_OF_MEMORY`, and no slot of `Sx`,
`Sux` or `Slx` has been written. -/
theorem C11_cSp_failure_not_reported :
    paru_init_rowFronts allocNoCSp lacZero exA exSym ctlPlain = Outcome.undefined ∧
    (∀ (alloc : AllocOutcomes) (lac_el : (Int → Option paru_element) → Int → Int)
        (A : cholmod_sparse) (Sym : ParU_Symbolic) (Control : ParU_Control),
      preStageAllocated { alloc with cSp := true } Sym Control → alloc.cSp = false →
      paru_init_rowFronts alloc lac_el A Sym Control = Outcome.undefined) ∧
    (∀ (alloc : AllocOutcomes) (lac_el : (Int → Option paru_element) → Int → Int)
        (A : cholmod_sparse) (Sym : ParU_Symbolic) (Control : ParU_Control),
      ¬ preStageAllocated { alloc with cSp := true } Sym Control →
      ∃ Num_handle Work,
        paru_init_rowFronts alloc lac_el A Sym Control =
          Outcome.returned ParU_Info.PARU_OUT_OF_MEMORY Num_handle Work ∧
        ∀ Num, Num_handle = some Num →
          unwritten Num.Sx ∧ unwritten Num.Sux ∧ unwritten Num.Slx) := by
  have gen : ∀ (alloc : AllocOutcomes) (lac_el : (Int → Option paru_element) → Int → Int)
      (A : cholmod_sparse) (Sym : ParU_Symbolic) (Control : ParU_Control),
      preStageAllocated { alloc with cSp := true } Sym Control → alloc.cSp = false →
      paru_init_rowFronts alloc lac_el A Sym Control = Outcome.undefined := by
    intro alloc lac_el A Sym Control hpre hc
    rcases init_checks alloc lac_el A Sym Control with ⟨hn, _⟩ | ⟨_, e⟩
    · exact absurd hpre hn
    · rw [e]
      unfold initNumerics
      rw [if_pos hc]
  refine ⟨gen _ _ _ _ _ (preStageAllocated_allocAll exSym ctlPlain) rfl, gen, ?_⟩
  intro alloc lac_el A Sym Control hn
  rcases init_checks alloc lac_el A Sym Control with ⟨_, h⟩ | ⟨hpre, _⟩
  · exact h
  · exact absurd hpre hn

/-- C12 (non-aborting aggregation).  Let `row2atree` be one-to-one on the
rows `0..m-1` and let `lac_el` look at the element it is asked about only.
Take a run in which the allocation of the element of row `r0` fails and no
other allocation does, and the run on the same input in which no allocation
fails; the allocation of an element being made means that the allocations
before the per-row stage succeeded and that the matrix was not found
singular.  If the two runs return, the first returns `PARU_OUT_OF_MEMORY`,
the second `PARU_SUCCESS`, and every row other than `r0` ends in both with
the same degree bound, tuple list, element, mark, heap and least active
column: those of a row whose unit is complete. -/
theorem C12_non_aborting_aggregation {alloc alloc' : AllocOutcomes}
    {lac_el : (Int → Option paru_element) → Int → Int}
    {A : cholmod_sparse} {Sym : ParU_Symbolic} {Control : ParU_Control} (r0 : Int)
    {info info' : ParU_Info} {Num_handle Num_handle' : Option ParU_Numeric}
    {Work Work' : paru_work}
    (hlac : lacLocal lac_el)
    (hinj : ∀ a, 0 ≤ a → a < Sym.m - Sym.n1 → ∀ b, 0 ≤ b → b < Sym.m - Sym.n1 →
      Sym.row2atree a = Sym.row2atree b → a = b)
    (h0 : 0 ≤ r0) (h1 : r0 < Sym.m - Sym.n1)
    (hpre : preStageAllocated alloc Sym Control)
    (hpre' : preStageAllocated alloc' Sym Control)
    (hns : ¬ foundSingular A Sym Control)
    (hfail : alloc.element r0 = false)
    (hothers : ∀ r, 0 ≤ r → r < Sym.m - Sym.n1 → r ≠ r0 → rowFails alloc r = false)
    (hall' : ∀ r, 0 ≤ r → r < Sym.m - Sym.n1 → rowFails alloc' r = false)
    (hr : paru_init_rowFronts alloc lac_el A Sym Control =
      Outcome.returned info Num_handle Work)
    (hr' : paru_init_rowFronts alloc' lac_el A Sym Control =
      Outcome.returned info' Num_handle' Work') :
    info = ParU_Info.PARU_OUT_OF_MEMORY ∧ info' = ParU_Info.PARU_SUCCESS ∧
    ∀ r, 0 ≤ r → r < Sym.m - Sym.n1 → r ≠ r0 →
      rowSlots Sym (rowStageInit Work) r = rowSlots Sym (rowStageInit Work') r ∧
      rowSlots Sym (rowStageInit Work') r =
        doneSlots lac_el Sym (interiorValues A Sym Control) r := by
  obtain ⟨_, hdef, hi, _, hW⟩ := init_returned hpre hns hr
  obtain ⟨_, _, hi', _, hW'⟩ := init_returned hpre' hns hr'
  have hnf : Sym.nf ≠ 0 := fun q => by have := hdef q; omega
  have i1 : finalInfo (rowStage alloc lac_el Sym (interiorValues A Sym Control)
      (Sym.m - Sym.n1) (rowStageInit workNull)).out_of_memory =
        ParU_Info.PARU_OUT_OF_MEMORY :=
    (finalInfo_rowStage alloc lac_el Sym _).1.mpr ⟨r0, h0, h1, by simp [rowFails, hfail]⟩
  have i2 : finalInfo (rowStage alloc' lac_el Sym (interiorValues A Sym Control)
      (Sym.m - Sym.n1) (rowStageInit workNull)).out_of_memory = ParU_Info.PARU_SUCCESS :=
    (finalInfo_rowStage alloc' lac_el Sym _).2.mpr
      (fun ⟨r, a, b, c⟩ => by rw [hall' r a b] at c; cases c)
  refine ⟨hi.trans i1, hi'.trans i2, ?_⟩
  intro r a b hne
  have inj : ∀ x ∈ loopRange 0 (Sym.m - Sym.n1),
      Sym.row2atree x = Sym.row2atree r → x = r :=
    fun x hx e => hinj x (mem_loopRange.mp hx).1 (mem_loopRange.mp hx).2 r a b e
  have d1 := rowStage_rowSlots_done alloc hlac Sym (interiorValues A Sym Control)
    (loopRange 0 (Sym.m - Sym.n1)) (rowStageInit workNull) r
    (Or.inr (mem_loopRange.mpr ⟨a, b⟩)) (hothers r a b hne) inj
  have d2 := rowStage_rowSlots_done alloc' hlac Sym (interiorValues A Sym Control)
    (loopRange 0 (Sym.m - Sym.n1)) (rowStageInit workNull) r
    (Or.inr (mem_loopRange.mpr ⟨a, b⟩)) (hall' r a b) inj
  rw [hW, hW', rowSlots_workAfterRowStage Sym _ _ hnf, rowSlots_workAfterRowStage Sym _ _ hnf]
  exact ⟨d1.trans d2.symm, d2⟩

/-- Witness of C12 on the 3-by-3 matrix with entries `(0,0)`, `(0,1)`,
`(1,1)`, `(2,2)`: the allocation of the element of row 1 fails, both runs
return, and rows 0 and 2 end as in the run without failure. -/
theorem C12_non_aborting_aggregation_witness :
    allocNoElement1.element 1 = false ∧
    ∃ Num_handle Work Num_handle' Work',
      paru_init_rowFronts allocNoElement1 lacZero c20A (c20Sym 1 (arr [0, 1, 2] 0)) ctlPlain =
        Outcome.returned ParU_Info.PARU_OUT_OF_MEMORY Num_handle Work ∧
      paru_init_rowFronts allocAll lacZero c20A (c20Sym 1 (arr [0, 1, 2] 0)) ctlPlain =
        Outcome.returned ParU_Info.PARU_SUCCESS Num_handle' Work' ∧
      ∀ r, 0 ≤ r → r < (c20Sym 1 (arr [0, 1, 2] 0)).m - (c20Sym 1 (arr [0, 1, 2] 0)).n1 →
        r ≠ 1 →
        rowSlots (c20Sym 1 (arr [0, 1, 2] 0)) (rowStageInit Work) r =
          rowSlots (c20Sym 1 (arr [0, 1, 2] 0)) (rowStageInit Work') r ∧
        rowSlots (c20Sym 1 (arr [0, 1, 2] 0)) (rowStageInit Work') r =
          doneSlots lacZero (c20Sym 1 (arr [0, 1, 2] 0))
            (interiorValues c20A (c20Sym 1 (arr [0, 1, 2] 0)) ctlPlain) r :=
  ⟨rfl, _, _, _, _,
    init_reached_failure lacZero c20A (preStageAllocated_allocNoElement1 _ ctlPlain)
      (by decide) (c20_splitPassNull _ _) (not_foundSingular_ctlPlain _ _)
      ⟨1, by decide, by decide, rfl⟩,
    init_reached_success lacZero c20A (preStageAllocated_allocAll _ ctlPlain)
      (by decide) (c20_splitPassNull _ _) (not_foundSingular_ctlPlain _ _)
      (fun r _ _ => rowFails_allocAll r),
    (C12_non_aborting_aggregation 1 lacLocal_lacZero c20_row2atree_injective
      (by decide) (by decide)
      (preStageAllocated_allocNoElement1 _ _) (preStageAllocated_allocAll _ _)
      (not_foundSingular_ctlPlain _ _) rfl
      (fun r _ _ hne => rowFails_allocNoElement1 r hne)
      (fun r _ _ => rowFails_allocAll r)
      (init_reached_failure lacZero c20A (preStageAllocated_allocNoElement1 _ ctlPlain)
        (by decide) (c20_splitPassNull _ _) (not_foundSingular_ctlPlain _ _)
        ⟨1, by decide, by decide, rfl⟩)
      (init_reached_success lacZero c20A (preStageAllocated_allocAll _ ctlPlain)
        (by decide) (c20_splitPassNull _ _) (not_foundSingular_ctlPlain _ _)
        (fun r _ _ => rowFails_allocAll r))).2.2⟩

/-- C13 (a singular matrix short-circuits the initialisation).  Whenever
the function returns `PARU_SINGULAR`, the numeric object exists with
`res = PARU_SINGULAR`, no slot of `Sx`, `Sux` or `Slx` has been written,
every entry of `elementList` and `heapList` is null, every entry of
`RowList` is zero, and no entry of the diagonal map or of its inverse has
been written (an array that was not allocated has no entry). -/
theorem C13_singular_short_circuit {alloc : AllocOutcomes}
    {lac_el : (Int → Option paru_element) → Int → Int}
    {A : cholmod_sparse} {Sym : ParU_Symbolic} {Control : ParU_Control}
    {Num_handle : Option ParU_Numeric} {Work : paru_work}
    (h : paru_init_rowFronts alloc lac_el A Sym Control =
      Outcome.returned ParU_Info.PARU_SINGULAR Num_handle Work) :
    (∃ Num, Num_handle = some Num ∧ Num.res = ParU_Info.PARU_SINGULAR ∧
      unwritten Num.Sx ∧ unwritten Num.Sux ∧ unwritten Num.Slx) ∧
    (∀ EL, Work.elementList = some EL → ∀ k, EL k = none) ∧
    (∀ HL, Work.heapList = some HL → ∀ k, HL k = none) ∧
    (∀ RL, Work.RowList = some RL →
      ∀ k, RL k = { numTuple := 0, len := 0, list := none }) ∧
    unwritten Work.Diag_map ∧ unwritten Work.inv_Diag_map := by
  obtain ⟨hN, hW⟩ := init_singular_form h
  obtain ⟨_, a2, _, a4, a5, _⟩ := workAfterMemset_arrays alloc Sym
  obtain ⟨d1, d2⟩ := workAfterMemset_Diag_map alloc Sym
  refine ⟨⟨_, hN, rfl, numAfterRs_unwritten alloc Sym Control⟩, ?_, ?_, ?_, ?_, ?_⟩
  · intro EL hE k
    rw [hW, a2] at hE
    split_ifs at hE
    cases hx : alloc.elementList <;> simp [PARU_CALLOC, hx] at hE
    rw [← hE]
  · intro HL hH k
    rw [hW, a4] at hH
    split_ifs at hH
    cases hx : alloc.heapList <;> simp [PARU_CALLOC, hx] at hH
    rw [← hH]
  · intro RL hR k
    rw [hW, a5] at hR
    split_ifs at hR
    cases hx : alloc.RowList <;> simp [PARU_CALLOC, hx] at hR
    rw [← hR]
  · rw [hW, d1]
    split_ifs
    · exact unwritten_PARU_MALLOC _
    · exact unwritten_none
  · rw [hW, d2]
    split_ifs
    · exact unwritten_PARU_MALLOC _
    · exact unwritten_none

/-- Witness of C13: with scaling enabled, the matrix `[3 1; 0 0]` without
singletons is returned as singular. -/
theorem C13_singular_short_circuit_witness :
    ∃ Num_handle Work,
      paru_init_rowFronts allocAll lacZero c5A c13Sym ctlScaled =
        Outcome.returned ParU_Info.PARU_SINGULAR Num_handle Work ∧
      (∃ Num, Num_handle = some Num ∧ Num.res = ParU_Info.PARU_SINGULAR ∧
        unwritten Num.Sx ∧ unwritten Num.Sux ∧ unwritten Num.Slx) ∧
      (∀ EL, Work.elementList = some EL → ∀ k, EL k = none) ∧
      (∀ HL, Work.heapList = some HL → ∀ k, HL k = none) ∧
      (∀ RL, Work.RowList = some RL →
        ∀ k, RL k = { numTuple := 0, len := 0, list := none }) ∧
      unwritten Work.Diag_map ∧ unwritten Work.inv_Diag_map :=
  ⟨_, _, init_eq_singular lacZero c5A (preStageAllocated_allocAll c13Sym ctlScaled)
      c13_foundSingular,
    C13_singular_short_circuit
      (init_eq_singular lacZero c5A (preStageAllocated_allocAll c13Sym ctlScaled)
        c13_foundSingular)⟩

/-- C14 (diagonal map inverse law).  For a diagonal map `Sym->Diag_map`
that is a permutation of `0..n-1`, the loop of lines 421-425 run from any
state leaves `Diag_map[i] = Sym->Diag_map[i]` and
`inv_Diag_map[Diag_map[i]] = i` for every `i` with `0 <= i < n`.  Under the
symmetric strategy with `nf != 0`, a call that returns after reaching the
loop (every allocation before the per-row stage succeeds and the matrix is
not found singular) leaves `Work->Diag_map` and `Work->inv_Diag_map` with
these entries. -/
theorem C14_diag_map_inverse_law {alloc : AllocOutcomes}
    {lac_el : (Int → Option paru_element) → Int → Int}
    {A : cholmod_sparse} {Sym : ParU_Symbolic} {Control : ParU_Control}
    {info : ParU_Info} {Num_handle : Option ParU_Numeric} {Work : paru_work}
    (hpre : preStageAllocated alloc Sym Control) (hns : ¬ foundSingular A Sym Control)
    (hnf : Sym.nf ≠ 0) (hs : Sym.symmetric = true) (hperm : IsPerm Sym.Diag_map Sym.n)
    (h : paru_init_rowFronts alloc lac_el A Sym Control =
      Outcome.returned info Num_handle Work) :
    (∀ (D0 : (Int → Option Int) × (Int → Option Int)) (i : Int), 0 ≤ i → i < Sym.n →
      (diagMapLoop Sym D0).1 i = some (Sym.Diag_map i) ∧
      (diagMapLoop Sym D0).2 (Sym.Diag_map i) = some i) ∧
    ∃ D I,
      Work.Diag_map = some D ∧ Work.inv_Diag_map = some I ∧
      ∀ i, 0 ≤ i → i < Sym.n →
        D i = some (Sym.Diag_map i) ∧ I (Sym.Diag_map i) = some i := by
  obtain ⟨m1, m2⟩ := workDiagMap_symmetric hpre hnf hs
  obtain ⟨_, _, _, _, hW⟩ := init_returned hpre hns h
  refine ⟨fun D0 i h0 h1 => diagMapLoop_spec Sym D0 hperm.2 i h0 h1, _, _,
    by rw [hW]; exact (workAfterRowStage_Diag_map Sym _ _).1.trans m1,
    by rw [hW]; exact (workAfterRowStage_Diag_map Sym _ _).2.trans m2, ?_⟩
  intro i h0 h1
  exact diagMapLoop_spec Sym _ hperm.2 i h0 h1

/-- Witness of C14 on the 3-by-3 example under the symmetric strategy with
the diagonal map `[1, 0, 2]`. -/
theorem C14_diag_map_inverse_law_witness :
    c14Sym.nf ≠ 0 ∧ c14Sym.symmetric = true ∧ IsPerm c14Sym.Diag_map c14Sym.n ∧
    ∃ Num_handle Work,
      paru_init_rowFronts allocAll lacZero exA c14Sym ctlPlain =
        Outcome.returned ParU_Info.PARU_SUCCESS Num_handle Work ∧
      ∃ D I,
        Work.Diag_map = some D ∧ Work.inv_Diag_map = some I ∧
        ∀ i, 0 ≤ i → i < c14Sym.n →
          D i = some (c14Sym.Diag_map i) ∧ I (c14Sym.Diag_map i) = some i :=
  ⟨by decide, rfl, c14_isPerm, _, _,
    init_allocAll_success lacZero exA c14Sym ctlPlain (by decide) (by decide)
      (not_foundSingular_ctlPlain _ _),
    (C14_diag_map_inverse_law (preStageAllocated_allocAll _ _)
      (not_foundSingular_ctlPlain _ _) (by decide) rfl c14_isPerm
      (init_allocAll_success lacZero exA c14Sym ctlPlain (by decide) (by decide)
        (not_foundSingular_ctlPlain _ _))).2⟩

/-- C15 (the diagonal map and its inverse are mutually inverse
bijections).  Each iteration `i` of the loop of lines 421-425 writes one
entry of `inv_Diag_map`, at the index it reads from `Diag_map[i]`, and for a
diagonal map that is a permutation of `0..n-1` the indices written by the
loop, run from any state, are the indices `0..n-1`, each exactly once.  Under
the symmetric strategy with `nf != 0`, a call that returns after reaching the
loop leaves `inv_Diag_map` sending every `j` with `0 <= j < n` to an index
`i` with `0 <= i < n` and `Work->Diag_map[i] = j`, and `inv_Diag_map` is
one-to-one on `0..n-1`. -/
theorem C15_diag_map_bijection {alloc : AllocOutcomes}
    {lac_el : (Int → Option paru_element) → Int → Int}
    {A : cholmod_sparse} {Sym : ParU_Symbolic} {Control : ParU_Control}
    {info : ParU_Info} {Num_handle : Option ParU_Numeric} {Work : paru_work}
    (hpre : preStageAllocated alloc Sym Control) (hns : ¬ foundSingular A Sym Control)
    (hnf : Sym.nf ≠ 0) (hs : Sym.symmetric = true) (hperm : IsPerm Sym.Diag_map Sym.n)
    (h : paru_init_rowFronts alloc lac_el A Sym Control =
      Outcome.returned info Num_handle Work) :
    (∀ (D0 : (Int → Option Int) × (Int → Option Int)) (i j : Int),
      (diagMapStep Sym D0 i).2 j =
        if j = invDiagSlot Sym D0 i then some i else D0.2 j) ∧
    (∀ D0 : (Int → Option Int) × (Int → Option Int),
      (invDiagLog Sym D0).Perm (loopRange 0 Sym.n) ∧
      (∀ j, 0 ≤ j → j < Sym.n → (invDiagLog Sym D0).count j = 1) ∧
      (∀ j, j ∈ invDiagLog Sym D0 → 0 ≤ j ∧ j < Sym.n)) ∧
    ∃ D I,
      Work.Diag_map = some D ∧ Work.inv_Diag_map = some I ∧
      (∀ j, 0 ≤ j → j < Sym.n →
        ∃ i, 0 ≤ i ∧ i < Sym.n ∧ I j = some i ∧ D i = some j) ∧
      (∀ j, 0 ≤ j → j < Sym.n → ∀ k, 0 ≤ k → k < Sym.n → I j = I k → j = k) := by
  obtain ⟨m1, m2⟩ := workDiagMap_symmetric hpre hnf hs
  obtain ⟨_, _, _, _, hW⟩ := init_returned hpre hns h
  have key : ∀ j, 0 ≤ j → j < Sym.n →
      ∃ i, 0 ≤ i ∧ i < Sym.n ∧
        (diagMapLoop Sym (fun _ => none, fun _ => none)).2 j = some i ∧
        (diagMapLoop Sym (fun _ => none, fun _ => none)).1 i = some j := by
    intro j h0 h1
    obtain ⟨i, i0, i1, e⟩ := isPerm_surjective hperm h0 h1
    obtain ⟨s1, s2⟩ := diagMapLoop_spec Sym (fun _ => none, fun _ => none) hperm.2 i i0 i1
    rw [e] at s1 s2
    exact ⟨i, i0, i1, s2, s1⟩
  refine ⟨fun D0 i j => (diagMapStep_writes Sym D0 i j).2, ?_, _, _,
    by rw [hW]; exact (workAfterRowStage_Diag_map Sym _ _).1.trans m1,
    by rw [hW]; exact (workAfterRowStage_Diag_map Sym _ _).2.trans m2, key, ?_⟩
  · intro D0
    have hp := invDiagLog_perm hperm D0
    refine ⟨hp, ?_, ?_⟩
    · intro j j0 j1
      rw [hp.count_eq]
      exact List.count_eq_one_of_mem (loopRange_nodup 0 Sym.n) (mem_loopRange.mpr ⟨j0, j1⟩)
    · intro j hj
      exact mem_loopRange.mp (hp.mem_iff.mp hj)
  · intro j j0 j1 k k0 k1 e
    obtain ⟨i, _, _, a, b⟩ := key j j0 j1
    obtain ⟨i', _, _, a', b'⟩ := key k k0 k1
    rw [a, a'] at e
    injection e with e
    rw [e, b'] at b
    injection b with b
    exact b.symm

/-- Witness of C15 on the 3-by-3 example under the symmetric strategy with
the diagonal map `[1, 0, 2]`: the loop writes the entries 1, 0, 2 of
`inv_Diag_map`, in this order. -/
theorem C15_diag_map_bijection_witness :
    c14Sym.nf ≠ 0 ∧ c14Sym.symmetric = true ∧ IsPerm c14Sym.Diag_map c14Sym.n ∧
    invDiagLog c14Sym (fun _ => none, fun _ => none) = [1, 0, 2] ∧
    (invDiagLog c14Sym (fun _ => none, fun _ => none)).Perm (loopRange 0 c14Sym.n) :=
  ⟨by decide, rfl, c14_isPerm, by decide,
    ((C15_diag_map_bijection (preStageAllocated_allocAll _ _)
      (not_foundSingular_ctlPlain _ _) (by decide) rfl c14_isPerm
      (init_allocAll_success lacZero exA c14Sym ctlPlain (by decide) (by decide)
        (not_foundSingular_ctlPlain _ _))).2.1 (fun _ => none, fun _ => none)).1⟩

/-- C17 (heap seeding).  Whenever the function returns `PARU_SUCCESS`, for
every row `r` with `0 <= r < m` the heap `heapList[e]` with
`e = row2atree[r]` holds exactly one entry, `e` itself, and `heapList[k]`
is null for every id `k` that is not the element id of a row.  (This holds
whether or not `row2atree` is one-to-one.) -/
theorem C17_heap_seeding {alloc : AllocOutcomes}
    {lac_el : (Int → Option paru_element) → Int → Int}
    {A : cholmod_sparse} {Sym : ParU_Symbolic} {Control : ParU_Control}
    {Num_handle : Option ParU_Numeric} {Work : paru_work}
    (h : paru_init_rowFronts alloc lac_el A Sym Control =
      Outcome.returned ParU_Info.PARU_SUCCESS Num_handle Work) :
    (∀ r, 0 ≤ r → r < Sym.m - Sym.n1 →
      ∃ heapList, Work.heapList = some heapList ∧
        heapList (Sym.row2atree r) = some [Sym.row2atree r]) ∧
    (∀ heapList, Work.heapList = some heapList →
      ∀ k, (∀ r, 0 ≤ r → r < Sym.m - Sym.n1 → Sym.row2atree r ≠ k) →
        heapList k = none) := by
  obtain ⟨hpre, hns, hdef, hok⟩ := init_success_pre h
  obtain ⟨_, _, _, _, hW⟩ := init_returned hpre hns h
  constructor
  · intro r h0 h1
    have hnf : Sym.nf ≠ 0 := fun q => by have := hdef q; omega
    refine ⟨_, by rw [hW]; exact (workAfterRowStage_arrays Sym _ _ hnf).2.2.2.1, ?_⟩
    exact rowStage_heapList alloc lac_el Sym (interiorValues A Sym Control)
      (loopRange 0 (Sym.m - Sym.n1)) (rowStageInit workNull) r
      (Or.inr (mem_loopRange.mpr ⟨h0, h1⟩))
      (fun a ha => hok a (mem_loopRange.mp ha).1 (mem_loopRange.mp ha).2)
  · intro HL hH k hk
    by_cases hnf : Sym.nf = 0
    · rw [hW] at hH
      unfold workAfterRowStage at hH
      rw [if_pos hnf, ← workDiagMap_heapList, (workAfterMemset_arrays alloc Sym).2.2.2.1,
        if_neg (by simpa using hnf)] at hH
      cases hH
    · rw [hW, (workAfterRowStage_arrays Sym _ _ hnf).2.2.2.1] at hH
      injection hH with hH
      rw [← hH]
      exact (rowStage_elem_frame alloc lac_el Sym (interiorValues A Sym Control)
        (loopRange 0 (Sym.m - Sym.n1)) (rowStageInit workNull)
        (fun a ha => hk a (mem_loopRange.mp ha).1 (mem_loopRange.mp ha).2)).2.2.1

/-- Witness of C17 on the 3-by-3 matrix with entries `(0,0)`, `(0,1)`,
`(1,1)`, `(2,2)` and every allocation succeeding. -/
theorem C17_heap_seeding_witness :
    ∃ Num_handle Work,
      paru_init_rowFronts allocAll lacZero c20A (c20Sym 1 (arr [0, 1, 2] 0)) ctlPlain =
        Outcome.returned ParU_Info.PARU_SUCCESS Num_handle Work ∧
      (∀ r, 0 ≤ r → r < (c20Sym 1 (arr [0, 1, 2] 0)).m - (c20Sym 1 (arr [0, 1, 2] 0)).n1 →
        ∃ heapList, Work.heapList = some heapList ∧
          heapList ((c20Sym 1 (arr [0, 1, 2] 0)).row2atree r) =
            some [(c20Sym 1 (arr [0, 1, 2] 0)).row2atree r]) ∧
      (∀ heapList, Work.heapList = some heapList →
        ∀ k, (∀ r, 0 ≤ r →
            r < (c20Sym 1 (arr [0, 1, 2] 0)).m - (c20Sym 1 (arr [0, 1, 2] 0)).n1 →
            (c20Sym 1 (arr [0, 1, 2] 0)).row2atree r ≠ k) →
          heapList k = none) :=
  ⟨_, _, init_allocAll_success lacZero c20A (c20Sym 1 (arr [0, 1, 2] 0)) ctlPlain (by decide) (by decide)
      (not_foundSingular_ctlPlain _ _),
    C17_heap_seeding
      (init_allocAll_success lacZero c20A (c20Sym 1 (arr [0, 1, 2] 0)) ctlPlain (by decide) (by decide)
        (not_foundSingular_ctlPlain _ _))⟩

/-- C18 (determinism under the scheduling order).  Let `row2atree` be
one-to-one on the rows `0..m-1`, let `lac_el` look at the element it is asked
about only, and let the outcome of the allocations of a row depend on the row
only.  The unit of row `a` leaves every entry indexed by a row other than
`a` and every entry indexed by an element id other than `row2atree[a]`.
Running the units of the `m` rows in any order gives the state given by the
index order: degree bounds, elements, marks, heaps, tuple lists, least active
columns and failure count.  Hence a call that returns after reaching the
per-row stage returns the status, the interior values and the arrays that the
units give in any order. -/
theorem C18_schedule_independence (alloc : AllocOutcomes)
    (lac_el : (Int → Option paru_element) → Int → Int)
    (A : cholmod_sparse) (Sym : ParU_Symbolic) (Control : ParU_Control)
    (hlac : lacLocal lac_el)
    (hinj : ∀ a, 0 ≤ a → a < Sym.m - Sym.n1 → ∀ b, 0 ≤ b → b < Sym.m - Sym.n1 →
      Sym.row2atree a = Sym.row2atree b → a = b) :
    (∀ (Sx : Int → Option ℚ) (W : RowStage) (a k : Int), k ≠ a →
      (rowUnit alloc lac_el Sym Sx W a).row_degree_bound k = W.row_degree_bound k ∧
      (rowUnit alloc lac_el Sym Sx W a).RowList k = W.RowList k) ∧
    (∀ (Sx : Int → Option ℚ) (W : RowStage) (a e : Int), e ≠ Sym.row2atree a →
      (rowUnit alloc lac_el Sym Sx W a).elementList e = W.elementList e ∧
      (rowUnit alloc lac_el Sym Sx W a).rowMark e = W.rowMark e ∧
      (rowUnit alloc lac_el Sym Sx W a).heapList e = W.heapList e ∧
      (rowUnit alloc lac_el Sym Sx W a).lacList e = W.lacList e) ∧
    (∀ (Sx : Int → Option ℚ) (W : RowStage) (L : List Int),
      L.Perm (loopRange 0 (Sym.m - Sym.n1)) →
      L.foldl (rowUnit alloc lac_el Sym Sx) W =
        rowStage alloc lac_el Sym Sx (Sym.m - Sym.n1) W) ∧
    (∀ (L : List Int), L.Perm (loopRange 0 (Sym.m - Sym.n1)) →
      preStageAllocated alloc Sym Control → ¬ foundSingular A Sym Control → Sym.nf ≠ 0 →
      ∀ info Num_handle Work,
        paru_init_rowFronts alloc lac_el A Sym Control =
          Outcome.returned info Num_handle Work →
        info = finalInfo (L.foldl (rowUnit alloc lac_el Sym (interiorValues A Sym Control))
          (rowStageInit workNull)).out_of_memory ∧
        (∃ Num, Num_handle = some Num ∧ Num.Sx = some (interiorValues A Sym Control)) ∧
        rowStageInit Work =
          { L.foldl (rowUnit alloc lac_el Sym (interiorValues A Sym Control))
              (rowStageInit workNull) with out_of_memory := 0 }) := by
  have perm : ∀ (Sx : Int → Option ℚ) (W : RowStage) (L : List Int),
      L.Perm (loopRange 0 (Sym.m - Sym.n1)) →
      L.foldl (rowUnit alloc lac_el Sym Sx) W =
        rowStage alloc lac_el Sym Sx (Sym.m - Sym.n1) W := by
    intro Sx W L hL
    unfold rowStage
    apply rowStage_perm alloc hlac Sym Sx W hL
    intro a ha b hb e
    have ha' := mem_loopRange.mp (hL.mem_iff.mp ha)
    have hb' := mem_loopRange.mp (hL.mem_iff.mp hb)
    exact hinj a ha'.1 ha'.2 b hb'.1 hb'.2 e
  refine ⟨fun Sx W a k h => rowUnit_row_frame alloc lac_el Sym Sx W h,
    fun Sx W a e h => rowUnit_elem_frame alloc lac_el Sym Sx W h, perm, ?_⟩
  intro L hL hpre hns hnf info Num_handle Work h
  rw [perm _ _ L hL]
  obtain ⟨_, _, hi, hN, hW⟩ := init_returned hpre hns h
  refine ⟨hi, ⟨_, hN, numSplit_Sx_of_pre A hpre⟩, ?_⟩
  rw [hW]
  unfold workAfterRowStage
  rw [if_neg hnf]
  rfl

/-- Witness of C18 on the 3-by-3 matrix with entries `(0,0)`, `(0,1)`,
`(1,1)`, `(2,2)`: the rows taken in the order 2, 0, 1. -/
theorem C18_schedule_independence_witness :
    lacLocal lacZero ∧
    ∀ (Sx : Int → Option ℚ) (W : RowStage),
      [2, 0, 1].foldl (rowUnit allocNoElement1 lacZero (c20Sym 1 (arr [0, 1, 2] 0)) Sx) W =
        rowStage allocNoElement1 lacZero (c20Sym 1 (arr [0, 1, 2] 0)) Sx
          ((c20Sym 1 (arr [0, 1, 2] 0)).m - (c20Sym 1 (arr [0, 1, 2] 0)).n1) W :=
  ⟨lacLocal_lacZero, fun Sx W =>
    (C18_schedule_independence allocNoElement1 lacZero c20A (c20Sym 1 (arr [0, 1, 2] 0))
      ctlPlain lacLocal_lacZero c20_row2atree_injective).2.2.1 Sx W [2, 0, 1] c20_perm⟩

/-- C19 (the region is a function of the permuted position).  For the
entry at position `p` met in permuted column `newcol`, with
`newrow = Pinv[Ai[p]]`, there is one array among `Sx`, `Sux`, `Slx`, given
by `newrow`, `newcol`, `n1` and `cs1` alone, such that in every state and
with or without scaling the step of the second pass writes one slot of that
array and nothing else: `Sx` if and only if `newrow >= n1` and
`newcol >= n1`; `Sux` if and only if `newrow < n1` and `newcol >= n1`, or
`newcol < n1` and `newrow < cs1`; `Slx` if and only if `newcol < n1` and
`newrow >= cs1`. -/
theorem C19_region_by_position (A : cholmod_sparse) (Sym : ParU_Symbolic) (v : Visit) :
    ∃ reg : Region,
      (reg = Region.Sx ↔ Sym.n1 ≤ Sym.Pinv (A.i v.p) ∧ Sym.n1 ≤ v.newcol) ∧
      (reg = Region.Sux ↔
        (Sym.Pinv (A.i v.p) < Sym.n1 ∧ Sym.n1 ≤ v.newcol) ∨
        (v.newcol < Sym.n1 ∧ Sym.Pinv (A.i v.p) < Sym.cs1)) ∧
      (reg = Region.Slx ↔ v.newcol < Sym.n1 ∧ Sym.cs1 ≤ Sym.Pinv (A.i v.p)) ∧
      ∀ (Rs : Option (Int → ℚ)) (st : SplitState), ∃ i : Int, ∀ (reg' : Region) (j : Int),
        content (splitStep A Sym Rs st v) reg' j =
          if (reg', j) = (reg, i) then some (scaledValue A Rs v.p) else content st reg' j := by
  refine ⟨(target A Sym v).region, ?_, ?_, ?_, ?_⟩
  · unfold target
    simp only []
    split_ifs <;> simp <;> omega
  · unfold target
    simp only []
    split_ifs <;> simp <;> omega
  · unfold target
    simp only []
    split_ifs <;> simp <;> omega
  · intro Rs st
    exact ⟨writeIndex Sym st (target A Sym v),
      fun reg' j => content_splitStep A Sym Rs st v reg' j⟩

/-- C20 (worked 3-by-3 scenario).  For the matrix with entries
`(0,0) = 4`, `(0,1) = 1`, `(1,1) = 3`, `(2,2) = 5`, identity permutations,
no singletons, `Sp = [0,2,3,4]`, `Sj = [0,1,1,2]`, scaling disabled,
`nf >= 1`, a map `row2atree` one-to-one on the three rows and every
allocation succeeding, the function returns `PARU_SUCCESS`;
`Sx = [4,1,3,5]`; the elements present are those of the three rows, with
column counts 2, 1, 1 and the row indices 0, 1, 2 after the column indices;
and each of the three tuple lists holds one tuple, that of the element of the
row. -/
theorem C20_worked_scenario (nf : Int) (t : Int → Int)
    (lac_el : (Int → Option paru_element) → Int → Int) (hnf : 1 ≤ nf)
    (hinj : ∀ a, 0 ≤ a → a < 3 → ∀ b, 0 ≤ b → b < 3 → t a = t b → a = b) :
    ∃ Num Work Sx elementList RowList,
      paru_init_rowFronts allocAll lac_el c20A (c20Sym nf t) ctlPlain =
        Outcome.returned ParU_Info.PARU_SUCCESS (some Num) Work ∧
      Num.Sx = some Sx ∧
      Sx 0 = some 4 ∧ Sx 1 = some 1 ∧ Sx 2 = some 3 ∧ Sx 3 = some 5 ∧
      Work.elementList = some elementList ∧
      (∀ k, (elementList k).isSome ↔ k = t 0 ∨ k = t 1 ∨ k = t 2) ∧
      (∃ el, elementList (t 0) = some el ∧ el.nrows = 1 ∧ el.ncols = 2 ∧
        el.colrowIndex 2 = some 0) ∧
      (∃ el, elementList (t 1) = some el ∧ el.nrows = 1 ∧ el.ncols = 1 ∧
        el.colrowIndex 1 = some 1) ∧
      (∃ el, elementList (t 2) = some el ∧ el.nrows = 1 ∧ el.ncols = 1 ∧
        el.colrowIndex 1 = some 2) ∧
      Work.RowList = some RowList ∧
      ∀ r, 0 ≤ r → r < 3 →
        (RowList r).numTuple = 1 ∧
        ∃ l, (RowList r).list = some l ∧ l 0 = some { e := t r, f := 0 } := by
  have hnf0 : (c20Sym nf t).nf ≠ 0 := by
    show nf ≠ 0
    omega
  have hpre := preStageAllocated_allocAll (c20Sym nf t) ctlPlain
  obtain ⟨x0, x1, x2, x3⟩ := c20_interiorValues nf t
  obtain ⟨_, wE, _, _, wR, _⟩ := workAfterRowStage_arrays (c20Sym nf t)
    (workDiagMap (c20Sym nf t) (workAfterMemset allocAll (c20Sym nf t)))
    (rowStage allocAll lac_el (c20Sym nf t) (interiorValues c20A (c20Sym nf t) ctlPlain)
      ((c20Sym nf t).m - (c20Sym nf t).n1) (rowStageInit workNull)) hnf0
  have hmem : ∀ r, r ∈ [(0 : Int), 1, 2] ↔ 0 ≤ r ∧ r < 3 := by
    intro r
    simp only [List.mem_cons, List.mem_singleton, List.not_mem_nil, or_false]
    omega
  have hel : ∀ r, 0 ≤ r → r < 3 →
      (rowStage allocAll lac_el (c20Sym nf t) (interiorValues c20A (c20Sym nf t) ctlPlain)
        ((c20Sym nf t).m - (c20Sym nf t).n1) (rowStageInit workNull)).elementList (t r) =
        some (initialElement (c20Sym nf t) (interiorValues c20A (c20Sym nf t) ctlPlain) r) := by
    intro r h0 h1
    unfold rowStage
    rw [c20_rows]
    exact rowStage_elementList allocAll lac_el (c20Sym nf t) _ [0, 1, 2] _ r
      (Or.inr ((hmem r).mpr ⟨h0, h1⟩)) (fun r' _ => rowFails_allocAll r')
      (fun r' hr' e => hinj r' ((hmem r').mp hr').1 ((hmem r').mp hr').2 r h0 h1 e)
  have hrl : ∀ r, 0 ≤ r → r < 3 →
      (rowStage allocAll lac_el (c20Sym nf t) (interiorValues c20A (c20Sym nf t) ctlPlain)
        ((c20Sym nf t).m - (c20Sym nf t).n1) (rowStageInit workNull)).RowList r =
        initialTupleList (t r) := by
    intro r h0 h1
    unfold rowStage
    rw [c20_rows]
    exact rowStage_RowList allocAll lac_el (c20Sym nf t) _ [0, 1, 2] _ r
      (Or.inr ((hmem r).mpr ⟨h0, h1⟩)) (fun r' _ => rowFails_allocAll r')
  have shape : ∀ r, 0 ≤ r → r < 3 →
      (initialElement (c20Sym nf t) (interiorValues c20A (c20Sym nf t) ctlPlain) r).nrows = 1 ∧
      (initialElement (c20Sym nf t) (interiorValues c20A (c20Sym nf t) ctlPlain) r).ncols =
        (c20Sym nf t).Sp (r + 1) - (c20Sym nf t).Sp r ∧
      (initialElement (c20Sym nf t) (interiorValues c20A (c20Sym nf t) ctlPlain) r).colrowIndex
        ((((c20Sym nf t).Sp (r + 1) - (c20Sym nf t).Sp r).toNat : Nat) : Int) = some r := by
    intro r _ _
    obtain ⟨f1, f2, f3, _⟩ := fillElement_spec (c20Sym nf t).Sp (c20Sym nf t).Sj
      (interiorValues c20A (c20Sym nf t) ctlPlain) r
      { nrows := 1, ncols := (c20Sym nf t).Sp (r + 1) - (c20Sym nf t).Sp r,
        colrowIndex := fun _ => none, colrowNum := fun _ => none }
    exact ⟨f1, f2, f3⟩
  refine ⟨_, _, _, _, _,
    init_reached_success lac_el c20A hpre (fun e => absurd e hnf0)
      (c20_splitPassNull nf t) (not_foundSingular_ctlPlain _ _)
      (fun r _ _ => rowFails_allocAll r),
    numSplit_Sx_of_pre c20A hpre, x0, x1, x2, x3, wE, ?_,
    ⟨_, hel 0 (by decide) (by decide), (shape 0 (by decide) (by decide)).1,
      (shape 0 (by decide) (by decide)).2.1, (shape 0 (by decide) (by decide)).2.2⟩,
    ⟨_, hel 1 (by decide) (by decide), (shape 1 (by decide) (by decide)).1,
      (shape 1 (by decide) (by decide)).2.1, (shape 1 (by decide) (by decide)).2.2⟩,
    ⟨_, hel 2 (by decide) (by decide), (shape 2 (by decide) (by decide)).1,
      (shape 2 (by decide) (by decide)).2.1, (shape 2 (by decide) (by decide)).2.2⟩,
    wR, ?_⟩
  · intro k
    constructor
    · intro hk
      by_contra hn
      simp only [not_or] at hn
      have hfr := (rowStage_elem_frame allocAll lac_el (c20Sym nf t)
        (interiorValues c20A (c20Sym nf t) ctlPlain) [0, 1, 2] (rowStageInit workNull)
        (e := k) (by
          intro a ha
          simp only [List.mem_cons, List.mem_singleton, List.not_mem_nil, or_false] at ha
          rcases ha with rfl | rfl | rfl
          · exact fun e => hn.1 e.symm
          · exact fun e => hn.2.1 e.symm
          · exact fun e => hn.2.2 e.symm)).1
      unfold rowStage at hk
      rw [c20_rows, hfr] at hk
      simp [rowStageInit, workNull] at hk
    · rintro (rfl | rfl | rfl)
      · rw [hel 0 (by decide) (by decide)]; rfl
      · rw [hel 1 (by decide) (by decide)]; rfl
      · rw [hel 2 (by decide) (by decide)]; rfl
  · intro r h0 h1
    rw [hrl r h0 h1]
    exact ⟨rfl, _, rfl, by simp⟩

/-- Witness of C20 with `nf = 1` and the identity map from rows to
elements. -/
theorem C20_worked_scenario_witness :
    ∃ Num Work Sx elementList RowList,
      paru_init_rowFronts allocAll lacZero c20A (c20Sym 1 (arr [0, 1, 2] 0)) ctlPlain =
        Outcome.returned ParU_Info.PARU_SUCCESS (some Num) Work ∧
      Num.Sx = some Sx ∧
      Sx 0 = some 4 ∧ Sx 1 = some 1 ∧ Sx 2 = some 3 ∧ Sx 3 = some 5 ∧
      Work.elementList = some elementList ∧
      (∀ k, (elementList k).isSome ↔ k = 0 ∨ k = 1 ∨ k = 2) ∧
      (∃ el, elementList 0 = some el ∧ el.nrows = 1 ∧ el.ncols = 2 ∧
        el.colrowIndex 2 = some 0) ∧
      (∃ el, elementList 1 = some el ∧ el.nrows = 1 ∧ el.ncols = 1 ∧
        el.colrowIndex 1 = some 1) ∧
      (∃ el, elementList 2 = some el ∧ el.nrows = 1 ∧ el.ncols = 1 ∧
        el.colrowIndex 1 = some 2) ∧
      Work.RowList = some RowList ∧
      ∀ r, 0 ≤ r → r < 3 →
        (RowList r).numTuple = 1 ∧
        ∃ l, (RowList r).list = some l ∧
          l 0 = some { e := (arr [0, 1, 2] 0 : Int → Int) r, f := 0 } :=
  C20_worked_scenario 1 (arr [0, 1, 2] 0) lacZero (by decide) (by decide)

/-! ## The claims on cursors, scaling, failed rows and statuses -/

/-- C21 as stated fails: the 1-by-1 matrix whose column stores row 0
twice meets every stated assumption (permutations, `n1 = cs1 + rs1`, the
singleton has its diagonal entry, the segment of `Sup` has length 2, the
number of entries of the row), both entries are written to `Sux[Sup[0]]`,
and at the end `cSup[0]` is `Sup[0] = 0`, not `Sup[1] - 1 = 1`. -/
theorem C21_counterexample :
    ¬ (DupInput c21A c21Sym →
        ∀ k, 0 ≤ k → k < c21Sym.cs1 →
          (splitPass c21A c21Sym none (splitInit c21Sym)).cSup k =
            c21Sym.ustons_Sup (k + 1) - 1) := by
  intro h
  have h0 := h c21_dupInput 0 (by decide) (by decide)
  revert h0
  decide

/-- C21 amended (cursor writes stay inside their own segment).  Under the
stated assumptions and for a matrix without duplicate entries, with row
indices in range and `cs1, rs1 >= 0`: the step for every visit writes the
array of its region at an index inside the segment of its own row or column
(`Pinv[Ai[p]] - n1` for `Sx`, `Pinv[Ai[p]]` for `Sux`, `newcol - cs1` for
`Slx`), which is a row or column of the region; and at the end
`cSp[r] = Sp[r+1]`, `cSup[k] = Sup[k+1] - 1` and `cSlp[c] = Slp[c+1] - 1`. -/
theorem C21_cursor_writes_in_segment (A : cholmod_sparse) (Sym : ParU_Symbolic)
    (Rs : Option (Int → ℚ)) (hv : ValidInput A Sym) :
    (∀ pre v suf, visits A Sym = pre ++ v :: suf →
      (target A Sym v).key =
        (match (target A Sym v).region with
          | Region.Sx => Sym.Pinv (A.i v.p) - Sym.n1
          | Region.Sux => Sym.Pinv (A.i v.p)
          | Region.Slx => v.newcol - Sym.cs1) ∧
      0 ≤ (target A Sym v).key ∧ (target A Sym v).key < extent Sym (target A Sym v).region ∧
      (writeSlot A Sym (pre.foldl (splitStep A Sym Rs) (splitInit Sym)) v).1 =
        (target A Sym v).region ∧
      base Sym (target A Sym v).region (target A Sym v).key ≤
        (writeSlot A Sym (pre.foldl (splitStep A Sym Rs) (splitInit Sym)) v).2 ∧
      (writeSlot A Sym (pre.foldl (splitStep A Sym Rs) (splitInit Sym)) v).2 <
        base Sym (target A Sym v).region ((target A Sym v).key + 1)) ∧
    (∀ r, 0 ≤ r → r < Sym.m - Sym.n1 →
      (splitPass A Sym Rs (splitInit Sym)).cSp r = Sym.Sp (r + 1)) ∧
    (∀ k, 0 ≤ k → k < Sym.cs1 →
      (splitPass A Sym Rs (splitInit Sym)).cSup k = Sym.ustons_Sup (k + 1) - 1) ∧
    (∀ c, 0 ≤ c → c < Sym.rs1 →
      (splitPass A Sym Rs (splitInit Sym)).cSlp c = Sym.lstons_Slp (c + 1) - 1) := by
  refine ⟨?_, ?_, ?_, ?_⟩
  · intro pre v suf hV
    have hm : v ∈ visits A Sym := by rw [hV]; simp
    have hr := hv.regionValid (target A Sym v).region
    obtain ⟨k0, k1⟩ := hr.key_range v hm rfl
    obtain ⟨b0, b1⟩ := closedIndex_bounds hr hV
    rw [writeSlot_foldl]
    refine ⟨?_, k0, k1, rfl, b0, b1⟩
    unfold target
    simp only []
    split_ifs <;> rfl
  · intro r h0 h1
    have := cursor_splitPass_final Rs (hv.regionValid Region.Sx) h0 h1
    simpa [cursor, base, shift] using this
  · intro k h0 h1
    have := cursor_splitPass_final Rs (hv.regionValid Region.Sux) h0 h1
    simpa [cursor, base, shift] using this
  · intro c h0 h1
    have := cursor_splitPass_final Rs (hv.regionValid Region.Slx) h0 h1
    simpa [cursor, base, shift] using this

/-- Witness of C21 on the 3-by-3 example: the final cursors of its interior
row, its column singleton and its row singleton. -/
theorem C21_cursor_writes_in_segment_witness :
    ValidInput exA exSym ∧
    (splitPass exA exSym none (splitInit exSym)).cSp 0 = exSym.Sp (0 + 1) ∧
    (splitPass exA exSym none (splitInit exSym)).cSup 0 = exSym.ustons_Sup (0 + 1) - 1 ∧
    (splitPass exA exSym none (splitInit exSym)).cSlp 0 = exSym.lstons_Slp (0 + 1) - 1 :=
  ⟨exValid,
    (C21_cursor_writes_in_segment exA exSym none exValid).2.1 0 (by decide) (by decide),
    (C21_cursor_writes_in_segment exA exSym none exValid).2.2.1 0 (by decide) (by decide),
    (C21_cursor_writes_in_segment exA exSym none exValid).2.2.2 0 (by decide) (by decide)⟩

/-- C22 (scaling is applied exactly when the flag is 1).  On every return
with a numeric object: `Num->Rs` is null when `prescale != 1`; when it is
not null, `prescale == 1` and it is the array of the first pass; each of
`Sx`, `Sux`, `Slx` has no slot written or is the array left by the second pass
run with `Num->Rs`, and slots were written under `prescale == 1` only with
`Num->Rs` not null.  Every step of that pass writes one slot, in any of the
three arrays and for a diagonal slot as for the others, and the value written
for position `p` is `Ax[p]` when `Num->Rs` is null and `Ax[p] / Rs[Ai[p]]`
otherwise. -/
theorem C22_scaling_by_flag {alloc : AllocOutcomes}
    {lac_el : (Int → Option paru_element) → Int → Int}
    {A : cholmod_sparse} {Sym : ParU_Symbolic} {Control : ParU_Control}
    {info : ParU_Info} {Num : ParU_Numeric} {Work : paru_work}
    (h : paru_init_rowFronts alloc lac_el A Sym Control =
      Outcome.returned info (some Num) Work) :
    (Control.prescale ≠ 1 → Num.Rs = none) ∧
    (∀ R, Num.Rs = some R → Control.prescale = 1 ∧ R = scalePass A Sym (fun _ => 0)) ∧
    (Control.prescale = 1 → Num.Rs = none →
      unwritten Num.Sx ∧ unwritten Num.Sux ∧ unwritten Num.Slx) ∧
    (∀ a, Num.Sx = some a →
      (∀ k, a k = none) ∨ a = (splitPass A Sym Num.Rs (splitInit Sym)).Sx) ∧
    (∀ a, Num.Sux = some a →
      (∀ k, a k = none) ∨ a = (splitPass A Sym Num.Rs (splitInit Sym)).Sux) ∧
    (∀ a, Num.Slx = some a →
      (∀ k, a k = none) ∨ a = (splitPass A Sym Num.Rs (splitInit Sym)).Slx) ∧
    (∀ (st : SplitState) (v : Visit), ∃ (reg : Region) (i : Int), ∀ (reg' : Region) (j : Int),
      content (splitStep A Sym Num.Rs st v) reg' j =
        if (reg', j) = (reg, i) then some (scaledValue A Num.Rs v.p)
        else content st reg' j) ∧
    (Num.Rs = none → ∀ p, scaledValue A Num.Rs p = A.x p) ∧
    (∀ R, Num.Rs = some R → ∀ p, scaledValue A Num.Rs p = A.x p / R (A.i p)) := by
  have key : ∀ NH, (∃ i W, paru_init_rowFronts alloc lac_el A Sym Control =
      Outcome.returned i NH W) → ∀ N, NH = some N →
      (N.Rs = none ∧ unwritten N.Sx ∧ unwritten N.Sux ∧ unwritten N.Slx) ∨
      (N.Rs = scaleOf A Sym Control ∧ unwritten N.Sx ∧ unwritten N.Sux ∧ unwritten N.Slx) ∨
      (N.Rs = scaleOf A Sym Control ∧ (Control.prescale = 1 → N.Rs ≠ none) ∧
        (∀ a, N.Sx = some a → a = (splitPass A Sym N.Rs (splitInit Sym)).Sx) ∧
        (∀ a, N.Sux = some a → a = (splitPass A Sym N.Rs (splitInit Sym)).Sux) ∧
        (∀ a, N.Slx = some a → a = (splitPass A Sym N.Rs (splitInit Sym)).Slx)) := by
    rintro NH ⟨i, W, hr⟩
    refine init_return_cases
      (fun _ NH _ => ∀ N, NH = some N →
        (N.Rs = none ∧ unwritten N.Sx ∧ unwritten N.Sux ∧ unwritten N.Slx) ∨
        (N.Rs = scaleOf A Sym Control ∧ unwritten N.Sx ∧ unwritten N.Sux ∧ unwritten N.Slx) ∨
        (N.Rs = scaleOf A Sym Control ∧ (Control.prescale = 1 → N.Rs ≠ none) ∧
          (∀ a, N.Sx = some a → a = (splitPass A Sym N.Rs (splitInit Sym)).Sx) ∧
          (∀ a, N.Sux = some a → a = (splitPass A Sym N.Rs (splitInit Sym)).Sux) ∧
          (∀ a, N.Slx = some a → a = (splitPass A Sym N.Rs (splitInit Sym)).Slx)))
      ?_ ?_ ?_ ?_ ?_ ?_ ?_ ?_ ?_ hr
    · intro _ N hN
      cases hN
    · intro _ _ _ N hN
      injection hN with hN
      exact Or.inl (early_num alloc Sym N (Or.inl hN.symm)).2
    · intro _ _ _ _ _ N hN
      injection hN with hN
      exact Or.inl (early_num alloc Sym N (Or.inl hN.symm)).2
    · intro _ _ N hN
      injection hN with hN
      exact Or.inl (early_num alloc Sym N (Or.inr (Or.inl hN.symm))).2
    · intro _ _ N hN
      injection hN with hN
      exact Or.inl (early_num alloc Sym N (Or.inr (Or.inr (Or.inl hN.symm)))).2
    · intro _ _ N hN
      injection hN with hN
      exact Or.inl (early_num alloc Sym N (Or.inr (Or.inr (Or.inr hN.symm)))).2
    · intro _ _ hRs N hN
      injection hN with hN
      subst hN
      exact Or.inl ⟨hRs, numAfterRs_unwritten alloc Sym Control⟩
    · intro hpre _ N hN
      injection hN with hN
      subst hN
      exact Or.inr (Or.inl ⟨numScaled_Rs_of_pre A hpre.2.2.2.2.2.2,
        numAfterRs_unwritten alloc Sym Control⟩)
    · intro hpre _ _ N hN
      injection hN with hN
      subst hN
      obtain ⟨_, _, s1, s2, s3⟩ := numSplit_arrays A Sym
        (numScaled A Sym (numAfterRs alloc Sym Control))
      have hRs : (numSplit A Sym (numScaled A Sym (numAfterRs alloc Sym Control))).Rs =
          scaleOf A Sym Control := numScaled_Rs_of_pre A hpre.2.2.2.2.2.2
      refine Or.inr (Or.inr ⟨hRs, ?_, s1, s2, s3⟩)
      intro hp
      rw [hRs]
      unfold scaleOf
      rw [if_pos hp]
      exact fun q => by cases q
  have hk := key (some Num) ⟨info, Work, h⟩ Num rfl
  have left : ∀ {a : Option (Int → Option ℚ)} {b : Int → Option ℚ} (f : Int → Option ℚ),
      unwritten a → a = some f → (∀ k, f k = none) ∨ f = b :=
    fun f hu e => Or.inl (hu f e)
  refine ⟨?_, ?_, ?_, ?_, ?_, ?_, ?_, ?_, ?_⟩
  · intro hp
    rcases hk with ⟨e, _⟩ | ⟨e, _⟩ | ⟨e, _⟩
    · exact e
    · rw [e]; exact scaleOf_none hp
    · rw [e]; exact scaleOf_none hp
  · intro R hR
    rcases hk with ⟨e, _⟩ | ⟨e, _⟩ | ⟨e, _⟩
    · rw [e] at hR; cases hR
    · rw [e] at hR; exact scaleOf_some hR
    · rw [e] at hR; exact scaleOf_some hR
  · intro hp hn
    rcases hk with ⟨_, u⟩ | ⟨_, u⟩ | ⟨_, q, _⟩
    · exact u
    · exact u
    · exact absurd hn (q hp)
  · intro a ha
    rcases hk with ⟨_, u, _⟩ | ⟨_, u, _⟩ | ⟨_, _, s, _⟩
    · exact left a u ha
    · exact left a u ha
    · exact Or.inr (s a ha)
  · intro a ha
    rcases hk with ⟨_, _, u, _⟩ | ⟨_, _, u, _⟩ | ⟨_, _, _, s, _⟩
    · exact left a u ha
    · exact left a u ha
    · exact Or.inr (s a ha)
  · intro a ha
    rcases hk with ⟨_, _, _, u⟩ | ⟨_, _, _, u⟩ | ⟨_, _, _, _, s⟩
    · exact left a u ha
    · exact left a u ha
    · exact Or.inr (s a ha)
  · intro st v
    exact ⟨(target A Sym v).region, writeIndex Sym st (target A Sym v),
      fun reg' j => content_splitStep A Sym Num.Rs st v reg' j⟩
  · intro hn p
    rw [hn]
    rfl
  · intro R hR p
    rw [hR]
    rfl

/-- Witness of C22 on the 3-by-3 example with scaling disabled. -/
theorem C22_scaling_by_flag_witness :
    ∃ Num Work,
      paru_init_rowFronts allocAll lacZero exA exSym ctlPlain =
        Outcome.returned ParU_Info.PARU_SUCCESS (some Num) Work ∧
      Num.Rs = none ∧ ∀ p, scaledValue exA Num.Rs p = exA.x p :=
  ⟨_, _, init_allocAll_success lacZero exA exSym ctlPlain (by decide) (by decide)
      (not_foundSingular_ctlPlain exA exSym),
    (C22_scaling_by_flag (init_allocAll_success lacZero exA exSym ctlPlain (by decide) (by decide)
      (not_foundSingular_ctlPlain exA exSym))).1 (by decide),
    (C22_scaling_by_flag (init_allocAll_success lacZero exA exSym ctlPlain (by decide) (by decide)
      (not_foundSingular_ctlPlain exA exSym))).2.2.2.2.2.2.2.1
      ((C22_scaling_by_flag (init_allocAll_success lacZero exA exSym ctlPlain (by decide) (by decide)
        (not_foundSingular_ctlPlain exA exSym))).1 (by decide))⟩

/-- C23 as stated fails: with `row2atree` sending rows 0 and 1 to the
element id 0 and the allocation of the element of row 0 failing, the unit of
row 1 creates the heap `heapList[0]`, so at the return `heapList[row2atree[0]]`
is not null. -/
theorem C23_counterexample :
    ¬ (∀ info Num_handle Work,
        paru_init_rowFronts allocNoElement0 lacZero c2A c8Sym ctlPlain =
          Outcome.returned info Num_handle Work →
        ∀ r, 0 ≤ r → r < c8Sym.m - c8Sym.n1 → allocNoElement0.element r = false →
          ∃ heapList, Work.heapList = some heapList ∧
            heapList (c8Sym.row2atree r) = none) := by
  intro hc
  obtain ⟨HL, hHL, hn⟩ := hc _ _ _
    (init_reached lacZero c2A (preStageAllocated_allocNoElement0 c8Sym ctlPlain)
      (by decide) (by decide) (not_foundSingular_ctlPlain c2A c8Sym))
    0 (by decide) (by decide) rfl
  rw [(workAfterRowStage_arrays c8Sym _ _ (by decide)).2.2.2.1] at hHL
  injection hHL with hHL
  rw [← hHL] at hn
  have hcomp : (rowStage allocNoElement0 lacZero c8Sym (interiorValues c2A c8Sym ctlPlain)
      (c8Sym.m - c8Sym.n1) (rowStageInit workNull)).heapList (c8Sym.row2atree 0) =
        some [0] := by
    decide
  rw [hn] at hcomp
  cases hcomp

/-- C23 amended (a row whose element allocation fails is left empty and
counted once).  The unit of a row `r` for which `paru_create_element`
returns null records the degree bound, stores null in
`elementList[row2atree[r]]`, adds 1 to the failure counter and writes
nothing else.  When `row2atree` is one-to-one on the rows `0..m-1`, a call
that returns after reaching the per-row stage returns `PARU_OUT_OF_MEMORY`
with `elementList[row2atree[r]]` and `heapList[row2atree[r]]` null,
`RowList[r]` zero, and `rowMark[row2atree[r]]` and `lacList[row2atree[r]]` not
written. -/
theorem C23_failed_element_row (alloc : AllocOutcomes)
    (lac_el : (Int → Option paru_element) → Int → Int)
    (A : cholmod_sparse) (Sym : ParU_Symbolic) (Control : ParU_Control) (r : Int)
    (hinj : ∀ a, 0 ≤ a → a < Sym.m - Sym.n1 → ∀ b, 0 ≤ b → b < Sym.m - Sym.n1 →
      Sym.row2atree a = Sym.row2atree b → a = b)
    (h0 : 0 ≤ r) (h1 : r < Sym.m - Sym.n1)
    (hpre : preStageAllocated alloc Sym Control)
    (hns : ¬ foundSingular A Sym Control) (hfail : alloc.element r = false) :
    (∀ (Sx : Int → Option ℚ) (W : RowStage),
      rowUnit alloc lac_el Sym Sx W r =
        { W with
          row_degree_bound :=
            Function.update W.row_degree_bound r (some (Sym.Sp (r + 1) - Sym.Sp r)),
          elementList := Function.update W.elementList (Sym.row2atree r) none,
          out_of_memory := W.out_of_memory + 1 }) ∧
    ∀ info Num_handle Work,
      paru_init_rowFronts alloc lac_el A Sym Control =
        Outcome.returned info Num_handle Work →
      info = ParU_Info.PARU_OUT_OF_MEMORY ∧
      rowSlots Sym (rowStageInit Work) r = failedElementSlots Sym r := by
  refine ⟨fun Sx W => rowUnit_of_failed_element alloc lac_el Sym Sx W r hfail, ?_⟩
  intro info Num_handle Work h
  obtain ⟨_, hdef, hi, _, hW⟩ := init_returned hpre hns h
  have hnf : Sym.nf ≠ 0 := fun q => by have := hdef q; omega
  have i1 : finalInfo (rowStage alloc lac_el Sym (interiorValues A Sym Control)
      (Sym.m - Sym.n1) (rowStageInit workNull)).out_of_memory =
        ParU_Info.PARU_OUT_OF_MEMORY :=
    (finalInfo_rowStage alloc lac_el Sym _).1.mpr ⟨r, h0, h1, by simp [rowFails, hfail]⟩
  refine ⟨hi.trans i1, ?_⟩
  rw [hW, rowSlots_workAfterRowStage Sym _ _ hnf]
  obtain ⟨W', w1, w2⟩ := rowStage_rowSlots_unit alloc lac_el Sym
    (interiorValues A Sym Control) (loopRange 0 (Sym.m - Sym.n1)) (rowStageInit workNull) r
    (loopRange_nodup 0 _)
    (fun a ha e => hinj a (mem_loopRange.mp ha).1 (mem_loopRange.mp ha).2 r h0 h1 e)
    (mem_loopRange.mpr ⟨h0, h1⟩)
  unfold rowStage
  rw [w2, rowUnit_of_failed_element alloc lac_el Sym _ W' r hfail]
  rw [rowSlots_init] at w1
  have q2 : W'.RowList r = zeroTupleList := congrArg RowSlots.RowList w1
  have q4 : W'.rowMark (Sym.row2atree r) = none := congrArg RowSlots.rowMark w1
  have q5 : W'.heapList (Sym.row2atree r) = none := congrArg RowSlots.heap w1
  have q6 : W'.lacList (Sym.row2atree r) = none := congrArg RowSlots.lac w1
  simp [rowSlots, failedElementSlots, q2, q4, q5, q6]

/-- Witness of C23 on the 3-by-3 matrix with entries `(0,0)`, `(0,1)`,
`(1,1)`, `(2,2)`, the allocation of the element of row 1 failing. -/
theorem C23_failed_element_row_witness :
    allocNoElement1.element 1 = false ∧
    ∃ Num_handle Work,
      paru_init_rowFronts allocNoElement1 lacZero c20A (c20Sym 1 (arr [0, 1, 2] 0)) ctlPlain =
        Outcome.returned ParU_Info.PARU_OUT_OF_MEMORY Num_handle Work ∧
      rowSlots (c20Sym 1 (arr [0, 1, 2] 0)) (rowStageInit Work) 1 =
        failedElementSlots (c20Sym 1 (arr [0, 1, 2] 0)) 1 :=
  ⟨rfl, _, _,
    init_reached_failure lacZero c20A (preStageAllocated_allocNoElement1 _ ctlPlain)
      (by decide) (c20_splitPassNull _ _) (not_foundSingular_ctlPlain _ _)
      ⟨1, by decide, by decide, rfl⟩,
    ((C23_failed_element_row allocNoElement1 lacZero c20A (c20Sym 1 (arr [0, 1, 2] 0))
      ctlPlain 1 c20_row2atree_injective (by decide) (by decide)
      (preStageAllocated_allocNoElement1 _ _) (not_foundSingular_ctlPlain _ _)
      rfl).2 _ _ _
      (init_reached_failure lacZero c20A (preStageAllocated_allocNoElement1 _ ctlPlain)
        (by decide) (c20_splitPassNull _ _) (not_foundSingular_ctlPlain _ _)
        ⟨1, by decide, by decide, rfl⟩)).2⟩

/-- C24 as stated fails, whatever `lac_el` is: for the matrix `[3 1; 0 0]`
with one column singleton the function returns `PARU_SUCCESS`, its one
interior row has no entry in the interior block (`Sp[0] = Sp[1] = 0`), and
so no entry of `lacList` can be one of the column indices
`Sj[Sp[0]], ..., Sj[Sp[1]-1]` of the row: there is none. -/
theorem C24_counterexample :
    ¬ ∃ lac_el : (Int → Option paru_element) → Int → Int,
      ∀ Num_handle Work,
        paru_init_rowFronts allocAll lac_el c5A c5Sym ctlPlain =
          Outcome.returned ParU_Info.PARU_SUCCESS Num_handle Work →
        ∀ r, 0 ≤ r → r < c5Sym.m - c5Sym.n1 →
          ∃ lacList val, Work.lacList = some lacList ∧
            lacList (c5Sym.row2atree r) = some val ∧
            ∃ j, c5Sym.Sp r ≤ j ∧ j < c5Sym.Sp (r + 1) ∧ val = c5Sym.Sj j := by
  rintro ⟨lac_el, hc⟩
  obtain ⟨_, _, _, _, j, j0, j1, _⟩ := hc _ _
    (init_allocAll_success lac_el c5A c5Sym ctlPlain (by decide) (by decide)
      (not_foundSingular_ctlPlain c5A c5Sym)) 0 (by decide) (by decide)
  have a0 : c5Sym.Sp 0 = 0 := rfl
  have a1 : c5Sym.Sp (0 + 1) = 0 := rfl
  rw [a0] at j0
  rw [a1] at j1
  omega

/-- C24 amended (initial least active column).  Let `row2atree` be
one-to-one on the rows `0..m-1` and let `lac_el` return a column index of the
element it is asked about.  Whenever the function returns `PARU_SUCCESS`, for
every row `r` with at least one entry in the interior block
(`Sp[r] < Sp[r+1]`) the entry `lacList[row2atree[r]]` is the result of
`lac_el` on an element list that holds the filled element of the row, and it
is one of `Sj[Sp[r]], ..., Sj[Sp[r+1]-1]`. -/
theorem C24_initial_lac {alloc : AllocOutcomes}
    {lac_el : (Int → Option paru_element) → Int → Int}
    {A : cholmod_sparse} {Sym : ParU_Symbolic} {Control : ParU_Control}
    {Num_handle : Option ParU_Numeric} {Work : paru_work}
    (h : paru_init_rowFronts alloc lac_el A Sym Control =
      Outcome.returned ParU_Info.PARU_SUCCESS Num_handle Work)
    (hinj : ∀ a, 0 ≤ a → a < Sym.m - Sym.n1 → ∀ b, 0 ≤ b → b < Sym.m - Sym.n1 →
      Sym.row2atree a = Sym.row2atree b → a = b)
    (hcols : lacInColumns lac_el)
    (r : Int) (h0 : 0 ≤ r) (h1 : r < Sym.m - Sym.n1) (hlt : Sym.Sp r < Sym.Sp (r + 1)) :
    ∃ (lacList : Int → Option Int) (EL : Int → Option paru_element) (val : Int),
      Work.lacList = some lacList ∧ lacList (Sym.row2atree r) = some val ∧
      EL (Sym.row2atree r) = some (initialElement Sym (interiorValues A Sym Control) r) ∧
      val = lac_el EL (Sym.row2atree r) ∧
      ∃ j, Sym.Sp r ≤ j ∧ j < Sym.Sp (r + 1) ∧ val = Sym.Sj j := by
  obtain ⟨hpre, hns, hdef, hok⟩ := init_success_pre h
  have hnf : Sym.nf ≠ 0 := fun q => by have := hdef q; omega
  obtain ⟨_, _, _, _, hW⟩ := init_returned hpre hns h
  obtain ⟨W', _, w2⟩ := rowStage_rowSlots_unit alloc lac_el Sym
    (interiorValues A Sym Control) (loopRange 0 (Sym.m - Sym.n1)) (rowStageInit workNull) r
    (loopRange_nodup 0 _)
    (fun a ha e => hinj a (mem_loopRange.mp ha).1 (mem_loopRange.mp ha).2 r h0 h1 e)
    (mem_loopRange.mpr ⟨h0, h1⟩)
  obtain ⟨EL, hEL, hl⟩ := rowUnit_lac alloc lac_el Sym (interiorValues A Sym Control) W' r
    (hok r h0 h1)
  rw [← w2] at hl
  obtain ⟨f1, f2, _, f4⟩ := fillElement_spec Sym.Sp Sym.Sj (interiorValues A Sym Control) r
    { nrows := 1, ncols := Sym.Sp (r + 1) - Sym.Sp r,
      colrowIndex := fun _ => none, colrowNum := fun _ => none }
  have hn : (initialElement Sym (interiorValues A Sym Control) r).ncols =
      Sym.Sp (r + 1) - Sym.Sp r := f2
  obtain ⟨j, j0, j1, hj⟩ := hcols EL (Sym.row2atree r) _ hEL (by rw [hn]; omega)
    (fun j a b => by
      have := (f4 j a (by rw [hn] at b; exact b)).1
      unfold initialElement
      rw [this]
      rfl)
  rw [hn] at j1
  have hj' := (f4 j j0 j1).1
  unfold initialElement at hj
  rw [hj'] at hj
  injection hj with hj
  refine ⟨_, EL, _, by rw [hW]; exact (workAfterRowStage_arrays Sym _ _ hnf).2.2.2.2.2,
    hl, hEL, rfl, Sym.Sp r + j, by omega, by omega, hj.symm⟩

/-- Witness of C24 on the 3-by-3 matrix with entries `(0,0)`, `(0,1)`,
`(1,1)`, `(2,2)`, with `lac_el` returning the first column index of the
element: for row 0 the entry is one of `Sj[0]`, `Sj[1]`. -/
theorem C24_initial_lac_witness :
    lacInColumns lacFirst ∧
    ∃ (lacList : Int → Option Int) (EL : Int → Option paru_element) (val : Int),
      (workAfterRowStage (c20Sym 1 (arr [0, 1, 2] 0))
        (workDiagMap (c20Sym 1 (arr [0, 1, 2] 0))
          (workAfterMemset allocAll (c20Sym 1 (arr [0, 1, 2] 0))))
        (rowStage allocAll lacFirst (c20Sym 1 (arr [0, 1, 2] 0))
          (interiorValues c20A (c20Sym 1 (arr [0, 1, 2] 0)) ctlPlain)
          ((c20Sym 1 (arr [0, 1, 2] 0)).m - (c20Sym 1 (arr [0, 1, 2] 0)).n1)
          (rowStageInit workNull))).lacList = some lacList ∧
      lacList ((c20Sym 1 (arr [0, 1, 2] 0)).row2atree 0) = some val ∧
      EL ((c20Sym 1 (arr [0, 1, 2] 0)).row2atree 0) =
        some (initialElement (c20Sym 1 (arr [0, 1, 2] 0))
          (interiorValues c20A (c20Sym 1 (arr [0, 1, 2] 0)) ctlPlain) 0) ∧
      val = lacFirst EL ((c20Sym 1 (arr [0, 1, 2] 0)).row2atree 0) ∧
      ∃ j, (c20Sym 1 (arr [0, 1, 2] 0)).Sp 0 ≤ j ∧ j < (c20Sym 1 (arr [0, 1, 2] 0)).Sp (0 + 1) ∧
        val = (c20Sym 1 (arr [0, 1, 2] 0)).Sj j :=
  ⟨lacInColumns_lacFirst,
    C24_initial_lac
      (init_reached_success lacFirst c20A (preStageAllocated_allocAll _ ctlPlain) (by decide)
        (c20_splitPassNull _ _) (not_foundSingular_ctlPlain _ _)
        (fun r _ _ => rowFails_allocAll r))
      c20_row2atree_injective lacInColumns_lacFirst 0 (by decide) (by decide) (by decide)⟩

/-- C25 (sentinel values of the work arrays).  Whenever the function
returns `PARU_SUCCESS` with `nf != 0`: `rowSize[i] = -1` for `0 <= i < m`,
`elRow[k] = elCol[k] = -1` for `0 <= k < m + nf`, and the three arrays at the
return are the arrays left by lines 212-229, before the per-row stage. -/
theorem C25_sentinel_values {alloc : AllocOutcomes}
    {lac_el : (Int → Option paru_element) → Int → Int}
    {A : cholmod_sparse} {Sym : ParU_Symbolic} {Control : ParU_Control}
    {Num_handle : Option ParU_Numeric} {Work : paru_work}
    (h : paru_init_rowFronts alloc lac_el A Sym Control =
      Outcome.returned ParU_Info.PARU_SUCCESS Num_handle Work)
    (hnf : Sym.nf ≠ 0) :
    ∃ rowSize elRow elCol,
      Work.rowSize = some rowSize ∧ Work.elRow = some elRow ∧ Work.elCol = some elCol ∧
      (∀ i, 0 ≤ i → i < Sym.m - Sym.n1 → rowSize i = some (-1)) ∧
      (∀ k, 0 ≤ k → k < Sym.m - Sym.n1 + Sym.nf → elRow k = some (-1) ∧ elCol k = some (-1)) ∧
      Work.rowSize = (workAfterMemset alloc Sym).rowSize ∧
      Work.elRow = (workAfterMemset alloc Sym).elRow ∧
      Work.elCol = (workAfterMemset alloc Sym).elCol := by
  obtain ⟨hpre, hns, hdef, _⟩ := init_success_pre h
  obtain ⟨_, _, _, _, hW⟩ := init_returned hpre hns h
  obtain ⟨k1, k2, k3⟩ := sentinels_kept Sym (workAfterMemset alloc Sym)
    (rowStage alloc lac_el Sym (interiorValues A Sym Control) (Sym.m - Sym.n1)
      (rowStageInit workNull))
  rw [← hW] at k1 k2 k3
  obtain ⟨s1, s2, s3⟩ := workAfterMemset_sentinels alloc hnf
  obtain ⟨a1, a2, a3, a4, _⟩ := (hpre.2.1 hnf).1
  rw [a4] at s1
  rw [a2] at s2
  rw [a3] at s3
  refine ⟨_, _, _, k1.trans s1, k2.trans s2, k3.trans s3, ?_, ?_, k1, k2, k3⟩
  · intro i i0 i1
    simp [paru_memset, i0, i1]
  · intro k k0 k1
    simp [paru_memset, k0, k1]

/-- Witness of C25 on the 3-by-3 example with every allocation
succeeding. -/
theorem C25_sentinel_values_witness :
    exSym.nf ≠ 0 ∧
    ∃ Num_handle Work,
      paru_init_rowFronts allocAll lacZero exA exSym ctlPlain =
        Outcome.returned ParU_Info.PARU_SUCCESS Num_handle Work ∧
      ∃ rowSize elRow elCol,
        Work.rowSize = some rowSize ∧ Work.elRow = some elRow ∧ Work.elCol = some elCol ∧
        (∀ i, 0 ≤ i → i < exSym.m - exSym.n1 → rowSize i = some (-1)) ∧
        (∀ k, 0 ≤ k → k < exSym.m - exSym.n1 + exSym.nf →
          elRow k = some (-1) ∧ elCol k = some (-1)) ∧
        Work.rowSize = (workAfterMemset allocAll exSym).rowSize ∧
        Work.elRow = (workAfterMemset allocAll exSym).elRow ∧
        Work.elCol = (workAfterMemset allocAll exSym).elCol :=
  ⟨by decide, _, _,
    init_allocAll_success lacZero exA exSym ctlPlain (by decide) (by decide)
      (not_foundSingular_ctlPlain exA exSym),
    C25_sentinel_values (init_allocAll_success lacZero exA exSym ctlPlain (by decide) (by decide)
      (not_foundSingular_ctlPlain exA exSym)) (by decide)⟩

/-- C26 (the diagonal maps exist exactly for the symmetric strategy with a
front).  On every return, `Work->Diag_map` is not null if and only if the
strategy is symmetric, `nf != 0`, and the allocations of the numeric object,
of the workspace arrays and of `Diag_map` itself succeeded; likewise for
`Work->inv_Diag_map`; so both are null for another strategy or for `nf = 0`.
With `Diag_map` null the loop of lines 417-425 leaves the work object as it
is. -/
theorem C26_diag_map_presence {alloc : AllocOutcomes}
    {lac_el : (Int → Option paru_element) → Int → Int}
    {A : cholmod_sparse} {Sym : ParU_Symbolic} {Control : ParU_Control}
    {info : ParU_Info} {Num_handle : Option ParU_Numeric} {Work : paru_work}
    (h : paru_init_rowFronts alloc lac_el A Sym Control =
      Outcome.returned info Num_handle Work) :
    (Work.Diag_map.isSome = true ↔
      Sym.symmetric = true ∧ Sym.nf ≠ 0 ∧ alloc.Num = true ∧ workspaceOk alloc ∧
        alloc.Diag_map = true) ∧
    (Work.inv_Diag_map.isSome = true ↔
      Sym.symmetric = true ∧ Sym.nf ≠ 0 ∧ alloc.Num = true ∧ workspaceOk alloc ∧
        alloc.inv_Diag_map = true) ∧
    (¬ (Sym.symmetric = true ∧ Sym.nf ≠ 0) →
      Work.Diag_map = none ∧ Work.inv_Diag_map = none) ∧
    (∀ W : paru_work, W.Diag_map = none → workDiagMap Sym W = W) := by
  have key : (Work.Diag_map.isSome = true ↔
        Sym.symmetric = true ∧ Sym.nf ≠ 0 ∧ alloc.Num = true ∧ workspaceOk alloc ∧
          alloc.Diag_map = true) ∧
      (Work.inv_Diag_map.isSome = true ↔
        Sym.symmetric = true ∧ Sym.nf ≠ 0 ∧ alloc.Num = true ∧ workspaceOk alloc ∧
          alloc.inv_Diag_map = true) := by
    have late : ∀ W : paru_work, workAllocated alloc Sym →
        W.Diag_map.isSome = (workAfterDiagAlloc alloc Sym).Diag_map.isSome →
        W.inv_Diag_map.isSome = (workAfterDiagAlloc alloc Sym).inv_Diag_map.isSome →
        (W.Diag_map.isSome = true ↔
          Sym.symmetric = true ∧ Sym.nf ≠ 0 ∧ alloc.Num = true ∧ workspaceOk alloc ∧
            alloc.Diag_map = true) ∧
        (W.inv_Diag_map.isSome = true ↔
          Sym.symmetric = true ∧ Sym.nf ≠ 0 ∧ alloc.Num = true ∧ workspaceOk alloc ∧
            alloc.inv_Diag_map = true) := by
      intro W hw e1 e2
      obtain ⟨d1, d2⟩ := workAfterDiagAlloc_Diag_map alloc Sym
      rw [e1, e2, d1, d2]
      exact ⟨diag_isSome_iff _ hw.1 (fun q => (hw.2 q).1),
        diag_isSome_iff _ hw.1 (fun q => (hw.2 q).1)⟩
    have memset : (workAfterMemset alloc Sym).Diag_map.isSome =
          (workAfterDiagAlloc alloc Sym).Diag_map.isSome ∧
        (workAfterMemset alloc Sym).inv_Diag_map.isSome =
          (workAfterDiagAlloc alloc Sym).inv_Diag_map.isSome := by
      obtain ⟨d1, d2⟩ := workAfterDiagAlloc_Diag_map alloc Sym
      obtain ⟨m1, m2⟩ := workAfterMemset_Diag_map alloc Sym
      rw [d1, d2, m1, m2]
      exact ⟨rfl, rfl⟩
    refine init_return_cases
      (fun _ _ W => (W.Diag_map.isSome = true ↔
          Sym.symmetric = true ∧ Sym.nf ≠ 0 ∧ alloc.Num = true ∧ workspaceOk alloc ∧
            alloc.Diag_map = true) ∧
        (W.inv_Diag_map.isSome = true ↔
          Sym.symmetric = true ∧ Sym.nf ≠ 0 ∧ alloc.Num = true ∧ workspaceOk alloc ∧
            alloc.inv_Diag_map = true))
      ?_ ?_ ?_ ?_ ?_ ?_ ?_ ?_ ?_ h
    · intro hN
      constructor
      · simp [workNull, hN]
      · simp [workNull, hN]
    · intro _ _ hw
      obtain ⟨n1, n2⟩ := workAfterAlloc_Diag_map alloc Sym
      rw [n1, n2]
      constructor
      · simp only [Option.isSome_none, Bool.false_eq_true, false_iff]
        exact fun q => hw q.2.2.2.1
      · simp only [Option.isSome_none, Bool.false_eq_true, false_iff]
        exact fun q => hw q.2.2.2.1
    · intro hN _ _ hw _
      obtain ⟨d1, d2⟩ := workAfterDiagAlloc_Diag_map alloc Sym
      rw [d1, d2]
      exact ⟨diag_isSome_iff _ hN (fun _ => hw), diag_isSome_iff _ hN (fun _ => hw)⟩
    · intro hw _
      exact late _ hw rfl rfl
    · intro hw _
      exact late _ hw rfl rfl
    · intro hw _
      exact late _ hw rfl rfl
    · intro hw _ _
      exact late _ hw rfl rfl
    · intro hpre _
      exact late _ (workAllocated_of_pre hpre) memset.1 memset.2
    · intro hpre _ _
      obtain ⟨r1, r2⟩ := workAfterRowStage_Diag_map Sym
        (workDiagMap Sym (workAfterMemset alloc Sym))
        (rowStage alloc lac_el Sym (interiorValues A Sym Control) (Sym.m - Sym.n1)
          (rowStageInit workNull))
      obtain ⟨s1, s2⟩ := workDiagMap_isSome Sym (workAfterMemset alloc Sym)
      exact late _ (workAllocated_of_pre hpre)
        (by rw [r1, s1]; exact memset.1) (by rw [r2, s2]; exact memset.2)
  refine ⟨key.1, key.2, ?_, fun W hW => workDiagMap_of_null Sym W hW⟩
  intro hn
  constructor
  · cases hD : Work.Diag_map with
    | none => rfl
    | some D =>
      have := key.1.mp (by rw [hD]; rfl)
      exact absurd ⟨this.1, this.2.1⟩ hn
  · cases hI : Work.inv_Diag_map with
    | none => rfl
    | some I =>
      have := key.2.mp (by rw [hI]; rfl)
      exact absurd ⟨this.1, this.2.1⟩ hn

/-- Witness of C26 on the 3-by-3 example under the symmetric strategy: both
maps are present at the return. -/
theorem C26_diag_map_presence_witness :
    ∃ Num_handle Work,
      paru_init_rowFronts allocAll lacZero exA c14Sym ctlPlain =
        Outcome.returned ParU_Info.PARU_SUCCESS Num_handle Work ∧
      Work.Diag_map.isSome = true ∧ Work.inv_Diag_map.isSome = true :=
  ⟨_, _, init_allocAll_success lacZero exA c14Sym ctlPlain (by decide) (by decide)
      (not_foundSingular_ctlPlain exA c14Sym),
    (C26_diag_map_presence (init_allocAll_success lacZero exA c14Sym ctlPlain (by decide) (by decide)
      (not_foundSingular_ctlPlain exA c14Sym))).1.mpr
      ⟨rfl, by decide, rfl, by simp [workspaceOk, allocAll], rfl⟩,
    (C26_diag_map_presence (init_allocAll_success lacZero exA c14Sym ctlPlain (by decide) (by decide)
      (not_foundSingular_ctlPlain exA c14Sym))).2.1.mpr
      ⟨rfl, by decide, rfl, by simp [workspaceOk, allocAll], rfl⟩⟩

/-- C27 (scaled values are normalised per row).  With scaling enabled,
exact arithmetic, `Qfill` a permutation and every original row that has a
stored entry having a nonzero stored entry: the slot of `Sx`, `Sux` or `Slx`
written by any step of the second pass holds, once the step is done, a value
of absolute value at most 1; every value present in the three arrays after the
pass has absolute value at most 1; for every original row with a stored entry
some step writes, for an entry of that row, a slot that then holds a value of
absolute value 1; and for a valid input that slot still holds this value after
the pass.  A call that returns after the second pass has run it with these
scales. -/
theorem C27_scaled_values_normalised (A : cholmod_sparse) (Sym : ParU_Symbolic)
    (Control : ParU_Control) (hp : Control.prescale = 1) (hq : IsPerm Sym.Qfill Sym.n)
    (hnz : ∀ i, (∃ c p, stored A Sym.n c p ∧ A.i p = i) →
      ∃ c p, stored A Sym.n c p ∧ A.i p = i ∧ A.x p ≠ 0) :
    (∀ pre v suf, visits A Sym = pre ++ v :: suf →
      ∃ x,
        content
          (splitStep A Sym (scaleOf A Sym Control)
            (pre.foldl (splitStep A Sym (scaleOf A Sym Control)) (splitInit Sym)) v)
          (writeSlot A Sym
            (pre.foldl (splitStep A Sym (scaleOf A Sym Control)) (splitInit Sym)) v).1
          (writeSlot A Sym
            (pre.foldl (splitStep A Sym (scaleOf A Sym Control)) (splitInit Sym)) v).2 =
          some x ∧ |x| ≤ 1) ∧
    (∀ reg j x,
      content (splitPass A Sym (scaleOf A Sym Control) (splitInit Sym)) reg j = some x →
      |x| ≤ 1) ∧
    (∀ i, (∃ c p, stored A Sym.n c p ∧ A.i p = i) →
      ∃ pre v suf x, visits A Sym = pre ++ v :: suf ∧ A.i v.p = i ∧ |x| = 1 ∧
        content
          (splitStep A Sym (scaleOf A Sym Control)
            (pre.foldl (splitStep A Sym (scaleOf A Sym Control)) (splitInit Sym)) v)
          (writeSlot A Sym
            (pre.foldl (splitStep A Sym (scaleOf A Sym Control)) (splitInit Sym)) v).1
          (writeSlot A Sym
            (pre.foldl (splitStep A Sym (scaleOf A Sym Control)) (splitInit Sym)) v).2 =
          some x ∧
        (ValidInput A Sym →
          content (splitPass A Sym (scaleOf A Sym Control) (splitInit Sym))
            (writeSlot A Sym
              (pre.foldl (splitStep A Sym (scaleOf A Sym Control)) (splitInit Sym)) v).1
            (writeSlot A Sym
              (pre.foldl (splitStep A Sym (scaleOf A Sym Control)) (splitInit Sym)) v).2 =
            some x)) ∧
    (∀ (alloc : AllocOutcomes) (lac_el : (Int → Option paru_element) → Int → Int),
      preStageAllocated alloc Sym Control → ¬ foundSingular A Sym Control →
      ∀ info Num_handle Work,
        paru_init_rowFronts alloc lac_el A Sym Control =
          Outcome.returned info Num_handle Work →
        ∃ Num, Num_handle = some Num ∧
          Num.Rs = scaleOf A Sym Control ∧
          Num.Sx = some (splitPass A Sym (scaleOf A Sym Control) (splitInit Sym)).Sx ∧
          (∀ a, Num.Sux = some a →
            a = (splitPass A Sym (scaleOf A Sym Control) (splitInit Sym)).Sux) ∧
          (∀ a, Num.Slx = some a →
            a = (splitPass A Sym (scaleOf A Sym Control) (splitInit Sym)).Slx)) := by
  have hs : scaleOf A Sym Control = some (scalePass A Sym (fun _ => 0)) := by
    unfold scaleOf
    rw [if_pos hp]
  have val : ∀ p, scaledValue A (scaleOf A Sym Control) p =
      A.x p / scalePass A Sym (fun _ => 0) (A.i p) := by
    intro p
    rw [hs]
    rfl
  have pos : ∀ v ∈ visits A Sym, 0 < scalePass A Sym (fun _ => 0) (A.i v.p) := by
    intro v hv
    have hst := stored_of_mem_visits hq hv
    obtain ⟨c, p, hcp, hi, hx⟩ := hnz (A.i v.p) ⟨_, _, hst, rfl⟩
    have := (scalePass_max hq (A.i v.p)).1 c p hcp hi
    exact lt_of_lt_of_le (abs_pos.mpr hx) this
  have bound : ∀ v ∈ visits A Sym, |scaledValue A (scaleOf A Sym Control) v.p| ≤ 1 := by
    intro v hv
    have hst := stored_of_mem_visits hq hv
    have hle := (scalePass_max hq (A.i v.p)).1 _ _ hst rfl
    have hpos := pos v hv
    rw [val, abs_div, abs_of_pos hpos]
    exact (div_le_one hpos).mpr hle
  have written : ∀ (st : SplitState) (v : Visit),
      content (splitStep A Sym (scaleOf A Sym Control) st v)
        (writeSlot A Sym st v).1 (writeSlot A Sym st v).2 =
        some (scaledValue A (scaleOf A Sym Control) v.p) := by
    intro st v
    rw [content_splitStep, if_pos rfl]
  refine ⟨?_, ?_, ?_, ?_⟩
  · intro pre v suf hV
    have hv : v ∈ visits A Sym := by rw [hV]; simp
    exact ⟨_, written _ v, bound v hv⟩
  · intro reg j x hx
    rw [splitPass_eq_foldl] at hx
    rcases content_foldl_value A Sym _ _ _ reg j x hx with h0 | ⟨v, hv, e⟩
    · rw [content_splitInit] at h0
      cases h0
    · rw [e]
      exact bound v hv
  · intro i hi
    obtain ⟨c, p, hcp, hpi, hmax⟩ := (scalePass_max hq i).2.1 hi
    obtain ⟨v, hv, _, hvp⟩ := stored_entry_visited hq hcp.1 hcp.2.1 hcp.2.2.1 hcp.2.2.2
    obtain ⟨pre, suf, hV⟩ := List.mem_iff_append.mp hv
    have hone : |scaledValue A (scaleOf A Sym Control) v.p| = 1 := by
      have hpos := pos v hv
      rw [val, abs_div, abs_of_pos hpos, hvp, hpi, hmax]
      rw [hvp, hpi, hmax] at hpos
      exact div_self (ne_of_gt hpos)
    refine ⟨pre, v, suf, _, hV, by rw [hvp]; exact hpi, hone, written _ v, ?_⟩
    intro hvalid
    have := content_splitPass_of_visit (scaleOf A Sym Control)
      (hvalid.regionValid (target A Sym v).region) hV
    rw [writeSlot_foldl]
    exact this
  · intro alloc lac_el hpre hns info Num_handle Work h
    obtain ⟨_, _, _, hN, _⟩ := init_returned hpre hns h
    obtain ⟨hR, _, s1, s2, s3⟩ := numSplit_arrays A Sym
      (numScaled A Sym (numAfterRs alloc Sym Control))
    have hRs : (numSplit A Sym (numScaled A Sym (numAfterRs alloc Sym Control))).Rs =
        scaleOf A Sym Control := numScaled_Rs_of_pre A hpre.2.2.2.2.2.2
    rw [hRs] at s2 s3
    exact ⟨_, hN, hRs, numSplit_Sx_of_pre A hpre, s2, s3⟩

/-- Witness of C27 on the 3-by-3 example with scaling enabled: every value
present in the three arrays after the pass has absolute value at most 1. -/
theorem C27_scaled_values_normalised_witness :
    ctlScaled.prescale = 1 ∧ IsPerm exSym.Qfill exSym.n ∧
    ∀ reg j x,
      content (splitPass exA exSym (scaleOf exA exSym ctlScaled) (splitInit exSym)) reg j =
        some x → |x| ≤ 1 :=
  ⟨rfl, exValid.qfill_perm,
    (C27_scaled_values_normalised exA exSym ctlScaled rfl exValid.qfill_perm (by
      intro i ⟨c, p, hs, hi⟩
      refine ⟨c, p, hs, hi, ?_⟩
      obtain ⟨c0, c1, p0, p1⟩ := hs
      have hn : exSym.n = 3 := rfl
      rw [hn] at c1
      have hp : 0 ≤ p ∧ p < 6 := by
        interval_cases c
        · have a0 : exA.p 0 = 0 := rfl
          have a1 : exA.p (0 + 1) = 1 := rfl
          rw [a0] at p0
          rw [a1] at p1
          omega
        · have a0 : exA.p 1 = 1 := rfl
          have a1 : exA.p (1 + 1) = 4 := rfl
          rw [a0] at p0
          rw [a1] at p1
          omega
        · have a0 : exA.p 2 = 4 := rfl
          have a1 : exA.p (2 + 1) = 6 := rfl
          rw [a0] at p0
          rw [a1] at p1
          omega
      obtain ⟨q0, q1⟩ := hp
      interval_cases p <;> decide)).2.1⟩

/-- C28 (the failure counter counts failed rows).  The unit of a row adds 1
to `out_of_memory` when one of the allocations of the row fails (the element,
or the heap once the element is there, or the tuple list once the heap is
there) and nothing otherwise; after the stage the counter is the number of
rows among `0..m-1` with a failed allocation, which is at most `m`; and a
call that returns after reaching the stage returns the status computed from
this number. -/
theorem C28_failure_counter (alloc : AllocOutcomes)
    (lac_el : (Int → Option paru_element) → Int → Int) (A : cholmod_sparse)
    (Sym : ParU_Symbolic) (Control : ParU_Control) :
    (∀ r, rowFails alloc r = true ↔
      alloc.element r = false ∨ alloc.heapNew r = false ∨ alloc.heapPush r = false ∨
        alloc.rowList r = false) ∧
    (∀ (Sx : Int → Option ℚ) (W : RowStage) (r : Int),
      (rowUnit alloc lac_el Sym Sx W r).out_of_memory =
        W.out_of_memory + if rowFails alloc r then 1 else 0) ∧
    (∀ (Sx : Int → Option ℚ),
      (rowStage alloc lac_el Sym Sx (Sym.m - Sym.n1) (rowStageInit workNull)).out_of_memory =
        ((loopRange 0 (Sym.m - Sym.n1)).countP (rowFails alloc) : Nat) ∧
      (0 ≤ Sym.m - Sym.n1 →
        (rowStage alloc lac_el Sym Sx (Sym.m - Sym.n1)
          (rowStageInit workNull)).out_of_memory ≤ Sym.m - Sym.n1)) ∧
    (preStageAllocated alloc Sym Control → ¬ foundSingular A Sym Control →
      ∀ info Num_handle Work,
        paru_init_rowFronts alloc lac_el A Sym Control =
          Outcome.returned info Num_handle Work →
        info = finalInfo ((loopRange 0 (Sym.m - Sym.n1)).countP (rowFails alloc) : Nat)) := by
  have cnt : ∀ (Sx : Int → Option ℚ),
      (rowStage alloc lac_el Sym Sx (Sym.m - Sym.n1) (rowStageInit workNull)).out_of_memory =
        ((loopRange 0 (Sym.m - Sym.n1)).countP (rowFails alloc) : Nat) :=
    fun Sx => rowStageResult_out_of_memory alloc lac_el Sym Sx workNull
  refine ⟨?_, fun Sx W r => rowUnit_out_of_memory alloc lac_el Sym Sx W r, ?_, ?_⟩
  · intro r
    unfold rowFails
    cases alloc.element r <;> cases alloc.heapNew r <;> cases alloc.heapPush r <;>
      cases alloc.rowList r <;> simp
  · intro Sx
    refine ⟨cnt Sx, fun hm => ?_⟩
    rw [cnt Sx]
    have h1 := List.countP_le_length (rowFails alloc) (l := loopRange 0 (Sym.m - Sym.n1))
    rw [length_loopRange] at h1
    omega
  · intro hpre hns info Num_handle Work h
    obtain ⟨_, _, hi, _, _⟩ := init_returned hpre hns h
    rw [cnt] at hi
    exact hi

/-- C29 as stated fails: with `row2atree` sending rows 0 and 1 to the
element id 0 and the allocation of `RowList[0].list` failing, the unit of row
1 records a least active column in `lacList[0]`, so at the return
`lacList[row2atree[0]]` is set. -/
theorem C29_counterexample :
    ¬ (∀ info Num_handle Work,
        paru_init_rowFronts allocNoRowList0 lacZero c2A c8Sym ctlPlain =
          Outcome.returned info Num_handle Work →
        ∀ r, 0 ≤ r → r < c8Sym.m - c8Sym.n1 → allocNoRowList0.rowList r = false →
          ∃ lacList, Work.lacList = some lacList ∧
            lacList (c8Sym.row2atree r) = none) := by
  intro hc
  obtain ⟨LL, hLL, hn⟩ := hc _ _ _
    (init_reached lacZero c2A (preStageAllocated_allocNoRowList0 c8Sym ctlPlain)
      (by decide) (by decide) (not_foundSingular_ctlPlain c2A c8Sym))
    0 (by decide) (by decide) rfl
  rw [(workAfterRowStage_arrays c8Sym _ _ (by decide)).2.2.2.2.2] at hLL
  injection hLL with hLL
  rw [← hLL] at hn
  have hcomp : (rowStage allocNoRowList0 lacZero c8Sym (interiorValues c2A c8Sym ctlPlain)
      (c8Sym.m - c8Sym.n1) (rowStageInit workNull)).lacList (c8Sym.row2atree 0) =
        some 0 := by
    decide
  rw [hn] at hcomp
  cases hcomp

/-- C29 amended (a tuple-list allocation failure leaves a created but
unfilled element).  The unit of a row `r` whose element and heap are created
and whose `RowList[r].list` allocation fails records the degree bound, stores
the new element, marks it, stores the heap `[row2atree[r]]`, sets
`RowList[r].list` to null, adds 1 to the failure counter and writes nothing
else.  When `row2atree` is one-to-one on the rows `0..m-1`, a call that
returns after reaching the per-row stage returns `PARU_OUT_OF_MEMORY` with
`elementList[row2atree[r]]` an element with 1 row and `Sp[r+1] - Sp[r]`
columns none of whose index or numeric entries is written,
`heapList[row2atree[r]] = [row2atree[r]]`, `lacList[row2atree[r]]` not
written, and `RowList[r]` with `numTuple = 0`, `len = 0` and a null list. -/
theorem C29_failed_tuple_list_row (alloc : AllocOutcomes)
    (lac_el : (Int → Option paru_element) → Int → Int)
    (A : cholmod_sparse) (Sym : ParU_Symbolic) (Control : ParU_Control) (r : Int)
    (hinj : ∀ a, 0 ≤ a → a < Sym.m - Sym.n1 → ∀ b, 0 ≤ b → b < Sym.m - Sym.n1 →
      Sym.row2atree a = Sym.row2atree b → a = b)
    (h0 : 0 ≤ r) (h1 : r < Sym.m - Sym.n1)
    (hpre : preStageAllocated alloc Sym Control)
    (hns : ¬ foundSingular A Sym Control)
    (a1 : alloc.element r = true) (a2 : alloc.heapNew r = true)
    (a3 : alloc.heapPush r = true) (a4 : alloc.rowList r = false) :
    (∀ (Sx : Int → Option ℚ) (W : RowStage),
      rowUnit alloc lac_el Sym Sx W r =
        { W with
          row_degree_bound :=
            Function.update W.row_degree_bound r (some (Sym.Sp (r + 1) - Sym.Sp r)),
          elementList := Function.update W.elementList (Sym.row2atree r)
            (some { nrows := 1, ncols := Sym.Sp (r + 1) - Sym.Sp r,
                    colrowIndex := fun _ => none, colrowNum := fun _ => none }),
          rowMark := Function.update W.rowMark (Sym.row2atree r) (some 0),
          heapList := Function.update W.heapList (Sym.row2atree r) (some [Sym.row2atree r]),
          RowList := Function.update W.RowList r
            { numTuple := (W.RowList r).numTuple, len := (W.RowList r).len, list := none },
          out_of_memory := W.out_of_memory + 1 }) ∧
    ∀ info Num_handle Work,
      paru_init_rowFronts alloc lac_el A Sym Control =
        Outcome.returned info Num_handle Work →
      info = ParU_Info.PARU_OUT_OF_MEMORY ∧
      rowSlots Sym (rowStageInit Work) r = failedRowListSlots Sym r := by
  refine ⟨fun Sx W => rowUnit_of_failed_rowList alloc lac_el Sym Sx W r a1 a2 a3 a4, ?_⟩
  intro info Num_handle Work h
  obtain ⟨_, hdef, hi, _, hW⟩ := init_returned hpre hns h
  have hnf : Sym.nf ≠ 0 := fun q => by have := hdef q; omega
  have i1 : finalInfo (rowStage alloc lac_el Sym (interiorValues A Sym Control)
      (Sym.m - Sym.n1) (rowStageInit workNull)).out_of_memory =
        ParU_Info.PARU_OUT_OF_MEMORY :=
    (finalInfo_rowStage alloc lac_el Sym _).1.mpr ⟨r, h0, h1, by simp [rowFails, a4]⟩
  refine ⟨hi.trans i1, ?_⟩
  rw [hW, rowSlots_workAfterRowStage Sym _ _ hnf]
  obtain ⟨W', w1, w2⟩ := rowStage_rowSlots_unit alloc lac_el Sym
    (interiorValues A Sym Control) (loopRange 0 (Sym.m - Sym.n1)) (rowStageInit workNull) r
    (loopRange_nodup 0 _)
    (fun a ha e => hinj a (mem_loopRange.mp ha).1 (mem_loopRange.mp ha).2 r h0 h1 e)
    (mem_loopRange.mpr ⟨h0, h1⟩)
  unfold rowStage
  rw [w2, rowUnit_of_failed_rowList alloc lac_el Sym _ W' r a1 a2 a3 a4]
  rw [rowSlots_init] at w1
  have q2 : W'.RowList r = zeroTupleList := congrArg RowSlots.RowList w1
  have q6 : W'.lacList (Sym.row2atree r) = none := congrArg RowSlots.lac w1
  simp [rowSlots, failedRowListSlots, q2, q6, zeroTupleList]

/-- Witness of C29 on the 3-by-3 matrix with entries `(0,0)`, `(0,1)`,
`(1,1)`, `(2,2)`, the allocation of `RowList[0].list` failing. -/
theorem C29_failed_tuple_list_row_witness :
    allocNoRowList0.rowList 0 = false ∧
    ∃ Num_handle Work,
      paru_init_rowFronts allocNoRowList0 lacZero c20A (c20Sym 1 (arr [0, 1, 2] 0)) ctlPlain =
        Outcome.returned ParU_Info.PARU_OUT_OF_MEMORY Num_handle Work ∧
      rowSlots (c20Sym 1 (arr [0, 1, 2] 0)) (rowStageInit Work) 0 =
        failedRowListSlots (c20Sym 1 (arr [0, 1, 2] 0)) 0 :=
  ⟨rfl, _, _,
    init_reached_failure lacZero c20A (preStageAllocated_allocNoRowList0 _ ctlPlain)
      (by decide) (c20_splitPassNull _ _) (not_foundSingular_ctlPlain _ _)
      ⟨0, by decide, by decide, rfl⟩,
    ((C29_failed_tuple_list_row allocNoRowList0 lacZero c20A (c20Sym 1 (arr [0, 1, 2] 0))
      ctlPlain 0 c20_row2atree_injective (by decide) (by decide)
      (preStageAllocated_allocNoRowList0 _ _) (not_foundSingular_ctlPlain _ _)
      rfl rfl rfl rfl).2 _ _ _
      (init_reached_failure lacZero c20A (preStageAllocated_allocNoRowList0 _ ctlPlain)
        (by decide) (c20_splitPassNull _ _) (not_foundSingular_ctlPlain _ _)
        ⟨0, by decide, by decide, rfl⟩)).2⟩

/-- C30 (recorded status and returned status).  When the numeric object
cannot be allocated, the function returns `PARU_OUT_OF_MEMORY` and
`*Num_handle` is null.  Otherwise, on every return the numeric object exists,
`Num->res` is `PARU_SINGULAR` if and only if the function returns
`PARU_SINGULAR`, and on every other return `Num->res` is `PARU_SUCCESS`, also
when the function returns `PARU_OUT_OF_MEMORY`. -/
theorem C30_recorded_status (alloc : AllocOutcomes)
    (lac_el : (Int → Option paru_element) → Int → Int)
    (A : cholmod_sparse) (Sym : ParU_Symbolic) (Control : ParU_Control) :
    (alloc.Num = false →
      paru_init_rowFronts alloc lac_el A Sym Control =
        Outcome.returned ParU_Info.PARU_OUT_OF_MEMORY none workNull) ∧
    (∀ info Num_handle Work,
      paru_init_rowFronts alloc lac_el A Sym Control =
        Outcome.returned info Num_handle Work →
      alloc.Num = true →
      ∃ Num, Num_handle = some Num ∧
        (Num.res = ParU_Info.PARU_SINGULAR ↔ info = ParU_Info.PARU_SINGULAR) ∧
        (info ≠ ParU_Info.PARU_SINGULAR → Num.res = ParU_Info.PARU_SUCCESS)) := by
  constructor
  · intro hN
    unfold paru_init_rowFronts
    rw [if_pos hN]
  · intro info NH Work h hN
    have ok : ∀ N : ParU_Numeric, N.res = ParU_Info.PARU_SUCCESS →
        ∃ Num, some N = some Num ∧
          (Num.res = ParU_Info.PARU_SINGULAR ↔
            ParU_Info.PARU_OUT_OF_MEMORY = ParU_Info.PARU_SINGULAR) ∧
          (ParU_Info.PARU_OUT_OF_MEMORY ≠ ParU_Info.PARU_SINGULAR →
            Num.res = ParU_Info.PARU_SUCCESS) := by
      intro N hres
      refine ⟨N, rfl, ?_, fun _ => hres⟩
      rw [hres]
      constructor <;> exact fun q => by cases q
    obtain ⟨r1, r2, r3, r4⟩ := numAfterSlx_res alloc Sym
    refine init_return_cases
      (fun info NH _ => ∃ Num, NH = some Num ∧
        (Num.res = ParU_Info.PARU_SINGULAR ↔ info = ParU_Info.PARU_SINGULAR) ∧
        (info ≠ ParU_Info.PARU_SINGULAR → Num.res = ParU_Info.PARU_SUCCESS))
      ?_ ?_ ?_ ?_ ?_ ?_ ?_ ?_ ?_ h
    · intro hN'
      rw [hN] at hN'
      cases hN'
    · exact fun _ _ _ => ok _ r1
    · exact fun _ _ _ _ _ => ok _ r1
    · exact fun _ _ => ok _ r2
    · exact fun _ _ => ok _ r3
    · exact fun _ _ => ok _ r4
    · exact fun _ _ _ => ok _ (numAfterRs_res alloc Sym Control)
    · intro _ _
      exact ⟨_, rfl, ⟨fun _ => rfl, fun _ => rfl⟩, fun q => absurd rfl q⟩
    · intro _ _ _
      have hres : (numSplit A Sym (numScaled A Sym (numAfterRs alloc Sym Control))).res =
          ParU_Info.PARU_SUCCESS := numAfterRs_res alloc Sym Control
      refine ⟨_, rfl, ?_, fun _ => hres⟩
      rw [hres]
      constructor
      · exact fun q => by cases q
      · exact fun q => absurd q (finalInfo_ne_singular _)
end ParU
